import Mathlib

/-!
librep `values.c`: type registry, value dispatch and the pair pool

A shallow embedding of `src/src/values.c` (Lisp data handling and garbage
collection of librep/Jade) together with theorems about it.

Conventions of the embedding

* C statics (`data_types`, `next_free_type`, `cons_freelist`, ...) are fields
  of explicit state records that every function takes and returns.
* `assert (e)` with `e` false aborts the process: the function returns
  `Except.error Fault.assert_failed` and there is no state afterwards.
* The results of the external allocator `rep_alloc` are inputs of the
  functions that call it (`false` / `none` is a null result).
* The header `repint.h` is not part of the sources at hand.  Its constants are
  collected in the record `Header`, and the representation of `repv` is
  modelled from the specification.
-/

namespace Rep

/-! ## Faults -/

/-- The ways in which a call can end without producing its result. -/
inductive Fault
  /-- an `assert` failed (the process aborts) -/
  | assert_failed
  /-- `rep_mem_error ()` was signalled and the function gave up -/
  | mem_error
  /-- a call through a null function pointer -/
  | null_call
  /-- a dereference of a pointer that does not point to a pair cell -/
  | bad_pointer
  deriving DecidableEq, Repr

/-! ## Values -/

/-- Modelled from the spec: the type `repv` of `repint.h`, "a single opaque
tagged word" with disjoint encodings.  `null` is `rep_NULL` (the word 0),
`int n` is `rep_MAKE_INT (n)`, `cons blk idx` is
`rep_CONS_VAL (&blk->cons[idx])` for the pair block at address `blk`, and
`cell addr` is a pointer to any other heap cell.  A `rep_cons *` is the same
word as the value pointing to it, so `rep_CONS` and `rep_CONS_VAL` are the
identity and the null `rep_cons *` is `null`. -/
inductive repv
  | null
  | int (n : Int)
  | cons (blk idx : Nat)
  | cell (addr : Nat)
  deriving DecidableEq, Repr

/-- The value `rep_NULL`. -/
abbrev rep_NULL : repv := repv.null

/-- Widths in bits of the C types `long` (a value word) and `int`. -/
structure Platform where
  long_bits : Nat
  int_bits : Nat
  deriving DecidableEq, Repr

/-- The constants that `values.c` takes from `repint.h`: the wide-type code
layout, the codes of the built-in types, the number of pairs in a block and
the size of a pair. -/
structure Header where
  rep_CELL16_TYPE_SHIFT : Nat
  rep_CELL_IS_8 : Nat
  rep_CELL_IS_16 : Nat
  rep_Cons : Nat
  rep_Int : Nat
  rep_Vector : Nat
  rep_String : Nat
  rep_Compiled : Nat
  rep_Void : Nat
  rep_Var : Nat
  rep_SF : Nat
  rep_Subr0 : Nat
  rep_Subr1 : Nat
  rep_Subr2 : Nat
  rep_Subr3 : Nat
  rep_Subr4 : Nat
  rep_Subr5 : Nat
  rep_SubrN : Nat
  rep_CONSBLK_SIZE : Nat
  sizeof_rep_cons : Nat
  deriving DecidableEq, Repr

/-! ## Type handling -/

/-- A C function pointer that the embedding never calls through, given by the
address of the function; the null pointer is `none : Option fn_ptr`. -/
abbrev fn_ptr := Nat

/-- The struct `rep_type`.  The link `next` is the tail of the bucket list the
descriptor is stored in.  `compare` is the only operation `values.c` calls
with a result, so it is a function; `none` is a null pointer. -/
structure rep_type where
  code : Nat
  name : String
  compare : Option (repv → repv → Int)
  princ : Option fn_ptr
  print : Option fn_ptr
  sweep : Option fn_ptr
  mark : Option fn_ptr
  mark_type : Option fn_ptr
  getc : Option fn_ptr
  ungetc : Option fn_ptr
  putc : Option fn_ptr
  puts : Option fn_ptr
  bind : Option fn_ptr
  unbind : Option fn_ptr

/-- The constant `TYPE_HASH_SIZE`. -/
def TYPE_HASH_SIZE : Nat := 32

/-- The macro `TYPE_HASH(type)`: `((type) >> 1) & (TYPE_HASH_SIZE-1)`. -/
def TYPE_HASH (type : Nat) : Fin TYPE_HASH_SIZE :=
  ⟨(type >>> 1) &&& (TYPE_HASH_SIZE - 1),
    Nat.lt_of_le_of_lt Nat.and_le_right (by decide)⟩

/-- The statics `next_free_type` and `data_types[TYPE_HASH_SIZE]`; each bucket
is the list of descriptors linked through `next`, head first. -/
structure Registry where
  next_free_type : Nat
  data_types : Fin TYPE_HASH_SIZE → List rep_type

/-- The registry at program start: both statics are zero-initialised. -/
def Registry.init : Registry :=
  { next_free_type := 0, data_types := fun _ => [] }

/-- The function `rep_register_type`.  `t_alloc` tells whether
`rep_alloc (sizeof (rep_type))` returned a descriptor; when it did not,
`rep_mem_error ()` is called and the function returns without installing
anything. -/
def rep_register_type (t_alloc : Bool) (code : Nat) (name : String)
    (compare : Option (repv → repv → Int))
    (princ print sweep mark mark_type getc ungetc putc puts bind unbind : Option fn_ptr)
    (s : Registry) : Registry :=
  if t_alloc = false then s
  else
    let t : rep_type :=
      { code := code, name := name, compare := compare, princ := princ,
        print := print, sweep := sweep, mark := mark, mark_type := mark_type,
        getc := getc, ungetc := ungetc, putc := putc, puts := puts,
        bind := bind, unbind := unbind }
    { s with
      data_types :=
        Function.update s.data_types (TYPE_HASH code) (t :: s.data_types (TYPE_HASH code)) }

/-- The code computed by `rep_register_new_type` from the counter value `n`:
`(n << rep_CELL16_TYPE_SHIFT) | rep_CELL_IS_8 | rep_CELL_IS_16` in `u_int`
arithmetic. -/
def new_type_code (P : Platform) (H : Header) (n : Nat) : Nat :=
  (((n <<< H.rep_CELL16_TYPE_SHIFT) % 2 ^ P.int_bits ||| H.rep_CELL_IS_8) |||
    H.rep_CELL_IS_16) % 2 ^ P.int_bits

/-- The function `rep_register_new_type`: returns the new code and the
registry, or fails the assertion `next_free_type != 256`. -/
def rep_register_new_type (P : Platform) (H : Header) (t_alloc : Bool) (name : String)
    (compare : Option (repv → repv → Int))
    (princ print sweep mark mark_type getc ungetc putc puts bind unbind : Option fn_ptr)
    (s : Registry) : Except Fault (Nat × Registry) :=
  if s.next_free_type = 256 then Except.error Fault.assert_failed
  else
    let code := new_type_code P H s.next_free_type
    let s1 : Registry := { s with next_free_type := (s.next_free_type + 1) % 2 ^ P.int_bits }
    Except.ok (code,
      rep_register_type t_alloc code name compare princ print sweep mark mark_type
        getc ungetc putc puts bind unbind s1)

/-- The loop of `rep_get_data_type` over one bucket:
`while (t != 0 && t->code != code) t = t->next;`. -/
def type_chain_find (code : Nat) : List rep_type → Option rep_type
  | [] => none
  | t :: next => if t.code ≠ code then type_chain_find code next else some t

/-- The function `rep_get_data_type`, ending in `assert (t != 0)`. -/
def rep_get_data_type (s : Registry) (code : Nat) : Except Fault rep_type :=
  match type_chain_find code (s.data_types (TYPE_HASH code)) with
  | none => Except.error Fault.assert_failed
  | some t => Except.ok t

/-- One call of `rep_register_type`: the outcome of its allocation and its
arguments, the latter as the descriptor they describe. -/
structure register_call where
  t_alloc : Bool
  args : rep_type

/-- Perform one recorded call of `rep_register_type`. -/
def register_call.run (r : register_call) (s : Registry) : Registry :=
  rep_register_type r.t_alloc r.args.code r.args.name r.args.compare r.args.princ
    r.args.print r.args.sweep r.args.mark r.args.mark_type r.args.getc r.args.ungetc
    r.args.putc r.args.puts r.args.bind r.args.unbind s

/-- Perform a sequence of calls of `rep_register_type`, first call first. -/
def register_calls (rs : List register_call) (s : Registry) : Registry :=
  rs.foldl (fun acc r => r.run acc) s

/-- Whether the call `r` installed a descriptor for the code `c`. -/
def register_call.installs (c : Nat) (r : register_call) : Bool :=
  r.t_alloc && decide (r.args.code = c)

/-- One call of `rep_register_new_type`; the field `code` of `args` is not an
argument of the call and is ignored. -/
def register_new_call (P : Platform) (H : Header) (r : register_call) (s : Registry) :
    Except Fault (Nat × Registry) :=
  rep_register_new_type P H r.t_alloc r.args.name r.args.compare r.args.princ
    r.args.print r.args.sweep r.args.mark r.args.mark_type r.args.getc r.args.ungetc
    r.args.putc r.args.puts r.args.bind r.args.unbind s

/-- Perform a sequence of calls of `rep_register_new_type`, collecting the
returned codes; the first failing call ends the run. -/
def register_new_calls (P : Platform) (H : Header) :
    List register_call → Registry → Except Fault (List Nat × Registry)
  | [], s => Except.ok ([], s)
  | r :: rs, s =>
    match register_new_call P H r s with
    | Except.error e => Except.error e
    | Except.ok (c, s1) =>
      match register_new_calls P H rs s1 with
      | Except.error e => Except.error e
      | Except.ok (cs, s2) => Except.ok (c :: cs, s2)

/-- What `rep_register_new_type` needs of the constants of `repint.h`: an
`int` has more than 8 bits, the 8 bits of a wide type number shifted by
`rep_CELL16_TYPE_SHIFT` fit in an `u_int`, and the two flag bits lie below
the shifted type number. -/
def wide_code_layout (P : Platform) (H : Header) : Prop :=
  8 < P.int_bits ∧ H.rep_CELL16_TYPE_SHIFT + 8 ≤ P.int_bits ∧
    H.rep_CELL_IS_8 ||| H.rep_CELL_IS_16 < 2 ^ H.rep_CELL16_TYPE_SHIFT

instance (P : Platform) (H : Header) : Decidable (wide_code_layout P H) := by
  unfold wide_code_layout; infer_instance

/-- The descriptor that the `k`-th call of `rep_register_new_type` builds from
its arguments. -/
def register_call.new_descriptor (P : Platform) (H : Header) (k : Nat) (r : register_call) :
    rep_type :=
  { r.args with code := new_type_code P H k }

/-! ## General object handling -/

/-- Modelled from the spec: the macro `rep_TYPE` of `repint.h` ("a value's tag
bits alone determine which dispatch path governs it"): a small integer has
type `rep_Int`, a pair has type `rep_Cons`, and any other cell has the type
code stored in the cell itself, which `cell_type` reads from its address.
`values.c` never applies the macro to `rep_NULL`. -/
def rep_TYPE (H : Header) (cell_type : Nat → Nat) : repv → Nat
  | repv.int _ => H.rep_Int
  | repv.cons _ _ => H.rep_Cons
  | repv.cell addr => cell_type addr
  | repv.null => cell_type 0

/-- Modelled from the spec: the macro `rep_INT` of `repint.h`, the `long`
held in a small-integer value.  On other values the macro yields bits of a
pointer; the model yields 0 for them. -/
def rep_INT : repv → Int
  | repv.int n => n
  | _ => 0

/-- Whether `n` is representable as a small integer: a value word of
`long_bits` bits keeps two bits for the tag. -/
def small_int_range (P : Platform) (n : Int) : Prop :=
  -(2 : Int) ^ (P.long_bits - 3) ≤ n ∧ n < (2 : Int) ^ (P.long_bits - 3)

instance (P : Platform) (n : Int) : Decidable (small_int_range P n) := by
  unfold small_int_range; infer_instance

/-- Conversion of an integer to the C type `int` of `bits` bits (two's
complement, keeping the low bits): what `return` does to a `long` in a
function with result type `int`. -/
def to_c_int (bits : Nat) (x : Int) : Int :=
  (x + 2 ^ (bits - 1)) % 2 ^ bits - 2 ^ (bits - 1)

/-- What a call of `rep_value_cmp` did: its result and the calls of `compare`
operations it made, each as the code of the descriptor and the operands. -/
structure cmp_outcome where
  result : Int
  invoked : List (Nat × repv × repv)
  deriving DecidableEq, Repr

/-- The function `rep_value_cmp`.  The alternative `(v1 == v2) ? 0 : 1` of
the source is taken when `t1` is null, which `rep_get_data_type` excludes by
its assertion. -/
def rep_value_cmp (H : Header) (cell_type : Nat → Nat) (s : Registry) (v1 v2 : repv) :
    Except Fault cmp_outcome :=
  if v1 ≠ rep_NULL ∧ v2 ≠ rep_NULL then
    match rep_get_data_type s (rep_TYPE H cell_type v1) with
    | Except.error e => Except.error e
    | Except.ok t1 =>
      if v1 = v2 then Except.ok { result := 0, invoked := [] }
      else
        match t1.compare with
        | none => Except.error Fault.null_call
        | some compare =>
          Except.ok { result := compare v1 v2, invoked := [(t1.code, v1, v2)] }
  else Except.ok { result := 1, invoked := [] }

/-- The function `rep_type_cmp`. -/
def rep_type_cmp (H : Header) (cell_type : Nat → Nat) (val1 val2 : repv) : Int :=
  if rep_TYPE H cell_type val1 = rep_TYPE H cell_type val2 then 0 else 1

/-- The function `number_cmp`: the `long` difference is converted to the
result type `int`. -/
def number_cmp (P : Platform) (H : Header) (cell_type : Nat → Nat) (v1 v2 : repv) : Int :=
  if rep_TYPE H cell_type v1 = rep_TYPE H cell_type v2 then
    to_c_int P.int_bits (rep_INT v1 - rep_INT v2)
  else 1

/-- The function `rep_ptr_cmp`; `rep_PTR (v)` is the word `v` itself. -/
def rep_ptr_cmp (H : Header) (cell_type : Nat → Nat) (v1 v2 : repv) : Int :=
  if rep_TYPE H cell_type v1 = rep_TYPE H cell_type v2 then
    (if v1 = v2 then 0 else 1)
  else 1

/-- What `rep_pre_values_init` refers to without the embedding defining it:
the comparison functions that walk the heap and the addresses of the print
and sweep functions. -/
structure Externals where
  cons_cmp : repv → repv → Int
  vector_cmp : repv → repv → Int
  string_cmp : repv → repv → Int
  rep_lisp_prin : fn_ptr
  rep_string_princ : fn_ptr
  rep_string_print : fn_ptr
  cons_sweep : fn_ptr
  vector_sweep : fn_ptr
  string_sweep : fn_ptr

/-- The function `rep_pre_values_init`; `t_alloc k` is the outcome of the
allocation in the `k`-th call of `rep_register_type`. -/
def rep_pre_values_init (P : Platform) (H : Header) (cell_type : Nat → Nat) (X : Externals)
    (t_alloc : Nat → Bool) (s : Registry) : Registry :=
  let lp := some X.rep_lisp_prin
  let pc := some (rep_ptr_cmp H cell_type)
  let s := rep_register_type (t_alloc 0) H.rep_Cons "cons" (some X.cons_cmp)
    lp lp (some X.cons_sweep) none none none none none none none none s
  let s := rep_register_type (t_alloc 1) H.rep_Int "integer" (some (number_cmp P H cell_type))
    lp lp none none none none none none none none none s
  let s := rep_register_type (t_alloc 2) H.rep_Vector "vector" (some X.vector_cmp)
    lp lp (some X.vector_sweep) none none none none none none none none s
  let s := rep_register_type (t_alloc 3) H.rep_String "string" (some X.string_cmp)
    (some X.rep_string_princ) (some X.rep_string_print) (some X.string_sweep)
    none none none none none none none none s
  let s := rep_register_type (t_alloc 4) H.rep_Compiled "bytecode" (some X.vector_cmp)
    lp lp none none none none none none none none none s
  let s := rep_register_type (t_alloc 5) H.rep_Void "void" (some (rep_type_cmp H cell_type))
    lp lp none none none none none none none none none s
  let s := rep_register_type (t_alloc 6) H.rep_Var "var" pc
    lp lp none none none none none none none none none s
  let s := rep_register_type (t_alloc 7) H.rep_SF "special-form" pc
    lp lp none none none none none none none none none s
  let s := rep_register_type (t_alloc 8) H.rep_Subr0 "subr0" pc
    lp lp none none none none none none none none none s
  let s := rep_register_type (t_alloc 9) H.rep_Subr1 "subr1" pc
    lp lp none none none none none none none none none s
  let s := rep_register_type (t_alloc 10) H.rep_Subr2 "subr2" pc
    lp lp none none none none none none none none none s
  let s := rep_register_type (t_alloc 11) H.rep_Subr3 "subr3" pc
    lp lp none none none none none none none none none s
  let s := rep_register_type (t_alloc 12) H.rep_Subr4 "subr4" pc
    lp lp none none none none none none none none none s
  let s := rep_register_type (t_alloc 13) H.rep_Subr5 "subr5" pc
    lp lp none none none none none none none none none s
  rep_register_type (t_alloc 14) H.rep_SubrN "subrn" pc
    lp lp none none none none none none none none none s

/-! ## Cons -/

/-- The struct `rep_cons`.  Modelled from the spec: the macros
`rep_GC_CONS_MARKEDP` and `rep_GC_CLR_CONS` of `repint.h` read and clear "a
per-cell mark bit", the field `mark`. -/
structure rep_cons where
  car : repv
  cdr : repv
  mark : Bool
  deriving DecidableEq, Repr

/-- The memory of pair cells: `m blk idx` is the cell `blk->cons[idx]`. -/
abbrev cons_memory := Nat → Nat → rep_cons

/-- Store `c` in the cell `blk->cons[idx]`. -/
def cons_memory.set (m : cons_memory) (blk idx : Nat) (c : rep_cons) : cons_memory :=
  fun b i => if b = blk ∧ i = idx then c else m b i

/-- The assignment `blk->cons[idx].cdr = v`. -/
def cons_memory.set_cdr (m : cons_memory) (blk idx : Nat) (v : repv) : cons_memory :=
  m.set blk idx { m blk idx with cdr := v }

/-- The statics of the pair pool, the counter `rep_data_after_gc`, and the
log of the blocks handed to `rep_free`.  `cons_block_chain` lists the
addresses of the blocks linked through `next`, head first. -/
structure ConsPool where
  cons_mem : cons_memory
  cons_block_chain : List Nat
  cons_freelist : repv
  allocated_cons : Int
  used_cons : Int
  rep_data_after_gc : Int
  freed_blocks : List Nat

/-- The pair pool at program start. -/
def ConsPool.init : ConsPool :=
  { cons_mem := fun _ _ => { car := rep_NULL, cdr := rep_NULL, mark := false },
    cons_block_chain := [], cons_freelist := rep_NULL, allocated_cons := 0,
    used_cons := 0, rep_data_after_gc := 0, freed_blocks := [] }

/-- The first `k` rounds of the loop of `Fcons` over a fresh block:
`for (i = 0; i < k; i++) cb->cons[i].cdr = rep_CONS_VAL (&cb->cons[i + 1]);`. -/
def link_block (cb : Nat) : Nat → cons_memory → cons_memory
  | 0, m => m
  | k + 1, m => (link_block cb k m).set_cdr cb k (repv.cons cb (k + 1))

/-- The end of `Fcons`, from `cons_freelist = rep_CONS (cn->cdr)` on, with
`cn` the head of the free-list. -/
def Fcons_take (H : Header) (car cdr : repv) (s : ConsPool) : Except Fault (repv × ConsPool) :=
  match s.cons_freelist with
  | repv.cons blk idx =>
    Except.ok (repv.cons blk idx,
      { s with
        cons_freelist := (s.cons_mem blk idx).cdr
        cons_mem := s.cons_mem.set blk idx { s.cons_mem blk idx with car := car, cdr := cdr }
        used_cons := s.used_cons + 1
        rep_data_after_gc := s.rep_data_after_gc + H.sizeof_rep_cons })
  | _ => Except.error Fault.bad_pointer

/-- The function `Fcons`.  `cb_alloc` is the result of
`rep_alloc (sizeof (rep_cons_block))`, which is called only when the
free-list is empty. -/
def Fcons (H : Header) (cb_alloc : Option Nat) (car cdr : repv) (s : ConsPool) :
    Except Fault (repv × ConsPool) :=
  if s.cons_freelist = rep_NULL then
    match cb_alloc with
    | none => Except.error Fault.mem_error
    | some cb =>
      Fcons_take H car cdr
        { s with
          allocated_cons := s.allocated_cons + H.rep_CONSBLK_SIZE
          cons_block_chain := cb :: s.cons_block_chain
          cons_mem :=
            (link_block cb (H.rep_CONSBLK_SIZE - 1) s.cons_mem).set_cdr cb
              (H.rep_CONSBLK_SIZE - 1) rep_NULL
          cons_freelist := repv.cons cb 0 }
  else Fcons_take H car cdr s

/-- The function `rep_cons_free`. -/
def rep_cons_free (cn : repv) (s : ConsPool) : Except Fault ConsPool :=
  match cn with
  | repv.cons blk idx =>
    Except.ok
      { s with
        cons_mem := s.cons_mem.set_cdr blk idx s.cons_freelist
        cons_freelist := repv.cons blk idx
        used_cons := s.used_cons - 1 }
  | _ => Except.error Fault.bad_pointer

/-- The locals of the inner loop of `cons_sweep`, with the pair memory. -/
structure sweep_scan where
  mem : cons_memory
  newfree : repv
  newfreetail : repv
  newused : Int

/-- The first `k` rounds of the inner loop of `cons_sweep` over the block
`cb`: `for (i = 0, this = cb->cons; i < k; i++, this++)`. -/
def cons_sweep_scan (cb : Nat) : Nat → cons_memory → sweep_scan
  | 0, m => { mem := m, newfree := rep_NULL, newfreetail := rep_NULL, newused := 0 }
  | i + 1, m =>
    let st := cons_sweep_scan cb i m
    if (st.mem cb i).mark = false then
      { st with
        newfreetail := if st.newfreetail = rep_NULL then repv.cons cb i else st.newfreetail
        mem := st.mem.set_cdr cb i st.newfree
        newfree := repv.cons cb i }
    else
      { st with
        mem := st.mem.set cb i { st.mem cb i with mark := false }
        newused := st.newused + 1 }

/-- The assignment `p->cdr = v` through a `rep_cons *`; `cons_sweep` makes it
only with `p` pointing to a cell of the block at hand. -/
def cons_memory.set_cdr_at (m : cons_memory) (p : repv) (v : repv) : cons_memory :=
  match p with
  | repv.cons blk idx => m.set_cdr blk idx v
  | _ => m

/-- One round of the outer loop of `cons_sweep`, for the block `cb`. -/
def cons_sweep_block (H : Header) (s : ConsPool) (cb : Nat) : ConsPool :=
  let st := cons_sweep_scan cb H.rep_CONSBLK_SIZE s.cons_mem
  if st.newused = 0 then
    { s with
      cons_mem := st.mem
      freed_blocks := cb :: s.freed_blocks
      allocated_cons := s.allocated_cons - H.rep_CONSBLK_SIZE }
  else if st.newfreetail ≠ rep_NULL then
    { s with
      cons_mem := st.mem.set_cdr_at st.newfreetail s.cons_freelist
      cons_freelist := st.newfree
      used_cons := s.used_cons + st.newused
      cons_block_chain := cb :: s.cons_block_chain }
  else
    { s with
      cons_mem := st.mem
      cons_block_chain := cb :: s.cons_block_chain }

/-- The function `cons_sweep`: the outer loop visits the blocks of the old
chain in order, starting from an empty chain and free-list. -/
def cons_sweep (H : Header) (s : ConsPool) : ConsPool :=
  s.cons_block_chain.foldl (cons_sweep_block H)
    { s with cons_block_chain := [], cons_freelist := rep_NULL, used_cons := 0 }

/-- The pool free-list as a list of cells: `free_list m p l` says that
following `cdr` from the pointer `p` visits exactly the cells `l`, in this
order, and then reaches the null pointer. -/
def free_list (m : cons_memory) : repv → List (Nat × Nat) → Prop
  | p, [] => p = rep_NULL
  | p, c :: l => p = repv.cons c.1 c.2 ∧ free_list m (m c.1 c.2).cdr l

/-- The cells of the block `cb` that carry a mark, among the first `n`. -/
def marked_in_block (m : cons_memory) (cb n : Nat) : List Nat :=
  (List.range n).filter (fun i => (m cb i).mark)

/-- The pair of the statistics list of `Fgarbage_collect` for the pair pool:
`Fcons (rep_MAKE_INT (used_cons), rep_MAKE_INT (allocated_cons - used_cons))`
as the two integers. -/
def gc_cons_stats (s : ConsPool) : Int × Int :=
  (s.used_cons, s.allocated_cons - s.used_cons)

/-- The cells of the block `cb` that carry no mark, among the first `n`. -/
def unmarked_in_block (m : cons_memory) (cb n : Nat) : List Nat :=
  (List.range n).filter (fun i => !(m cb i).mark)

/-- Whether at least one of the first `n` cells of the block `cb` is marked. -/
def block_in_use (m : cons_memory) (n cb : Nat) : Bool :=
  (List.range n).any (fun i => (m cb i).mark)

/-- The number of pairs that one round of the outer loop of `cons_sweep` adds
to `used_cons` for the block `cb`: the number of its marked cells, but
nothing when no cell of the block is unmarked. -/
def swept_used (m : cons_memory) (n cb : Nat) : Int :=
  if unmarked_in_block m cb n = [] then 0 else (marked_in_block m cb n).length

/-- The state `t` of `cons_sweep` on the pool `s` after the rounds for the
blocks `done`. -/
structure sweep_inv (H : Header) (s : ConsPool) (done : List Nat) (t : ConsPool) : Prop where
  chain : t.cons_block_chain =
    (done.filter (block_in_use s.cons_mem H.rep_CONSBLK_SIZE)).reverse
  freed : t.freed_blocks =
    (done.filter (fun b => !block_in_use s.cons_mem H.rep_CONSBLK_SIZE b)).reverse ++
      s.freed_blocks
  allocated : t.allocated_cons = s.allocated_cons - H.rep_CONSBLK_SIZE *
    (done.filter (fun b => !block_in_use s.cons_mem H.rep_CONSBLK_SIZE b)).length
  used : t.used_cons = (done.map (swept_used s.cons_mem H.rep_CONSBLK_SIZE)).sum
  after_gc : t.rep_data_after_gc = s.rep_data_after_gc
  frame : ∀ b i, b ∉ done → t.cons_mem b i = s.cons_mem b i
  marked : ∀ b i, b ∈ done → i < H.rep_CONSBLK_SIZE → (s.cons_mem b i).mark = true →
    t.cons_mem b i = { s.cons_mem b i with mark := false }
  free : ∃ l, free_list t.cons_mem t.cons_freelist l ∧
    ∀ c, c ∈ l ↔ (c.1 ∈ done ∧ block_in_use s.cons_mem H.rep_CONSBLK_SIZE c.1 = true ∧
      c.2 < H.rep_CONSBLK_SIZE ∧ (s.cons_mem c.1 c.2).mark = false)

/-- Modelled from the spec: the macro `rep_GC_SET_CONS` of `repint.h`, "setting
a per-cell mark bit" of the pair cell that `p` points to. -/
def rep_GC_SET_CONS (p : repv) (s : ConsPool) : ConsPool :=
  match p with
  | repv.cons blk idx =>
    { s with cons_mem := s.cons_mem.set blk idx { s.cons_mem blk idx with mark := true } }
  | _ => s

/-- One call of `Fcons`: the result of the block allocation it may make, and
its two arguments. -/
structure cons_call where
  cb_alloc : Option Nat
  car : repv
  cdr : repv
  deriving DecidableEq, Repr

/-- Perform a sequence of calls of `Fcons`, collecting the returned pairs; the
first failing call ends the run. -/
def Fcons_calls (H : Header) : List cons_call → ConsPool → Except Fault (List repv × ConsPool)
  | [], s => Except.ok ([], s)
  | c :: cs, s =>
    match Fcons H c.cb_alloc c.car c.cdr s with
    | Except.error e => Except.error e
    | Except.ok (p, s1) =>
      match Fcons_calls H cs s1 with
      | Except.error e => Except.error e
      | Except.ok (ps, s2) => Except.ok (p :: ps, s2)

/-- The pool reached from the pool at program start by three calls of `Fcons`
(the first obtains the block at `cb`), marking the `j`-th of the three pairs
and running `cons_sweep`. -/
def three_pairs_swept (H : Header) (cb j : Nat) (c1 c2 c3 : cons_call) : ConsPool :=
  match Fcons_calls H [{ c1 with cb_alloc := some cb }, c2, c3] ConsPool.init with
  | Except.ok (_, s3) => cons_sweep H (rep_GC_SET_CONS (repv.cons cb j) s3)
  | Except.error _ => ConsPool.init

/-! ## Cells other than pairs -/

/-- Modelled from the spec: what a heap cell other than a pair holds, by its
kind ("pair, vector/compiled-code-block, symbol, string, closure/funarg,
bound-variable cell, primitive-procedure variants, special form,
void/placeholder", and the wide cells).  `vector` has the length field and
the slots (`compiled` tells `rep_Compiled` from `rep_Vector`), `string` the
length field and the bytes reserved for it, `subr n` is `rep_Subr0` to
`rep_Subr5` for `n` up to 5 and `rep_SubrN` otherwise, `other type` is any
further narrow type (the `default:` of `rep_mark_value`) and `cell16 type` a
wide cell with its type code. -/
inductive cell_body
  | vector (compiled : Bool) (len : Int) (array : List repv)
  | symbol (name value function prop_list next : repv)
  | string (len : Int) (data : List Nat)
  | funarg (env fenv special_env fh_env func : repv)
  | var
  | subr (n : Nat)
  | sf
  | other (type : Nat)
  | cell16 (type : Nat)
  deriving DecidableEq, Repr

/-- A heap cell other than a pair.  Modelled from the spec: the macros
`rep_GC_CELL_MARKEDP`, `rep_GC_SET_CELL` and `rep_GC_CLR_CELL` of `repint.h`
read, set and clear the "per-cell mark bit", the field `mark`. -/
structure rep_cell where
  body : cell_body
  mark : Bool
  deriving DecidableEq, Repr

/-- The macro `rep_VECT_LEN`: the length field of a vector cell. -/
def rep_VECT_LEN (c : rep_cell) : Int :=
  match c.body with
  | cell_body.vector _ len _ => len
  | _ => 0

/-- The macro `rep_STRING_LEN`: the length field of a string cell. -/
def rep_STRING_LEN (c : rep_cell) : Int :=
  match c.body with
  | cell_body.string len _ => len
  | _ => 0

/-- The memory of the cells other than pairs, by address. -/
abbrev cell_memory := Nat → rep_cell

/-- Store `c` at the address `a`. -/
def cell_memory.set (m : cell_memory) (a : Nat) (c : rep_cell) : cell_memory :=
  fun b => if b = a then c else m b

/-- The size macros and the limit of `repint.h` that the allocators use:
`rep_VECT_SIZE size` and `rep_DSTRING_SIZE len` are the `int` values that
`int len = rep_VECT_SIZE (size)` and `memlen = rep_DSTRING_SIZE (len)`
receive. -/
structure Sizes where
  rep_VECT_SIZE : Int → Int
  rep_DSTRING_SIZE : Int → Int
  rep_MAX_STRING : Int

/-- The statics of `values.c` for pairs, vectors and strings, the flag
`rep_in_gc`, the value `Qnil`, the memory of the cells, and the log of the
cells handed to `rep_free`.  `vector_chain` and `strings` list the addresses
of the cells linked through `next`, head first.  Modelled from the spec:
`cons_writable` and `cell_writable` are the macros `rep_CONS_WRITABLE_P`,
`rep_VECTOR_WRITABLE_P` and `rep_STRING_WRITABLE_P` of `repint.h`, which
recognise "immutable/constant cells" by where they lie. -/
structure Heap where
  pairs : ConsPool
  cons_writable : Nat → Nat → Bool
  cells : cell_memory
  cell_writable : Nat → Bool
  vector_chain : List Nat
  used_vector_slots : Int
  strings : List Nat
  allocated_strings : Int
  allocated_string_bytes : Int
  freed_cells : List Nat
  rep_in_gc : Bool
  Qnil : repv

/-- The function `Fcons` on the whole heap: it works on the pair pool. -/
def Heap.Fcons (H : Header) (cb_alloc : Option Nat) (car cdr : repv) (h : Heap) :
    Except Fault (repv × Heap) :=
  match Rep.Fcons H cb_alloc car cdr h.pairs with
  | Except.error e => Except.error e
  | Except.ok (p, s) => Except.ok (p, { h with pairs := s })

/-- Modelled from the spec: the macro `rep_LIST_1` of `repint.h`, the list of
one element, which is a pair from `Fcons` with `Qnil` as its tail (the
function `rep_list_1` of `values.c` returns it). -/
def rep_LIST_1 (H : Header) (cb_alloc : Option Nat) (v1 : repv) (h : Heap) :
    Except Fault (repv × Heap) :=
  h.Fcons H cb_alloc v1 h.Qnil

/-- What `rep_make_string` uses of the rest of the interpreter: the values
`Qerror` and `rep_VAL (&string_overflow)` and the function `Fsignal`, which
takes the error and its data and returns a value. -/
structure Signals where
  Qerror : repv
  string_overflow : repv
  Fsignal : repv → repv → Heap → repv × Heap

/-- The function `rep_make_string`.  `str_alloc` is the result of
`rep_ALLOC_CELL (memlen)` and `cb_alloc` that of the block allocation that
`Fcons` may make for `rep_LIST_1`.  The bytes of a new string are not
initialised; the model has zero bytes there. -/
def rep_make_string (H : Header) (Z : Sizes) (E : Signals) (cb_alloc str_alloc : Option Nat)
    (len : Int) (h : Heap) : Except Fault (repv × Heap) :=
  if len > Z.rep_MAX_STRING then
    match rep_LIST_1 H cb_alloc E.string_overflow h with
    | Except.error e => Except.error e
    | Except.ok (data, h1) => Except.ok (E.Fsignal E.Qerror data h1)
  else
    let memlen := Z.rep_DSTRING_SIZE len
    match str_alloc with
    | some str =>
      Except.ok (repv.cell str,
        { h with
          cells := h.cells.set str
            { body := cell_body.string (len - 1) (List.replicate len.toNat 0), mark := false }
          strings := str :: h.strings
          allocated_strings := h.allocated_strings + 1
          allocated_string_bytes := h.allocated_string_bytes + memlen
          pairs := { h.pairs with rep_data_after_gc := h.pairs.rep_data_after_gc + memlen } })
    | none => Except.ok (rep_NULL, h)

/-- One round of the loop of `string_sweep`, for the string at `x`. -/
def string_sweep_step (Z : Sizes) (h : Heap) (x : Nat) : Heap :=
  if (h.cells x).mark = true then
    { h with
      cells := h.cells.set x { h.cells x with mark := false }
      strings := x :: h.strings
      allocated_strings := h.allocated_strings + 1
      allocated_string_bytes :=
        h.allocated_string_bytes + Z.rep_DSTRING_SIZE (rep_STRING_LEN (h.cells x)) }
  else { h with freed_cells := x :: h.freed_cells }

/-- The function `string_sweep`. -/
def string_sweep (Z : Sizes) (h : Heap) : Heap :=
  h.strings.foldl (string_sweep_step Z)
    { h with strings := [], allocated_strings := 0, allocated_string_bytes := 0 }

/-- The function `rep_make_vector`.  `v_alloc` is the result of
`rep_ALLOC_CELL (len)`.  The slots of a new vector are not initialised; the
model has `rep_NULL` there. -/
def rep_make_vector (Z : Sizes) (v_alloc : Option Nat) (size : Int) (h : Heap) : repv × Heap :=
  let len := Z.rep_VECT_SIZE size
  match v_alloc with
  | some v =>
    (repv.cell v,
      { h with
        cells := h.cells.set v
          { body := cell_body.vector false size (List.replicate size.toNat rep_NULL),
            mark := false }
        vector_chain := v :: h.vector_chain
        used_vector_slots := h.used_vector_slots + size
        pairs := { h.pairs with rep_data_after_gc := h.pairs.rep_data_after_gc + len } })
  | none => (rep_NULL, h)

/-- One round of the loop of `vector_sweep`, for the vector at `this`. -/
def vector_sweep_step (h : Heap) (this : Nat) : Heap :=
  if (h.cells this).mark = false then { h with freed_cells := this :: h.freed_cells }
  else
    { h with
      vector_chain := this :: h.vector_chain
      used_vector_slots := h.used_vector_slots + rep_VECT_LEN (h.cells this)
      cells := h.cells.set this { h.cells this with mark := false } }

/-- The function `vector_sweep`. -/
def vector_sweep (h : Heap) : Heap :=
  h.vector_chain.foldl vector_sweep_step { h with vector_chain := [], used_vector_slots := 0 }

/-- The heap at program start, with `Qnil` the symbol at address 8. -/
def Heap.init : Heap :=
  { pairs := ConsPool.init, cons_writable := fun _ _ => true,
    cells := fun _ => { body := cell_body.other 0, mark := false },
    cell_writable := fun _ => true, vector_chain := [], used_vector_slots := 0,
    strings := [], allocated_strings := 0, allocated_string_bytes := 0, freed_cells := [],
    rep_in_gc := false, Qnil := repv.cell 8 }

/-! ## Strings: copies -/

/-- A store of the bytes `bs` at the offset `off` of a buffer that holds
`data`: the buffer afterwards, or `none` when the store does not lie within
the buffer. -/
def store_bytes (data : List Nat) (off : Nat) (bs : List Nat) : Option (List Nat) :=
  if off + bs.length ≤ data.length then
    some (data.take off ++ bs ++ data.drop (off + bs.length))
  else none

/-- Modelled from the spec: the macro `rep_STR` of `repint.h`, the "owned
byte buffer" of a string cell; the model has no bytes for any other value. -/
def rep_STR (h : Heap) (v : repv) : List Nat :=
  match v with
  | repv.cell a =>
    match (h.cells a).body with
    | cell_body.string _ data => data
    | _ => []
  | _ => []

/-- A store of the bytes `bs` at `rep_STR (v) + off`.  A store outside the
bytes reserved for the string, or through a value that is not a string, is a
fault. -/
def rep_STR_store (h : Heap) (v : repv) (off : Nat) (bs : List Nat) : Except Fault Heap :=
  match v with
  | repv.cell a =>
    match (h.cells a).body with
    | cell_body.string len data =>
      match store_bytes data off bs with
      | some d =>
        Except.ok
          { h with cells := h.cells.set a { h.cells a with body := cell_body.string len d } }
      | none => Except.error Fault.bad_pointer
    | _ => Except.error Fault.bad_pointer
  | _ => Except.error Fault.bad_pointer

/-- The function `rep_string_dupn`.  `src i` is the byte `src[i]`, and
`cb_alloc` and `str_alloc` are as in `rep_make_string`.  A negative `slen`
makes `memcpy` copy `(size_t) slen` bytes, a fault. -/
def rep_string_dupn (H : Header) (Z : Sizes) (E : Signals) (cb_alloc str_alloc : Option Nat)
    (src : Nat → Nat) (slen : Int) (h : Heap) : Except Fault (repv × Heap) :=
  match rep_make_string H Z E cb_alloc str_alloc (slen + 1) h with
  | Except.error e => Except.error e
  | Except.ok (dst, h1) =>
    if dst ≠ rep_NULL then
      if slen < 0 then Except.error Fault.bad_pointer
      else
        -- memcpy (rep_STR (dst), src, slen);
        match rep_STR_store h1 dst 0 ((List.range slen.toNat).map src) with
        | Except.error e => Except.error e
        | Except.ok h2 =>
          -- rep_STR (dst)[slen] = 0;
          match rep_STR_store h2 dst slen.toNat [0] with
          | Except.error e => Except.error e
          | Except.ok h3 => Except.ok (dst, h3)
    else Except.ok (dst, h1)

/-- The bytes of the C string that begins with the bytes `s` of memory: those
before the first zero byte.  The byte after the last one of `s` is taken to
be zero. -/
def c_string (s : List Nat) : List Nat :=
  s.takeWhile (fun b => b != 0)

/-- The function `strlen` of the C library. -/
def strlen (s : List Nat) : Nat :=
  (c_string s).length

/-- The function `stpcpy` of the C library with the destination
`rep_STR (v) + off`: it copies the string with its terminator and returns the
place of the terminator, here as the offset. -/
def stpcpy (h : Heap) (v : repv) (off : Nat) (s : List Nat) : Except Fault (Nat × Heap) :=
  match rep_STR_store h v off (c_string s ++ [0]) with
  | Except.error e => Except.error e
  | Except.ok h1 => Except.ok (off + strlen s, h1)

/-- The function `rep_concat2`.  The sum of the lengths is stored in an
`int`; the result of `rep_make_string` is used without a test. -/
def rep_concat2 (P : Platform) (H : Header) (Z : Sizes) (E : Signals)
    (cb_alloc str_alloc : Option Nat) (s1 s2 : List Nat) (h : Heap) :
    Except Fault (repv × Heap) :=
  let len := to_c_int P.int_bits (strlen s1 + strlen s2)
  match rep_make_string H Z E cb_alloc str_alloc (len + 1) h with
  | Except.error e => Except.error e
  | Except.ok (res, h1) =>
    match stpcpy h1 res 0 s1 with
    | Except.error e => Except.error e
    | Except.ok (p, h2) =>
      match stpcpy h2 res p s2 with
      | Except.error e => Except.error e
      | Except.ok (_, h3) => Except.ok (res, h3)

/-! ## Garbage collection: static roots -/

/-- The statics `static_roots`, `next_static_root` and
`allocated_static_roots`.  `static_roots` is `none` for the null pointer and
otherwise the table as the list of its entries, each the address of a
`repv`. -/
structure StaticRoots where
  static_roots : Option (List Nat)
  next_static_root : Nat
  allocated_static_roots : Nat
  deriving DecidableEq, Repr

/-- The static-root table at program start. -/
def StaticRoots.init : StaticRoots :=
  { static_roots := none, next_static_root := 0, allocated_static_roots := 0 }

/-- The function `rep_mark_static`.  `tbl_alloc` tells whether `rep_realloc`
or `rep_alloc`, if called, returns a table; the entries that a grown table
gains are not initialised, the model has 0 there. -/
def rep_mark_static (tbl_alloc : Bool) (obj : Nat) (s : StaticRoots) : Except Fault StaticRoots :=
  let grown : Except Fault StaticRoots :=
    if s.next_static_root = s.allocated_static_roots then
      let new_size :=
        if s.allocated_static_roots ≠ 0 then s.allocated_static_roots * 2 else 256
      let table : Option (List Nat) :=
        match s.static_roots with
        | some t =>
          if tbl_alloc then some ((t ++ List.replicate (new_size - t.length) 0).take new_size)
          else none
        | none => if tbl_alloc then some (List.replicate new_size 0) else none
      match table with
      | none => Except.error Fault.assert_failed
      | some t =>
        Except.ok { s with static_roots := some t, allocated_static_roots := new_size }
    else Except.ok s
  match grown with
  | Except.error e => Except.error e
  | Except.ok s1 =>
    match s1.static_roots with
    | some t =>
      Except.ok { s1 with
        static_roots := some (t.set s1.next_static_root obj)
        next_static_root := s1.next_static_root + 1 }
    | none => Except.error Fault.bad_pointer

/-- Perform a sequence of calls of `rep_mark_static`, each given by the
outcome of its table allocation and its argument; the first failing call
ends the run. -/
def rep_mark_static_calls : List (Bool × Nat) → StaticRoots → Except Fault StaticRoots
  | [], s => Except.ok s
  | c :: cs, s =>
    match rep_mark_static c.1 c.2 s with
    | Except.error e => Except.error e
    | Except.ok s1 => rep_mark_static_calls cs s1

/-- What holds of the static-root table `s` after the registrations `objs`. -/
structure static_roots_inv (objs : List Nat) (s : StaticRoots) : Prop where
  next : s.next_static_root = objs.length
  table : ∃ t, s.static_roots = some t ∧ t.length = s.allocated_static_roots ∧
    t.take objs.length = objs
  capacity : ∃ k, s.allocated_static_roots = 256 * 2 ^ k ∧
    objs.length ≤ s.allocated_static_roots ∧ (k = 0 ∨ 256 * 2 ^ (k - 1) < objs.length)

/-! ## Garbage collection: the driver -/

/-- The struct `rep_GC_n_roots`: the address of the first value of a protected
array and the number of its values. -/
structure rep_GC_n_roots where
  first : Nat
  count : Nat
  deriving DecidableEq, Repr

/-- The struct `rep_Call`, with the five values that `Fgarbage_collect`
marks; `func` is the member `fun`. -/
structure rep_Call where
  func : repv
  args : repv
  saved_env : repv
  saved_fenv : repv
  saved_special_env : repv
  deriving DecidableEq, Repr

/-- What `Fgarbage_collect` walks: the static-root table, the stack
`rep_gc_root_stack` as the list of the `ptr` members (top first), the stack
`rep_gc_n_roots_stack`, the type registry and the call stack `rep_call_stack`
(innermost frame first).  `read a i` is the value `((repv *) a)[i]` in
memory, and `HAVE_DYNAMIC_LOADING` tells whether that macro is defined. -/
structure gc_inputs where
  statics : StaticRoots
  rep_gc_root_stack : List Nat
  rep_gc_n_roots_stack : List rep_GC_n_roots
  registry : Registry
  rep_call_stack : List rep_Call
  read : Nat → Nat → repv
  HAVE_DYNAMIC_LOADING : Bool

/-- The actions of `Fgarbage_collect`: an assignment to `rep_in_gc`, a use of
the macro `rep_MARKVAL` on a value, a call of the `mark_type` or `sweep`
operation of the descriptor with the given code, the calls of
`rep_mark_regexp_data` and `rep_mark_dl_data`, and the reset of
`rep_data_after_gc`. -/
inductive gc_event
  | set_in_gc (b : Bool)
  | markval (v : repv)
  | mark_type (code : Nat) (f : fn_ptr)
  | mark_regexp_data
  | mark_dl_data
  | sweep (code : Nat) (f : fn_ptr)
  | reset_data_after_gc
  deriving DecidableEq, Repr

/-- Whether an action marks: `rep_MARKVAL` or a marking callback. -/
def gc_event.is_mark : gc_event → Bool
  | gc_event.markval _ => true
  | gc_event.mark_type _ _ => true
  | gc_event.mark_regexp_data => true
  | gc_event.mark_dl_data => true
  | _ => false

/-- Whether an action is a call of a `sweep` operation. -/
def gc_event.is_sweep : gc_event → Bool
  | gc_event.sweep _ _ => true
  | _ => false

/-- The body of `Fgarbage_collect` up to the statistics, as the sequence of
its actions performed by `act` on a state: each loop of the source is a
fold. -/
def Fgarbage_collect_run {σ : Type} (act : gc_event → σ → σ) (G : gc_inputs) (s : σ) : σ :=
  let s := act (gc_event.set_in_gc true) s
  -- mark static objects
  let s := (List.range G.statics.next_static_root).foldl
    (fun s i => act (gc_event.markval
      (G.read ((G.statics.static_roots.getD []).getD i 0) 0)) s) s
  -- mark stack based objects protected from GC
  let s := G.rep_gc_root_stack.foldl (fun s ptr => act (gc_event.markval (G.read ptr 0)) s) s
  let s := G.rep_gc_n_roots_stack.foldl
    (fun s r => (List.range r.count).foldl
      (fun s i => act (gc_event.markval (G.read r.first i)) s) s) s
  -- do data-type specific marking
  let s := (List.finRange TYPE_HASH_SIZE).foldl
    (fun s i => (G.registry.data_types i).foldl
      (fun s t =>
        match t.mark_type with
        | some f => act (gc_event.mark_type t.code f) s
        | none => s) s) s
  let s := act gc_event.mark_regexp_data s
  let s := if G.HAVE_DYNAMIC_LOADING = true then act gc_event.mark_dl_data s else s
  -- mark the Lisp backtrace
  let s := G.rep_call_stack.foldl
    (fun s lc =>
      act (gc_event.markval lc.saved_special_env)
        (act (gc_event.markval lc.saved_fenv)
          (act (gc_event.markval lc.saved_env)
            (act (gc_event.markval lc.args) (act (gc_event.markval lc.func) s))))) s
  -- finished marking, start sweeping
  let s := (List.finRange TYPE_HASH_SIZE).foldl
    (fun s i => (G.registry.data_types i).foldl
      (fun s t =>
        match t.sweep with
        | some f => act (gc_event.sweep t.code f) s
        | none => s) s) s
  let s := act gc_event.reset_data_after_gc s
  act (gc_event.set_in_gc false) s

/-- The trace of the actions of one run of `Fgarbage_collect`, in order. -/
def Fgarbage_collect_trace (G : gc_inputs) : List gc_event :=
  Fgarbage_collect_run (fun e log => log ++ [e]) G []

/-- The descriptors of a registry in the order in which the loops of
`Fgarbage_collect` over `data_types` visit them. -/
def Registry.descriptors (r : Registry) : List rep_type :=
  ((List.finRange TYPE_HASH_SIZE).map r.data_types).flatten

/-! ## Garbage collection: marking -/

/-- Modelled from the spec: the macro `rep_INTP` of `repint.h`, true of the
"inline small integer" values. -/
def rep_INTP : repv → Bool
  | repv.int _ => true
  | _ => false

/-- Modelled from the spec: the macro `rep_GC_MARKEDP` of `repint.h`, the
"per-cell mark bit" of the cell that a value points to.  The source applies
it to pointers only; the model has `false` for other values. -/
def rep_GC_MARKEDP (h : Heap) : repv → Bool
  | repv.cons blk idx => (h.pairs.cons_mem blk idx).mark
  | repv.cell addr => (h.cells addr).mark
  | _ => false

/-- The macros `rep_GC_SET_CONS` and `rep_GC_SET_CELL` on the heap: set the
mark bit of the cell that `val` points to. -/
def Heap.set_mark (h : Heap) (val : repv) : Heap :=
  match val with
  | repv.cons _ _ => { h with pairs := rep_GC_SET_CONS val h.pairs }
  | repv.cell addr => { h with cells := h.cells.set addr { h.cells addr with mark := true } }
  | _ => h

/-- What `rep_mark_value` uses besides the heap: the type registry, the
effect of a call `t->mark (val)` of the `mark` operation at a given address,
and whether the macro `rep_DUMPED` is defined. -/
structure mark_env where
  registry : Registry
  call_mark : fn_ptr → repv → Heap → Heap
  rep_DUMPED : Bool

/-- How a run of `rep_mark_value` ends: with a heap and the number of nested
invocations of `rep_mark_value` it made (at any depth), with a fault, or
without a result because the fuel of the model ran out. -/
inductive mark_outcome
  | done (h : Heap) (calls : Nat)
  | fault (e : Fault)
  | out_of_fuel

/-- What `rep_mark_value` does with one value between the label `again` and
its nested calls: return at once (`skip`), fail, or set the mark of the cell
and go on (`node`) with the values it passes to `rep_MARKVAL`, in order, and
then the value it assigns to `val` before `goto again` (`rep_NULL` when the
case ends in `break` or `return`); `check_int` tells whether the test before
`goto again` includes `!rep_INTP (val)`. -/
inductive visit_result
  | skip
  | fault (e : Fault)
  | node (h1 : Heap) (children : List repv) (tail : repv) (check_int : Bool)

/-- The cases of `rep_mark_value` for one value `val`.  The members of the
cell are read on entry; marking changes mark bits only. -/
def rep_mark_visit (M : mark_env) (h : Heap) (val : repv) : visit_result :=
  match val with
  | repv.int _ => visit_result.skip
  | repv.null => visit_result.fault Fault.bad_pointer
  | repv.cons blk idx =>
    if h.cons_writable blk idx = true then
      -- a cons: walk through whole lists at a time
      if (h.pairs.cons_mem blk idx).cdr = h.Qnil then
        visit_result.node (h.set_mark val) [] (h.pairs.cons_mem blk idx).car true
      else
        visit_result.node (h.set_mark val) [(h.pairs.cons_mem blk idx).car]
          (h.pairs.cons_mem blk idx).cdr true
    else visit_result.skip
  | repv.cell addr =>
    match (h.cells addr).body with
    | cell_body.cell16 type =>
      match rep_get_data_type M.registry type with
      | Except.error e => visit_result.fault e
      | Except.ok t =>
        match t.mark with
        | some f => visit_result.node (M.call_mark f val (h.set_mark val)) [] rep_NULL true
        | none => visit_result.node (h.set_mark val) [] rep_NULL true
    | cell_body.vector _ len array =>
      if M.rep_DUMPED = false ∨ h.cell_writable addr = true then
        visit_result.node (h.set_mark val)
          ((List.range len.toNat).map (fun i => array.getD i rep_NULL)) rep_NULL true
      else visit_result.skip
    | cell_body.symbol name value function prop_list next =>
      visit_result.node (h.set_mark val) [name, value, function, prop_list] next true
    | cell_body.string _ _ =>
      if h.cell_writable addr = false then visit_result.skip
      else visit_result.node (h.set_mark val) [] rep_NULL true
    | cell_body.funarg env fenv special_env fh_env func =>
      visit_result.node (h.set_mark val) [env, fenv, special_env, fh_env] func false
    | cell_body.var => visit_result.skip
    | cell_body.subr _ => visit_result.skip
    | cell_body.sf => visit_result.skip
    | cell_body.other type =>
      match rep_get_data_type M.registry type with
      | Except.error e => visit_result.fault e
      | Except.ok t =>
        match t.mark with
        | some f => visit_result.node (M.call_mark f val (h.set_mark val)) [] rep_NULL true
        | none => visit_result.node (h.set_mark val) [] rep_NULL true

/-- Modelled from the comment of `rep_mark_value` and its tests before
`goto again`: the macro `rep_MARKVAL`, which calls `rep_mark_value` (here
`mark`) on a value that is not null, not an integer and not marked, counting
the call. -/
def rep_MARKVAL (mark : Heap → repv → mark_outcome) (h : Heap) (x : repv) : mark_outcome :=
  if x ≠ rep_NULL ∧ rep_INTP x = false ∧ rep_GC_MARKEDP h x = false then
    match mark h x with
    | mark_outcome.done h1 n => mark_outcome.done h1 (n + 1)
    | o => o
  else mark_outcome.done h 0

/-- The uses of `rep_MARKVAL` on the values `xs`, in order. -/
def rep_MARKVAL_list (mark : Heap → repv → mark_outcome) : Heap → List repv → mark_outcome
  | h, [] => mark_outcome.done h 0
  | h, x :: xs =>
    match rep_MARKVAL mark h x with
    | mark_outcome.done h1 n =>
      match rep_MARKVAL_list mark h1 xs with
      | mark_outcome.done h2 m => mark_outcome.done h2 (n + m)
      | o => o
    | o => o

/-- The function `rep_mark_value`.  Every pass through the label `again` and
every nested invocation takes one unit of fuel from the chain of passes and
invocations it belongs to. -/
def rep_mark_value (M : mark_env) : Nat → Heap → repv → mark_outcome
  | 0, _, _ => mark_outcome.out_of_fuel
  | fuel + 1, h, val =>
    match rep_mark_visit M h val with
    | visit_result.skip => mark_outcome.done h 0
    | visit_result.fault e => mark_outcome.fault e
    | visit_result.node h1 children tail check_int =>
      match rep_MARKVAL_list (rep_mark_value M fuel) h1 children with
      | mark_outcome.done h2 n =>
        if tail ≠ rep_NULL ∧ (check_int = true → rep_INTP tail = false) ∧
            rep_GC_MARKEDP h2 tail = false then
          match rep_mark_value M fuel h2 tail with
          | mark_outcome.done h3 m => mark_outcome.done h3 (n + m)
          | o => o
        else mark_outcome.done h2 n
      | o => o

/-- A list of pairs linked through their tails and ended by nil:
`cdr_chain h p l` says that following `cdr` from the value `p` visits
exactly the pair cells `l`, in this order, and then reaches `Qnil`. -/
def cdr_chain (h : Heap) : repv → List (Nat × Nat) → Prop
  | p, [] => p = h.Qnil
  | p, c :: l => p = repv.cons c.1 c.2 ∧ cdr_chain h (h.pairs.cons_mem c.1 c.2).cdr l

/-- The heap `h` with the mark bits of the pair cells `l` set. -/
def Heap.mark_pairs (h : Heap) (l : List (Nat × Nat)) : Heap :=
  l.foldl (fun h c => h.set_mark (repv.cons c.1 c.2)) h

/-- The heap `h` with every mark bit cleared: two heaps that differ in mark
bits only have the same image. -/
def Heap.clear_marks (h : Heap) : Heap :=
  { h with
    pairs := { h.pairs with cons_mem := fun b i => { h.pairs.cons_mem b i with mark := false } }
    cells := fun a => { h.cells a with mark := false } }

/-- True of the pointers to cells of a type that has a descriptor in the
registry: the wide cells and the narrow cells of the `default:` case of
`rep_mark_value`, whose marking is up to the `mark` operation of the type. -/
def user_cell (h : Heap) : repv → Bool
  | repv.cell addr =>
    match (h.cells addr).body with
    | cell_body.other _ => true
    | cell_body.cell16 _ => true
    | _ => false
  | _ => false

/-- The cells of which `rep_mark_value` sets the mark bit when it is given
them: the writable pairs, the vectors and compiled blocks (the writable ones
when `rep_DUMPED` is defined), the symbols, the writable strings and the
closures. -/
def rep_markable (dumped : Bool) (h : Heap) : repv → Bool
  | repv.cons blk idx => h.cons_writable blk idx
  | repv.cell addr =>
    match (h.cells addr).body with
    | cell_body.vector _ _ _ => !dumped || h.cell_writable addr
    | cell_body.symbol _ _ _ _ _ => true
    | cell_body.string _ _ => h.cell_writable addr
    | cell_body.funarg _ _ _ _ _ => true
    | _ => false
  | _ => false

/-- The members through which marking goes on from a cell: head and tail of
a writable pair, but the head alone when the tail is `Qnil`; the first `len`
slots of a vector or compiled block; `name`, `value`, `function`, `prop_list`
and `next` of a symbol; `env`, `fenv`, `special_env`, `fh_env` and `fun` of a
closure.  Nothing is followed from any other cell. -/
def mark_fields (dumped : Bool) (h : Heap) : repv → List repv
  | repv.cons blk idx =>
    if h.cons_writable blk idx = true then
      if (h.pairs.cons_mem blk idx).cdr = h.Qnil then [(h.pairs.cons_mem blk idx).car]
      else [(h.pairs.cons_mem blk idx).car, (h.pairs.cons_mem blk idx).cdr]
    else []
  | repv.cell addr =>
    match (h.cells addr).body with
    | cell_body.vector _ len array =>
      if dumped = false ∨ h.cell_writable addr = true then
        (List.range len.toNat).map (fun i => array.getD i rep_NULL)
      else []
    | cell_body.symbol name value function prop_list next =>
      [name, value, function, prop_list, next]
    | cell_body.funarg env fenv special_env fh_env func =>
      [env, fenv, special_env, fh_env, func]
    | _ => []
  | _ => []

/-- Reachability by the members of `mark_fields`: `mark_reachable dumped h v x`
says that `x` is `v` or is reached from `v` in finitely many steps, each from
a cell to one of the members followed from it. -/
def mark_reachable (dumped : Bool) (h : Heap) (v x : repv) : Prop :=
  Relation.ReflTransGen (fun a b => b ∈ mark_fields dumped h a) v x

/-- The number of entries of `U` that `rep_mark_value` would mark and that
are not marked in `h`. -/
def unmarked_count (dumped : Bool) (h0 : Heap) (U : List repv) (h : Heap) : Nat :=
  (U.filter (fun x => rep_markable dumped h0 x && !rep_GC_MARKEDP h x)).length

/-- What marking the values `vals` has done when it has taken the heap `h`
to `h1`, both equal to `h0` up to mark bits: no mark bit is cleared, every
markable value of `vals` is marked, every cell newly marked is markable and
reachable from a value of `vals`, and every markable member followed from a
newly marked cell is marked. -/
structure mark_post (d : Bool) (h0 h : Heap) (vals : List repv) (h1 : Heap) : Prop where
  same : h1.clear_marks = h0.clear_marks
  mono : ∀ x, rep_GC_MARKEDP h x = true → rep_GC_MARKEDP h1 x = true
  root : ∀ y ∈ vals, rep_markable d h0 y = true → rep_GC_MARKEDP h1 y = true
  sound : ∀ x, rep_GC_MARKEDP h1 x = true → rep_GC_MARKEDP h x = true ∨
    (rep_markable d h0 x = true ∧ ∃ y ∈ vals, mark_reachable d h0 y x)
  closed : ∀ x, rep_GC_MARKEDP h1 x = true → rep_GC_MARKEDP h x = false →
    ∀ y ∈ mark_fields d h0 x, rep_markable d h0 y = true → rep_GC_MARKEDP h1 y = true

/-! ## Garbage collection: the whole function -/

/-- What `Fgarbage_collect` calls outside `values.c`: `call f` is the effect
on the heap of a call of the `mark_type` or `sweep` operation at the address
`f`, and the two other members are the effects of `rep_mark_regexp_data` and
`rep_mark_dl_data`. -/
structure gc_callbacks where
  call : fn_ptr → Heap → Heap
  rep_mark_regexp_data : Heap → Heap
  rep_mark_dl_data : Heap → Heap

/-- The globals of other files that `Fgarbage_collect` reads when it
returns: the value `Qt` and the counters `rep_used_symbols` and
`rep_allocated_symbols`. -/
structure gc_externs where
  Qt : repv
  rep_used_symbols : Int
  rep_allocated_symbols : Int

/-- One action of `Fgarbage_collect` on the heap.  The state is the heap
with the number of nested invocations of `rep_mark_value` so far; a fault or
the end of the fuel in `rep_mark_value` ends the run, and the actions after
it do nothing. -/
def gc_act (M : mark_env) (X : gc_callbacks) (fuel : Nat) (e : gc_event) (s : mark_outcome) :
    mark_outcome :=
  match s with
  | mark_outcome.done h n =>
    match e with
    | gc_event.set_in_gc b => mark_outcome.done { h with rep_in_gc := b } n
    | gc_event.markval v =>
      match rep_MARKVAL (rep_mark_value M fuel) h v with
      | mark_outcome.done h1 m => mark_outcome.done h1 (n + m)
      | o => o
    | gc_event.mark_type _ f => mark_outcome.done (X.call f h) n
    | gc_event.mark_regexp_data => mark_outcome.done (X.rep_mark_regexp_data h) n
    | gc_event.mark_dl_data => mark_outcome.done (X.rep_mark_dl_data h) n
    | gc_event.sweep _ f => mark_outcome.done (X.call f h) n
    | gc_event.reset_data_after_gc =>
      mark_outcome.done { h with pairs := { h.pairs with rep_data_after_gc := 0 } } n
  | o => o

/-- Modelled from the spec: the macro `rep_LIST_4` of `repint.h`, the list of
four elements, built like `rep_LIST_1` from pairs of `Fcons` with `Qnil` as
the last tail, the pair of the last element first (the function `rep_list_4`
of `values.c` returns it).  `a4` to `a1` are the results of the block
allocations that the four calls of `Fcons` may make. -/
def rep_LIST_4 (H : Header) (a4 a3 a2 a1 : Option Nat) (v1 v2 v3 v4 : repv) (h : Heap) :
    Except Fault (repv × Heap) :=
  match h.Fcons H a4 v4 h.Qnil with
  | Except.error e => Except.error e
  | Except.ok (l4, h4) =>
    match h4.Fcons H a3 v3 l4 with
    | Except.error e => Except.error e
    | Except.ok (l3, h3) =>
      match h3.Fcons H a2 v2 l3 with
      | Except.error e => Except.error e
      | Except.ok (l2, h2) => h2.Fcons H a1 v1 l2

/-- The end of `Fgarbage_collect` for a nil `noStats`: the statistics list.
C leaves the order open in which the three arguments that call `Fcons` are
evaluated; the model evaluates them from left to right.  `a k` is the result
of the block allocation that the `k`-th of the seven calls of `Fcons` may
make, and a call of `Fcons` that gives up ends the run. -/
def Fgarbage_collect_stats (H : Header) (Y : gc_externs) (a : Nat → Option Nat) (h : Heap) :
    Except Fault (repv × Heap) :=
  match h.Fcons H (a 0) (repv.int h.pairs.used_cons)
      (repv.int (h.pairs.allocated_cons - h.pairs.used_cons)) with
  | Except.error e => Except.error e
  | Except.ok (p1, h1) =>
    match h1.Fcons H (a 1) (repv.int Y.rep_used_symbols)
        (repv.int (Y.rep_allocated_symbols - Y.rep_used_symbols)) with
    | Except.error e => Except.error e
    | Except.ok (p2, h2) =>
      match h2.Fcons H (a 2) (repv.int h2.allocated_strings)
          (repv.int h2.allocated_string_bytes) with
      | Except.error e => Except.error e
      | Except.ok (p3, h3) =>
        rep_LIST_4 H (a 3) (a 4) (a 5) (a 6) p1 p2 p3 (repv.int h3.used_vector_slots) h3

/-- How a call of `Fgarbage_collect` ends: it returns a value, with the heap
it leaves, or a fault or the end of the fuel of the model stops it. -/
inductive gc_outcome
  | returned (v : repv) (h : Heap)
  | fault (e : Fault)
  | out_of_fuel

/-- The function `Fgarbage_collect`: its actions on the heap, then `Qt` or,
when `noStats` is nil, the statistics list. -/
def Fgarbage_collect (H : Header) (M : mark_env) (X : gc_callbacks) (fuel : Nat)
    (G : gc_inputs) (Y : gc_externs) (a : Nat → Option Nat) (noStats : repv) (h : Heap) :
    gc_outcome :=
  match Fgarbage_collect_run (gc_act M X fuel) G (mark_outcome.done h 0) with
  | mark_outcome.done h1 _ =>
    if noStats = h1.Qnil then
      match Fgarbage_collect_stats H Y a h1 with
      | Except.ok (v, h2) => gc_outcome.returned v h2
      | Except.error e => gc_outcome.fault e
    else gc_outcome.returned Y.Qt h1
  | mark_outcome.fault e => gc_outcome.fault e
  | mark_outcome.out_of_fuel => gc_outcome.out_of_fuel

/-- The statistics list of `Fgarbage_collect` as it lies in the heap `h2`:
`v` is a list of four pairs ended by `Qnil` whose first three heads are the
pairs `(used . free)` for the pairs and the symbols and
`(allocated_strings . allocated_string_bytes)`, and whose fourth head is
`used_vector_slots`, with the counters as they are in `h1`. -/
def is_statistics_list (Y : gc_externs) (h1 h2 : Heap) (v : repv) : Prop :=
  ∃ c1 c2 c3 c4 p1 p2 p3 : Nat × Nat, cdr_chain h2 v [c1, c2, c3, c4] ∧
    (h2.pairs.cons_mem c1.1 c1.2).car = repv.cons p1.1 p1.2 ∧
    (h2.pairs.cons_mem c2.1 c2.2).car = repv.cons p2.1 p2.2 ∧
    (h2.pairs.cons_mem c3.1 c3.2).car = repv.cons p3.1 p3.2 ∧
    (h2.pairs.cons_mem c4.1 c4.2).car = repv.int h1.used_vector_slots ∧
    (h2.pairs.cons_mem p1.1 p1.2).car = repv.int h1.pairs.used_cons ∧
    (h2.pairs.cons_mem p1.1 p1.2).cdr =
      repv.int (h1.pairs.allocated_cons - h1.pairs.used_cons) ∧
    (h2.pairs.cons_mem p2.1 p2.2).car = repv.int Y.rep_used_symbols ∧
    (h2.pairs.cons_mem p2.1 p2.2).cdr =
      repv.int (Y.rep_allocated_symbols - Y.rep_used_symbols) ∧
    (h2.pairs.cons_mem p3.1 p3.2).car = repv.int h1.allocated_strings ∧
    (h2.pairs.cons_mem p3.1 p3.2).cdr = repv.int h1.allocated_string_bytes

/-- What a caller sees of a call of `Fgarbage_collect` that returned: the
value, the flag `rep_in_gc` and the counter `rep_data_after_gc`. -/
def gc_outcome.report : gc_outcome → Option (repv × Bool × Int)
  | gc_outcome.returned v h => some (v, h.rep_in_gc, h.pairs.rep_data_after_gc)
  | _ => none

/-- The type code of a cell of a registered type (see `user_cell`), `none` for
any other value. -/
def user_cell_type (h : Heap) : repv → Option Nat
  | repv.cell addr =>
    match (h.cells addr).body with
    | cell_body.other t => some t
    | cell_body.cell16 t => some t
    | _ => none
  | _ => none

/-- The cells whose mark bit `rep_mark_value` sets when it is given them:
the markable cells of `rep_markable` and the cells of registered types. -/
def rep_visitable (dumped : Bool) (h : Heap) (x : repv) : Bool :=
  rep_markable dumped h x || user_cell h x

/-- The number of entries of `U` whose mark bit `rep_mark_value` would set
and that are not marked in `h`. -/
def unvisited_count (dumped : Bool) (h0 : Heap) (U : List repv) (h : Heap) : Nat :=
  (U.filter (fun x => rep_visitable dumped h0 x && !rep_GC_MARKEDP h x)).length

/-- What `rep_mark_value` relies on in the `mark` operations of the
registered types: a call returns, and it has done nothing to the heap but set
mark bits. -/
def mark_callbacks_set_marks (M : mark_env) : Prop :=
  ∀ f v h, (M.call_mark f v h).clear_marks = h.clear_marks ∧
    ∀ x, rep_GC_MARKEDP h x = true → rep_GC_MARKEDP (M.call_mark f v h) x = true

/-- Where the cells come from that `Fcons` hands out in a run that starts
with the free-list `l0` and whose `j`-th call gets the block `a j` when it
allocates one: `from_pool l0 a k c` says that the cell `c` is on `l0` or lies
in a block allocated by one of the calls before the `k`-th. -/
def from_pool (l0 : List (Nat × Nat)) (a : Nat → Option Nat) (k : Nat) (c : Nat × Nat) : Prop :=
  c ∈ l0 ∨ ∃ j, l0.length ≤ j ∧ j < k ∧ a j = some c.1

/-! ## Sample inputs -/

/-- A platform with 64-bit `long` and 32-bit `int` (LP64). -/
def lp64 : Platform := { long_bits := 64, int_bits := 32 }

/-- A sample assignment of the header constants: wide type numbers in bits 8
to 15, pairwise distinct codes for the built-in types, blocks of 4 pairs. -/
def sample_header : Header :=
  { rep_CELL16_TYPE_SHIFT := 8, rep_CELL_IS_8 := 1, rep_CELL_IS_16 := 32,
    rep_Cons := 0, rep_Int := 2, rep_Vector := 3, rep_String := 5, rep_Compiled := 7,
    rep_Void := 9, rep_Var := 11, rep_SF := 13, rep_Subr0 := 15, rep_Subr1 := 17,
    rep_Subr2 := 19, rep_Subr3 := 21, rep_Subr4 := 23, rep_Subr5 := 25, rep_SubrN := 27,
    rep_CONSBLK_SIZE := 4, sizeof_rep_cons := 16 }

/-- A sample heap in which every cell other than a pair has the type code 33. -/
def sample_cell_type : Nat → Nat := fun _ => 33

/-- A sample descriptor for the code 33 whose only operation is the
comparison `rep_ptr_cmp`. -/
def sample_type : rep_type :=
  { code := 33, name := "file", compare := some (rep_ptr_cmp sample_header sample_cell_type),
    princ := none, print := none, sweep := none, mark := none, mark_type := none,
    getc := none, ungetc := none, putc := none, puts := none, bind := none, unbind := none }

/-- A sample descriptor for the code 33 with a null `compare`. -/
def sample_type_no_compare : rep_type :=
  { sample_type with compare := none }

/-- The state of a run that is known to succeed; the initial pool stands in
for the state after a fault. -/
def pool_after (r : Except Fault (repv × ConsPool)) : ConsPool :=
  match r with
  | Except.ok (_, s) => s
  | Except.error _ => ConsPool.init

/-- A sample pool: one block at address 100 of which the first cell holds the
pair `(1 . 2)` and cells 1 to 3 are on the free-list. -/
def sample_pool : ConsPool :=
  pool_after (Fcons sample_header (some 100) (repv.int 1) (repv.int 2) ConsPool.init)

/-- A sample pool for sweeping: the blocks 200 and 100 of 4 cells; of block
100 the cell 0 holds the marked pair `(1 . 2)`, every other cell is unmarked,
and block 200 has no marked cell. -/
def sample_marked_pool : ConsPool :=
  { cons_mem := fun b i =>
      if b = 100 ∧ i = 0 then { car := repv.int 1, cdr := repv.int 2, mark := true }
      else { car := rep_NULL, cdr := rep_NULL, mark := false },
    cons_block_chain := [200, 100], cons_freelist := rep_NULL, allocated_cons := 8,
    used_cons := 1, rep_data_after_gc := 16, freed_blocks := [] }

/-- A sample pool with one block, at address 100, whose 4 cells all hold the
marked pair `(1 . 2)`: every cell of the block is live. -/
def sample_full_pool : ConsPool :=
  { cons_mem := fun _ _ => { car := repv.int 1, cdr := repv.int 2, mark := true },
    cons_block_chain := [100], cons_freelist := rep_NULL, allocated_cons := 4,
    used_cons := 4, rep_data_after_gc := 64, freed_blocks := [] }

/-- Sample size macros: a vector header of 16 bytes and slots of 8 bytes, a
string header of 24 bytes, strings of at most `2^24 - 1` bytes. -/
def sample_sizes : Sizes :=
  { rep_VECT_SIZE := fun size => 16 + 8 * size,
    rep_DSTRING_SIZE := fun len => 24 + len,
    rep_MAX_STRING := 2 ^ 24 - 1 }

/-- Sample signalling: `Qerror` is the symbol at 16, the message string is at
24, and `Fsignal` returns `rep_NULL` without touching the heap. -/
def sample_signals : Signals :=
  { Qerror := repv.cell 16, string_overflow := repv.cell 24,
    Fsignal := fun _ _ h => (rep_NULL, h) }

/-- A sample heap for sweeping: the vectors at 1000 (marked, holding 1 and 2)
and 1008 (unmarked), the strings at 2000 (marked, "ab") and 2008
(unmarked). -/
def sample_heap : Heap :=
  { Heap.init with
    cells := fun a =>
      if a = 1000 then
        { body := cell_body.vector false 2 [repv.int 1, repv.int 2], mark := true }
      else if a = 1008 then
        { body := cell_body.vector false 1 [repv.int 3], mark := false }
      else if a = 2000 then { body := cell_body.string 2 [97, 98], mark := true }
      else if a = 2008 then { body := cell_body.string 1 [99], mark := false }
      else { body := cell_body.other 0, mark := false }
    vector_chain := [1008, 1000], used_vector_slots := 3,
    strings := [2008, 2000], allocated_strings := 2, allocated_string_bytes := 51 }

/-- A sample marking environment: no registered type, callbacks that leave
the heap alone, `rep_DUMPED` defined. -/
def sample_mark_env : mark_env :=
  { registry := Registry.init, call_mark := fun _ _ h => h, rep_DUMPED := true }

/-- A sample heap for marking: the list `(1 2)` made of the pairs
`100->cons[0]` and `100->cons[1]`; the pairs of block 200 and the cells from
address 5000 on lie in a read-only image, and the cell at 5000 is a string,
the cell at 40 a primitive procedure. -/
def sample_list_heap : Heap :=
  { Heap.init with
    pairs := { ConsPool.init with
      cons_mem := fun b i =>
        if b = 100 ∧ i = 0 then { car := repv.int 1, cdr := repv.cons 100 1, mark := false }
        else if b = 100 ∧ i = 1 then { car := repv.int 2, cdr := repv.cell 8, mark := false }
        else { car := rep_NULL, cdr := rep_NULL, mark := false } }
    cons_writable := fun b _ => decide (b ≠ 200)
    cells := fun a =>
      if a = 5000 then { body := cell_body.string 1 [97], mark := false }
      else if a = 40 then { body := cell_body.subr 2, mark := false }
      else { body := cell_body.other 0, mark := false }
    cell_writable := fun a => decide (a < 5000) }

/-- A sample heap in which `Qnil` is a symbol, as in the interpreter: the
symbol `nil` is the writable cell at 8 with the string at 16 as its name and
itself as its value, and `100->cons[0]` holds the list `(1)`, a writable pair
with head 1 and tail `Qnil`.  No cell is marked. -/
def sample_nil_heap : Heap :=
  { Heap.init with
    pairs := { ConsPool.init with
      cons_mem := fun b i =>
        if b = 100 ∧ i = 0 then { car := repv.int 1, cdr := repv.cell 8, mark := false }
        else { car := rep_NULL, cdr := rep_NULL, mark := false } }
    cells := fun a =>
      if a = 8 then
        { body := cell_body.symbol (repv.cell 16) (repv.cell 8) rep_NULL rep_NULL rep_NULL,
          mark := false }
      else if a = 16 then { body := cell_body.string 3 [110, 105, 108], mark := false }
      else { body := cell_body.var, mark := false } }

/-- A sample heap with a cycle: the writable pair `100->cons[0]` has the
symbol at 24 as its head and the pair `100->cons[1]` as its tail, whose head
is the first pair again and whose tail is 7; the symbol at 24 has the
string at 16 as its name and the first pair as its value.  `Qnil` is the
symbol at 8.  No cell is marked. -/
def sample_cycle_heap : Heap :=
  { Heap.init with
    pairs := { ConsPool.init with
      cons_mem := fun b i =>
        if b = 100 ∧ i = 0 then { car := repv.cell 24, cdr := repv.cons 100 1, mark := false }
        else if b = 100 ∧ i = 1 then
          { car := repv.cons 100 0, cdr := repv.int 7, mark := false }
        else { car := rep_NULL, cdr := rep_NULL, mark := false } }
    cells := fun a =>
      if a = 24 then
        { body := cell_body.symbol (repv.cell 16) (repv.cons 100 0) rep_NULL rep_NULL rep_NULL,
          mark := false }
      else if a = 16 then { body := cell_body.string 1 [120], mark := false }
      else if a = 8 then
        { body := cell_body.symbol (repv.cell 16) (repv.cell 8) rep_NULL rep_NULL rep_NULL,
          mark := false }
      else { body := cell_body.var, mark := false } }

/-- Sample surroundings of a collection: nothing registered, no roots, no
call frame, callbacks that leave the heap alone. -/
def sample_gc_inputs : gc_inputs :=
  { statics := StaticRoots.init, rep_gc_root_stack := [], rep_gc_n_roots_stack := [],
    registry := Registry.init, rep_call_stack := [], read := fun _ _ => rep_NULL,
    HAVE_DYNAMIC_LOADING := false }

/-- Sample callbacks, all leaving the heap alone. -/
def sample_gc_callbacks : gc_callbacks :=
  { call := fun _ h => h, rep_mark_regexp_data := fun h => h, rep_mark_dl_data := fun h => h }

/-- Sample globals: `Qt` is the symbol at 32, and 10 of 12 symbols are in
use. -/
def sample_gc_externs : gc_externs :=
  { Qt := repv.cell 32, rep_used_symbols := 10, rep_allocated_symbols := 12 }

/-- Sample block allocations: the `k`-th call of `Fcons` would get the block
at `100 + 100 * k`. -/
def sample_blocks : Nat → Option Nat := fun k => some (100 + 100 * k)

/-- The heap of a run that is known to succeed; the heap at program start
stands in for the heap after a fault. -/
def heap_after (r : Except Fault (repv × Heap)) : Heap :=
  match r with
  | Except.ok (_, h) => h
  | Except.error _ => Heap.init

/-- A sample heap with two strings and nothing else: from the heap at program
start, `rep_make_string (6)` has returned the cell at 2000 and then
`rep_make_string (1)` the cell at 2008 (the calls that `rep_string_dupn`
makes for a string of 5 bytes and for the empty string). -/
def sample_two_strings : Heap :=
  heap_after (rep_make_string sample_header sample_sizes sample_signals none (some 2008) 1
    (heap_after (rep_make_string sample_header sample_sizes sample_signals none (some 2000) 6
      Heap.init)))

/-- A sample descriptor for the code 33 with a `mark` operation, at the
address 7. -/
def sample_marking_type : rep_type :=
  { sample_type with mark := some 7 }

/-- A sample marking environment with the type 33 registered; its `mark`
operation marks the symbol at 24, as a type does for a member of its cells. -/
def sample_user_mark_env : mark_env :=
  { registry :=
      { next_free_type := 0,
        data_types := fun i => if i = TYPE_HASH 33 then [sample_marking_type] else [] },
    call_mark := fun _ _ h => h.set_mark (repv.cell 24), rep_DUMPED := true }

/-- A sample heap full of cycles: the writable pair `100->cons[0]` has the
vector at 1000 as its head and itself as its tail; the vector holds itself,
the symbol at 24 and the cell at 48 of the registered type 33; the symbols at
24 and 32 have each other as their values.  The symbol at 32 is already
marked. -/
def sample_self_heap : Heap :=
  { Heap.init with
    pairs := { ConsPool.init with
      cons_mem := fun b i =>
        if b = 100 ∧ i = 0 then { car := repv.cell 1000, cdr := repv.cons 100 0, mark := false }
        else { car := rep_NULL, cdr := rep_NULL, mark := false } }
    cells := fun a =>
      if a = 1000 then
        { body := cell_body.vector false 3 [repv.cell 1000, repv.cell 24, repv.cell 48],
          mark := false }
      else if a = 24 then
        { body := cell_body.symbol rep_NULL (repv.cell 32) rep_NULL rep_NULL rep_NULL,
          mark := false }
      else if a = 32 then
        { body := cell_body.symbol rep_NULL (repv.cell 24) rep_NULL rep_NULL rep_NULL,
          mark := true }
      else if a = 48 then { body := cell_body.cell16 33, mark := false }
      else { body := cell_body.var, mark := false } }

/-! ## Theorems -/

/-! ### The type registry -/

theorem type_chain_find_code {c : Nat} {l : List rep_type} {t : rep_type}
    (h : type_chain_find c l = some t) : t.code = c := by
  induction l with
  | nil => simp [type_chain_find] at h
  | cons a l ih =>
    unfold type_chain_find at h
    by_cases hc : a.code = c
    · simp [hc] at h; subst h; exact hc
    · simp [hc] at h; exact ih h

theorem rep_get_data_type_code {s : Registry} {c : Nat} {t : rep_type}
    (h : rep_get_data_type s c = Except.ok t) : t.code = c := by
  unfold rep_get_data_type at h
  split at h
  · cases h
  · next t1 h1 =>
    cases h
    exact type_chain_find_code h1

theorem rep_get_data_type_run (r : register_call) (s : Registry) (c : Nat) :
    rep_get_data_type (r.run s) c =
      if r.installs c = true then Except.ok r.args else rep_get_data_type s c := by
  obtain ⟨a, d⟩ := r
  cases a with
  | false => simp [register_call.run, rep_register_type, register_call.installs]
  | true =>
    by_cases hc : d.code = c
    · subst hc
      simp [register_call.run, rep_register_type, register_call.installs,
        rep_get_data_type, type_chain_find]
    · by_cases hh : TYPE_HASH c = TYPE_HASH d.code
      · simp [register_call.run, rep_register_type, register_call.installs,
          rep_get_data_type, type_chain_find, hc, hh]
      · simp [register_call.run, rep_register_type, register_call.installs,
          rep_get_data_type, hc, Function.update_noteq hh]

theorem rep_get_data_type_register_calls_from (rs : List register_call) (s : Registry)
    (c : Nat) :
    rep_get_data_type (register_calls rs s) c =
      match rs.reverse.find? (register_call.installs c) with
      | some r => Except.ok r.args
      | none => rep_get_data_type s c := by
  induction rs generalizing s with
  | nil => simp [register_calls]
  | cons r rs ih =>
    have h := ih (r.run s)
    simp only [register_calls, List.foldl_cons] at h ⊢
    rw [h, List.reverse_cons, List.find?_append]
    cases hf : List.find? (register_call.installs c) rs.reverse with
    | some r1 => simp
    | none =>
      simp only [Option.none_or, List.find?_cons, List.find?_nil]
      rw [rep_get_data_type_run]
      cases hi : register_call.installs c r <;> simp

/-- C1: after any sequence of `rep_register_type` calls from the initial
registry, `rep_get_data_type c` returns the descriptor (exactly the arguments)
of the most recent call that installed a descriptor for `c`, and fails its
assertion when there is none; a call for a code other than `c` leaves the
result of `rep_get_data_type c` as it was, in every registry.  A call whose
allocation fails installs nothing and is no registration. -/
theorem rep_get_data_type_most_recent (rs : List register_call) (c : Nat) :
    rep_get_data_type (register_calls rs Registry.init) c =
        (match rs.reverse.find? (register_call.installs c) with
         | some r => Except.ok r.args
         | none => Except.error Fault.assert_failed) ∧
      ∀ (r : register_call) (s : Registry), r.args.code ≠ c →
        rep_get_data_type (r.run s) c = rep_get_data_type s c := by
  refine ⟨?_, ?_⟩
  · rw [rep_get_data_type_register_calls_from]
    cases List.find? (register_call.installs c) rs.reverse with
    | some r => rfl
    | none => simp [rep_get_data_type, Registry.init, type_chain_find]
  · intro r s hne
    rw [rep_get_data_type_run]
    simp [register_call.installs, hne]

theorem or_flags_lt {a b S I : Nat} (h : a ||| b < 2 ^ S) (hS : S ≤ I) :
    a < 2 ^ I ∧ b < 2 ^ I := by
  have hp : 2 ^ S ≤ 2 ^ I := Nat.pow_le_pow_right (by decide) hS
  have ha : a ≤ a ||| b := by
    apply Nat.le_of_testBit
    intro i hi
    simp [hi]
  have hb : b ≤ a ||| b := by
    apply Nat.le_of_testBit
    intro i hi
    simp [hi]
  omega

theorem new_type_code_eq {P : Platform} {H : Header} (hl : wide_code_layout P H) {k : Nat}
    (hk : k < 256) :
    new_type_code P H k =
      (k <<< H.rep_CELL16_TYPE_SHIFT) ||| H.rep_CELL_IS_8 ||| H.rep_CELL_IS_16 := by
  obtain ⟨_, h2, h3⟩ := hl
  have hks : k <<< H.rep_CELL16_TYPE_SHIFT < 2 ^ P.int_bits := by
    rw [Nat.shiftLeft_eq]
    calc k * 2 ^ H.rep_CELL16_TYPE_SHIFT
        < 2 ^ 8 * 2 ^ H.rep_CELL16_TYPE_SHIFT :=
          Nat.mul_lt_mul_of_pos_right (by simpa using hk) (Nat.two_pow_pos _)
      _ = 2 ^ (H.rep_CELL16_TYPE_SHIFT + 8) := by rw [Nat.pow_add, Nat.mul_comm]
      _ ≤ 2 ^ P.int_bits := Nat.pow_le_pow_right (by decide) h2
  obtain ⟨ha, hb⟩ := or_flags_lt h3 (by omega : H.rep_CELL16_TYPE_SHIFT ≤ P.int_bits)
  unfold new_type_code
  rw [Nat.mod_eq_of_lt hks]
  exact Nat.mod_eq_of_lt (Nat.or_lt_two_pow (Nat.or_lt_two_pow hks ha) hb)

theorem wide_code_shiftRight {S c : Nat} (h : c < 2 ^ S) (k : Nat) :
    ((k <<< S) ||| c) >>> S = k := by
  rw [Nat.shiftLeft_eq, Nat.mul_comm, ← Nat.mul_add_lt_is_or h, Nat.shiftRight_eq_div_pow,
    Nat.mul_add_div (Nat.two_pow_pos S), Nat.div_eq_of_lt h, Nat.add_zero]

theorem new_type_code_inj {P : Platform} {H : Header} (hl : wide_code_layout P H) {j k : Nat}
    (hj : j < 256) (hk : k < 256) (h : new_type_code P H j = new_type_code P H k) : j = k := by
  rw [new_type_code_eq hl hj, new_type_code_eq hl hk, Nat.or_assoc, Nat.or_assoc] at h
  have := congrArg (fun x => x >>> H.rep_CELL16_TYPE_SHIFT) h
  simpa [wide_code_shiftRight hl.2.2] using this

theorem register_new_call_eq (P : Platform) (H : Header) (r : register_call) (s : Registry) :
    register_new_call P H r s =
      if s.next_free_type = 256 then Except.error Fault.assert_failed
      else Except.ok (new_type_code P H s.next_free_type,
        register_call.run
          { t_alloc := r.t_alloc, args := r.new_descriptor P H s.next_free_type }
          { s with next_free_type := (s.next_free_type + 1) % 2 ^ P.int_bits }) := rfl

theorem register_new_calls_spec {P : Platform} {H : Header} (hl : wide_code_layout P H)
    (rs : List register_call) (s : Registry) (hn : s.next_free_type + rs.length ≤ 256) :
    ∃ s1, register_new_calls P H rs s =
          Except.ok ((List.range' s.next_free_type rs.length).map (new_type_code P H), s1) ∧
      s1.next_free_type = s.next_free_type + rs.length ∧
      (∀ c, (∀ j, s.next_free_type ≤ j → j < s.next_free_type + rs.length →
          new_type_code P H j ≠ c) → rep_get_data_type s1 c = rep_get_data_type s c) ∧
      ∀ (k : Nat) (hk : k < rs.length), rs[k].t_alloc = true →
        rep_get_data_type s1 (new_type_code P H (s.next_free_type + k)) =
          Except.ok (rs[k].new_descriptor P H (s.next_free_type + k)) := by
  induction rs generalizing s with
  | nil => exact ⟨s, by simp [register_new_calls]⟩
  | cons r rs ih =>
    simp only [List.length_cons] at hn
    have hlt : s.next_free_type < 256 := by omega
    have hmod : (s.next_free_type + 1) % 2 ^ P.int_bits = s.next_free_type + 1 := by
      apply Nat.mod_eq_of_lt
      have : 2 ^ 9 ≤ 2 ^ P.int_bits := Nat.pow_le_pow_right (by decide) hl.1
      omega
    obtain ⟨s1, h1, h2, h3, h4⟩ := ih
      (register_call.run
        { t_alloc := r.t_alloc, args := r.new_descriptor P H s.next_free_type }
        { s with next_free_type := s.next_free_type + 1 })
      (by simp [register_call.run, rep_register_type]; split <;> simp <;> omega)
    have hnft : (register_call.run
        { t_alloc := r.t_alloc, args := r.new_descriptor P H s.next_free_type }
        { s with next_free_type := s.next_free_type + 1 }).next_free_type
          = s.next_free_type + 1 := by
      simp [register_call.run, rep_register_type]; split <;> rfl
    rw [hnft] at h1 h2 h3 h4
    refine ⟨s1, ?_, ?_, ?_, ?_⟩
    · simp only [register_new_calls, register_new_call_eq, hmod, if_neg (Nat.ne_of_lt hlt), h1]
      simp [List.range'_succ]
    · rw [h2, List.length_cons]; omega
    · intro c hc
      rw [h3 c (fun j hj1 hj2 => hc j (by omega) (by simp only [List.length_cons]; omega)),
        rep_get_data_type_run]
      have : new_type_code P H s.next_free_type ≠ c :=
        hc _ (Nat.le_refl _) (by simp only [List.length_cons]; omega)
      simp [register_call.installs, register_call.new_descriptor, this]
      rfl
    · intro k hk hal
      cases k with
      | zero =>
        simp only [List.getElem_cons_zero, Nat.add_zero] at hal ⊢
        rw [h3 _ (fun j hj1 hj2 hj => by
          have := new_type_code_inj hl (by omega) hlt hj
          omega), rep_get_data_type_run]
        simp [register_call.installs, register_call.new_descriptor, hal]
      | succ k =>
        simp only [List.getElem_cons_succ] at hal ⊢
        have := h4 k (by simpa using hk) hal
        rw [show s.next_free_type + (k + 1) = s.next_free_type + 1 + k by omega]
        exact this

/-- C2: with a code layout as in `wide_code_layout`, from any registry whose
counter of wide types is 0, 256 calls of `rep_register_new_type` whose
allocations succeed all return: the `k`-th returns
`(k << rep_CELL16_TYPE_SHIFT) | rep_CELL_IS_8 | rep_CELL_IS_16`, the codes are
pairwise distinct, each is afterwards resolved by `rep_get_data_type` to the
descriptor built by its call, and a 257th call fails the assertion, which
leaves no registry with a further descriptor. -/
theorem rep_register_new_type_256 (P : Platform) (H : Header) (hl : wide_code_layout P H)
    (s : Registry) (h0 : s.next_free_type = 0) (rs : List register_call)
    (hlen : rs.length = 256) (hal : ∀ r ∈ rs, r.t_alloc = true) (r257 : register_call) :
    ∃ (codes : List Nat) (s1 : Registry),
      register_new_calls P H rs s = Except.ok (codes, s1) ∧
      codes = (List.range 256).map (fun k =>
        (k <<< H.rep_CELL16_TYPE_SHIFT) ||| H.rep_CELL_IS_8 ||| H.rep_CELL_IS_16) ∧
      codes.Nodup ∧
      (∀ (k : Nat) (hk : k < rs.length),
        rep_get_data_type s1
            ((k <<< H.rep_CELL16_TYPE_SHIFT) ||| H.rep_CELL_IS_8 ||| H.rep_CELL_IS_16) =
          Except.ok { rs[k].args with
            code := (k <<< H.rep_CELL16_TYPE_SHIFT) ||| H.rep_CELL_IS_8 ||| H.rep_CELL_IS_16 }) ∧
      register_new_call P H r257 s1 = Except.error Fault.assert_failed := by
  obtain ⟨s1, h1, h2, -, h4⟩ := register_new_calls_spec hl rs s (by omega)
  rw [h0, hlen] at h1
  rw [h0, hlen, Nat.zero_add] at h2
  have hcodes : (List.range' 0 256).map (new_type_code P H) =
      (List.range 256).map (fun k =>
        (k <<< H.rep_CELL16_TYPE_SHIFT) ||| H.rep_CELL_IS_8 ||| H.rep_CELL_IS_16) := by
    rw [← List.range_eq_range']
    apply List.map_congr_left
    intro k hk
    exact new_type_code_eq hl (List.mem_range.mp hk)
  refine ⟨_, s1, h1, hcodes, ?_, ?_, ?_⟩
  · rw [← List.range_eq_range']
    apply List.Nodup.map_on _ (List.nodup_range 256)
    intro x hx y hy hxy
    exact new_type_code_inj hl (List.mem_range.mp hx) (List.mem_range.mp hy) hxy
  · intro k hk
    have := h4 k hk (hal _ (List.getElem_mem hk))
    rw [h0, Nat.zero_add, new_type_code_eq hl (by omega)] at this
    rw [this, register_call.new_descriptor, new_type_code_eq hl (by omega)]
  · rw [register_new_call_eq, if_pos h2]

/-- Witness of C1: a registration of code 33 is found again, and a call for
code 33 does not change the lookup of code 5. -/
theorem rep_get_data_type_most_recent_witness :
    rep_get_data_type (register_calls [⟨true, sample_type⟩] Registry.init) 33 =
        Except.ok sample_type ∧
      ((⟨true, sample_type⟩ : register_call).args.code ≠ 5 ∧
        rep_get_data_type ((⟨true, sample_type⟩ : register_call).run Registry.init) 5 =
          rep_get_data_type Registry.init 5) :=
  ⟨(rep_get_data_type_most_recent [⟨true, sample_type⟩] 33).1,
    by decide,
    (rep_get_data_type_most_recent [] 5).2 ⟨true, sample_type⟩ Registry.init (by decide)⟩

/-- Witness of C2: 256 calls with the sample descriptor from the initial
registry on LP64 with the sample header. -/
theorem rep_register_new_type_256_witness :
    wide_code_layout lp64 sample_header ∧ Registry.init.next_free_type = 0 ∧
      (List.replicate 256 (⟨true, sample_type⟩ : register_call)).length = 256 ∧
      ∃ (codes : List Nat) (s1 : Registry),
        register_new_calls lp64 sample_header
            (List.replicate 256 (⟨true, sample_type⟩ : register_call)) Registry.init =
          Except.ok (codes, s1) ∧
        codes = (List.range 256).map (fun k => (k <<< 8) ||| 1 ||| 32) ∧
        codes.Nodup ∧
        (∀ (k : Nat)
            (hk : k < (List.replicate 256 (⟨true, sample_type⟩ : register_call)).length),
          rep_get_data_type s1 ((k <<< 8) ||| 1 ||| 32) =
            Except.ok { (List.replicate 256 (⟨true, sample_type⟩ : register_call))[k].args with
              code := (k <<< 8) ||| 1 ||| 32 }) ∧
        register_new_call lp64 sample_header ⟨true, sample_type⟩ s1 =
          Except.error Fault.assert_failed :=
  ⟨by decide, rfl, List.length_replicate _ _,
    rep_register_new_type_256 lp64 sample_header (by decide) Registry.init rfl
      (List.replicate 256 ⟨true, sample_type⟩) (List.length_replicate _ _)
      (fun r hr => by rw [List.eq_of_mem_replicate hr]) ⟨true, sample_type⟩⟩

/-! ### Value dispatch -/

theorem rep_value_cmp_same (H : Header) (cell_type : Nat → Nat) (s : Registry)
    (v1 : repv) (t1 : rep_type) (h1 : v1 ≠ rep_NULL)
    (ht : rep_get_data_type s (rep_TYPE H cell_type v1) = Except.ok t1) :
    rep_value_cmp H cell_type s v1 v1 = Except.ok { result := 0, invoked := [] } := by
  simp [rep_value_cmp, h1, ht]

theorem rep_value_cmp_distinct (H : Header) (cell_type : Nat → Nat) (s : Registry)
    (v1 v2 : repv) (t1 : rep_type) (compare : repv → repv → Int) (h1 : v1 ≠ rep_NULL)
    (h2 : v2 ≠ rep_NULL) (hne : v1 ≠ v2)
    (ht : rep_get_data_type s (rep_TYPE H cell_type v1) = Except.ok t1)
    (hc : t1.compare = some compare) :
    rep_value_cmp H cell_type s v1 v2 =
      Except.ok { result := compare v1 v2,
                  invoked := [(rep_TYPE H cell_type v1, v1, v2)] } := by
  simp [rep_value_cmp, h1, h2, ht, hne, hc, rep_get_data_type_code ht]

/-- C3: for non-null `v1`, `v2` with the type of `v1` registered,
`rep_value_cmp v1 v1` returns 0 without calling any `compare`, and for
`v1 ≠ v2` the call returns exactly the result of the `compare` operation of
the descriptor of `v1`'s type applied to `(v1, v2)`, called once. -/
theorem rep_value_cmp_dispatch (H : Header) (cell_type : Nat → Nat) (s : Registry)
    (v1 v2 : repv) (t1 : rep_type) (h1 : v1 ≠ rep_NULL) (h2 : v2 ≠ rep_NULL)
    (ht : rep_get_data_type s (rep_TYPE H cell_type v1) = Except.ok t1) :
    rep_value_cmp H cell_type s v1 v1 = Except.ok { result := 0, invoked := [] } ∧
      (v1 ≠ v2 → ∀ compare, t1.compare = some compare →
        rep_value_cmp H cell_type s v1 v2 =
          Except.ok { result := compare v1 v2,
                      invoked := [(rep_TYPE H cell_type v1, v1, v2)] }) := by
  constructor
  · exact rep_value_cmp_same H cell_type s v1 t1 h1 ht
  · intro hne compare hc
    exact rep_value_cmp_distinct H cell_type s v1 v2 t1 compare h1 h2 hne ht hc

/-- Witness of C3: two distinct cells of the sample type 33, compared through
`rep_ptr_cmp`. -/
theorem rep_value_cmp_dispatch_witness :
    repv.cell 8 ≠ rep_NULL ∧ repv.cell 16 ≠ rep_NULL ∧
      rep_get_data_type (register_calls [⟨true, sample_type⟩] Registry.init)
          (rep_TYPE sample_header sample_cell_type (repv.cell 8)) = Except.ok sample_type ∧
      rep_value_cmp sample_header sample_cell_type
          (register_calls [⟨true, sample_type⟩] Registry.init) (repv.cell 8) (repv.cell 8) =
        Except.ok { result := 0, invoked := [] } ∧
      rep_value_cmp sample_header sample_cell_type
          (register_calls [⟨true, sample_type⟩] Registry.init) (repv.cell 8) (repv.cell 16) =
        Except.ok { result := rep_ptr_cmp sample_header sample_cell_type (repv.cell 8)
                      (repv.cell 16),
                    invoked := [(33, repv.cell 8, repv.cell 16)] } :=
  have h := rep_value_cmp_dispatch sample_header sample_cell_type
    (register_calls [⟨true, sample_type⟩] Registry.init) (repv.cell 8) (repv.cell 16)
    sample_type (by decide) (by decide) rfl
  ⟨by decide, by decide, rfl, h.1, h.2 (by decide) _ rfl⟩

/-- C4: when either operand is `rep_NULL`, `rep_value_cmp` returns 1 and calls
no `compare`, in every registry (also one in which every lookup would fail)
and for every other operand. -/
theorem rep_value_cmp_null (H : Header) (cell_type : Nat → Nat) (s : Registry) (b : repv) :
    rep_value_cmp H cell_type s rep_NULL b = Except.ok { result := 1, invoked := [] } ∧
      rep_value_cmp H cell_type s b rep_NULL = Except.ok { result := 1, invoked := [] } := by
  simp [rep_value_cmp]

/-- Counterexample to C5: with the type 33 registered with a null `compare`,
comparing two distinct cells of that type ends in a call through the null
pointer instead of a non-zero result. -/
theorem rep_value_cmp_null_compare_fails :
    rep_value_cmp sample_header sample_cell_type
        (register_calls [⟨true, sample_type_no_compare⟩] Registry.init)
        (repv.cell 8) (repv.cell 16) = Except.error Fault.null_call := by
  rfl

/-- C5 as amended: for a registered type with a null `compare`,
`rep_value_cmp a a` is 0, and for distinct non-null operands the call goes
through the null pointer and yields no result; with `rep_ptr_cmp` registered
as `compare`, distinct operands of that type compare as 1 by pointer
identity. -/
theorem rep_value_cmp_absent_compare (H : Header) (cell_type : Nat → Nat) (s : Registry)
    (a b : repv) (t : rep_type) (ha : a ≠ rep_NULL) (hb : b ≠ rep_NULL) (hab : a ≠ b)
    (ht : rep_get_data_type s (rep_TYPE H cell_type a) = Except.ok t) :
    rep_value_cmp H cell_type s a a = Except.ok { result := 0, invoked := [] } ∧
      (t.compare = none →
        rep_value_cmp H cell_type s a b = Except.error Fault.null_call) ∧
      (t.compare = some (rep_ptr_cmp H cell_type) →
        rep_value_cmp H cell_type s a b =
          Except.ok { result := 1, invoked := [(rep_TYPE H cell_type a, a, b)] }) := by
  refine ⟨?_, ?_, ?_⟩
  · simp [rep_value_cmp, ha, ht]
  · intro hc
    simp [rep_value_cmp, ha, hb, hab, ht, hc]
  · intro hc
    rw [rep_value_cmp_distinct H cell_type s a b t _ ha hb hab ht hc]
    simp [rep_ptr_cmp, hab]

/-- Witness of C5 as amended, at two cells of the sample type 33 registered
without a `compare`. -/
theorem rep_value_cmp_absent_compare_witness :
    repv.cell 8 ≠ rep_NULL ∧ repv.cell 16 ≠ rep_NULL ∧ repv.cell 8 ≠ repv.cell 16 ∧
      rep_value_cmp sample_header sample_cell_type
          (register_calls [⟨true, sample_type_no_compare⟩] Registry.init)
          (repv.cell 8) (repv.cell 8) = Except.ok { result := 0, invoked := [] } ∧
      rep_value_cmp sample_header sample_cell_type
          (register_calls [⟨true, sample_type_no_compare⟩] Registry.init)
          (repv.cell 8) (repv.cell 16) = Except.error Fault.null_call ∧
      rep_value_cmp sample_header sample_cell_type
          (register_calls [⟨true, sample_type⟩] Registry.init)
          (repv.cell 8) (repv.cell 16) =
        Except.ok { result := 1, invoked := [(33, repv.cell 8, repv.cell 16)] } :=
  have h := rep_value_cmp_absent_compare sample_header sample_cell_type
    (register_calls [⟨true, sample_type_no_compare⟩] Registry.init)
    (repv.cell 8) (repv.cell 16) sample_type_no_compare (by decide) (by decide) (by decide) rfl
  have k := rep_value_cmp_absent_compare sample_header sample_cell_type
    (register_calls [⟨true, sample_type⟩] Registry.init)
    (repv.cell 8) (repv.cell 16) sample_type (by decide) (by decide) (by decide) rfl
  ⟨by decide, by decide, by decide, h.1, h.2.1 rfl, k.2.2 rfl⟩

theorem to_c_int_of_fits {bits : Nat} {x : Int} (hb : 0 < bits)
    (h1 : -(2 : Int) ^ (bits - 1) ≤ x) (h2 : x < (2 : Int) ^ (bits - 1)) :
    to_c_int bits x = x := by
  have hp : (2 : Int) ^ bits = 2 * 2 ^ (bits - 1) := by
    rw [← pow_succ', Nat.sub_add_cancel hb]
  unfold to_c_int
  rw [Int.emod_eq_of_lt (by omega) (by omega)]
  omega

theorem number_cmp_of_fits (P : Platform) (H : Header) (cell_type : Nat → Nat) (n1 n2 : Int)
    (hb : 3 ≤ P.long_bits) (hw : P.long_bits ≤ P.int_bits + 1)
    (h1 : small_int_range P n1) (h2 : small_int_range P n2) :
    number_cmp P H cell_type (repv.int n1) (repv.int n2) = n1 - n2 := by
  obtain ⟨a1, a2⟩ := h1
  obtain ⟨b1, b2⟩ := h2
  have hle : (2 : Int) ^ (P.long_bits - 3) * 2 ≤ 2 ^ (P.int_bits - 1) := by
    rw [← pow_succ]
    exact pow_le_pow_right₀ (by norm_num) (by omega)
  simp only [number_cmp, rep_TYPE, rep_INT, if_true]
  generalize (2 : Int) ^ (P.long_bits - 3) = c at a1 a2 b1 b2 hle
  generalize hd : (2 : Int) ^ (P.int_bits - 1) = d at hle
  exact to_c_int_of_fits (by omega) (by rw [hd]; omega) (by rw [hd]; omega)

/-- C6, at the failing input: on LP64, with the types of `rep_pre_values_init`
registered, `rep_value_cmp` of the small integers `2^32` and `0` returns 0
although they differ, and of `2^31` and `0` returns a negative result although
the first is greater: `number_cmp` loses the high bits of the difference. -/
theorem rep_value_cmp_int_truncation (cell_type : Nat → Nat) (X : Externals) :
    small_int_range lp64 (2 ^ 32) ∧ small_int_range lp64 (2 ^ 31) ∧
      small_int_range lp64 0 ∧
      rep_value_cmp sample_header cell_type
          (rep_pre_values_init lp64 sample_header cell_type X (fun _ => true) Registry.init)
          (repv.int (2 ^ 32)) (repv.int 0) =
        Except.ok { result := 0, invoked := [(2, repv.int (2 ^ 32), repv.int 0)] } ∧
      rep_value_cmp sample_header cell_type
          (rep_pre_values_init lp64 sample_header cell_type X (fun _ => true) Registry.init)
          (repv.int (2 ^ 31)) (repv.int 0) =
        Except.ok { result := -(2 ^ 31), invoked := [(2, repv.int (2 ^ 31), repv.int 0)] } := by
  have hreg : rep_get_data_type
      (rep_pre_values_init lp64 sample_header cell_type X (fun _ => true) Registry.init) 2 =
      Except.ok { code := 2, name := "integer",
                  compare := some (number_cmp lp64 sample_header cell_type),
                  princ := some X.rep_lisp_prin, print := some X.rep_lisp_prin,
                  sweep := none, mark := none, mark_type := none, getc := none,
                  ungetc := none, putc := none, puts := none, bind := none,
                  unbind := none } := by
    rfl
  refine ⟨by decide, by decide, by decide, ?_, ?_⟩
  · rw [rep_value_cmp_distinct sample_header cell_type _ (repv.int (2 ^ 32))
      (repv.int 0) _ _ (by simp) (by simp) (by simp) hreg rfl]
    simp [number_cmp, rep_TYPE, rep_INT, to_c_int, lp64, sample_header]
  · rw [rep_value_cmp_distinct sample_header cell_type _ (repv.int (2 ^ 31))
      (repv.int 0) _ _ (by simp) (by simp) (by simp) hreg rfl]
    simp [number_cmp, rep_TYPE, rep_INT, to_c_int, lp64, sample_header]

/-! ### The pair pool: memory and free-list lemmas -/

theorem cons_memory.set_same (m : cons_memory) (blk idx : Nat) (c : rep_cons) :
    m.set blk idx c blk idx = c := by
  simp [cons_memory.set]

theorem cons_memory.set_other (m : cons_memory) (blk idx : Nat) (c : rep_cons) (b i : Nat)
    (h : (b, i) ≠ (blk, idx)) : m.set blk idx c b i = m b i := by
  have : ¬(b = blk ∧ i = idx) := fun ⟨h1, h2⟩ => h (by rw [h1, h2])
  simp [cons_memory.set, this]

theorem cons_memory.set_cdr_same (m : cons_memory) (blk idx : Nat) (v : repv) :
    m.set_cdr blk idx v blk idx = { m blk idx with cdr := v } := by
  simp [cons_memory.set_cdr, cons_memory.set]

theorem cons_memory.set_cdr_other (m : cons_memory) (blk idx : Nat) (v : repv) (b i : Nat)
    (h : (b, i) ≠ (blk, idx)) : m.set_cdr blk idx v b i = m b i :=
  cons_memory.set_other m blk idx _ b i h

theorem free_list_congr {m m1 : cons_memory} {l : List (Nat × Nat)}
    (h : ∀ c ∈ l, (m1 c.1 c.2).cdr = (m c.1 c.2).cdr) {p : repv} (hp : free_list m p l) :
    free_list m1 p l := by
  induction l generalizing p with
  | nil => exact hp
  | cons c l ih =>
    obtain ⟨h1, h2⟩ := hp
    refine ⟨h1, ?_⟩
    rw [h c (List.mem_cons_self _ _)]
    exact ih (fun d hd => h d (List.mem_cons_of_mem _ hd)) h2

theorem free_list_unique {m : cons_memory} {l1 l2 : List (Nat × Nat)} {p : repv}
    (h1 : free_list m p l1) (h2 : free_list m p l2) : l1 = l2 := by
  induction l1 generalizing p l2 with
  | nil =>
    cases l2 with
    | nil => rfl
    | cons d l2 =>
      have h1 : p = rep_NULL := h1
      rw [h1] at h2
      exact absurd h2.1 (by simp)
  | cons c l1 ih =>
    cases l2 with
    | nil =>
      have h2 : p = rep_NULL := h2
      rw [h2] at h1
      exact absurd h1.1 (by simp)
    | cons d l2 =>
      obtain ⟨a1, a2⟩ := h1
      obtain ⟨b1, b2⟩ := h2
      rw [a1] at b1
      have hcd : c = d := by
        cases c; cases d
        simp only [repv.cons.injEq] at b1
        simp [b1.1, b1.2]
      subst hcd
      rw [ih a2 b2]

theorem free_list_suffix {m : cons_memory} {l1 l2 : List (Nat × Nat)} {c : Nat × Nat}
    {p : repv} (h : free_list m p (l1 ++ c :: l2)) :
    free_list m (repv.cons c.1 c.2) (c :: l2) := by
  induction l1 generalizing p with
  | nil =>
    obtain ⟨_, h2⟩ := h
    exact ⟨rfl, h2⟩
  | cons d l1 ih => exact ih h.2

theorem free_list_nodup {m : cons_memory} {l : List (Nat × Nat)} {p : repv}
    (h : free_list m p l) : l.Nodup := by
  induction l generalizing p with
  | nil => exact List.nodup_nil
  | cons c l ih =>
    obtain ⟨_, h2⟩ := h
    refine List.nodup_cons.mpr ⟨?_, ih h2⟩
    intro hc
    obtain ⟨l1, l2, hl⟩ := List.append_of_mem hc
    rw [hl] at h2
    have h3 := (free_list_suffix h2).2
    have := congrArg List.length (free_list_unique h2 h3)
    simp at this
    omega

theorem free_list_append {m : cons_memory} {l1 l2 : List (Nat × Nat)} {t : Nat × Nat}
    {p q : repv} (h1 : free_list m p (l1 ++ [t])) (h2 : free_list m q l2) (ht : t ∉ l2) :
    free_list (m.set_cdr t.1 t.2 q) p (l1 ++ t :: l2) := by
  have hnd := free_list_nodup h1
  induction l1 generalizing p with
  | nil =>
    refine ⟨h1.1, ?_⟩
    rw [cons_memory.set_cdr_same]
    refine free_list_congr (fun c hc => ?_) h2
    rw [cons_memory.set_cdr_other]
    intro he
    rw [Prod.mk.eta, Prod.mk.eta] at he
    exact ht (he ▸ hc)
  | cons c l1 ih =>
    obtain ⟨a1, a2⟩ := h1
    have hct : c ≠ t := by
      intro he
      have := (List.nodup_cons.mp hnd).1
      simp [he] at this
    refine ⟨a1, ?_⟩
    rw [cons_memory.set_cdr_other _ _ _ _ _ _ hct]
    exact ih a2 (List.nodup_cons.mp hnd).2

theorem link_block_spec (cb k : Nat) (m : cons_memory) :
    (∀ b i, (b ≠ cb ∨ k ≤ i) → link_block cb k m b i = m b i) ∧
      ∀ i, i < k → link_block cb k m cb i = { m cb i with cdr := repv.cons cb (i + 1) } := by
  induction k with
  | zero => exact ⟨fun _ _ _ => rfl, fun i hi => absurd hi (Nat.not_lt_zero i)⟩
  | succ k ih =>
    obtain ⟨ih1, ih2⟩ := ih
    constructor
    · intro b i h
      simp only [link_block]
      rw [cons_memory.set_cdr_other, ih1 b i (by omega)]
      intro he
      simp only [Prod.mk.injEq] at he
      omega
    · intro i hi
      simp only [link_block]
      by_cases hik : i = k
      · subst hik
        rw [cons_memory.set_cdr_same, ih1 cb i (Or.inr (Nat.le_refl i))]
      · rw [cons_memory.set_cdr_other _ _ _ _ _ _ (by simp [hik]), ih2 i (by omega)]

theorem fresh_block_free_list (cb n : Nat) (m : cons_memory) (d : Nat) (hd : d ≤ n) :
    free_list ((link_block cb n m).set_cdr cb n rep_NULL) (repv.cons cb (n - d))
      ((List.range' (n - d) (d + 1)).map (fun i => (cb, i))) := by
  induction d with
  | zero =>
    refine ⟨rfl, ?_⟩
    simp only [Nat.sub_zero, cons_memory.set_cdr_same]
    rfl
  | succ d ih =>
    have h := ih (by omega)
    rw [List.range'_succ, List.map_cons]
    refine ⟨rfl, ?_⟩
    have hlt : n - (d + 1) < n := by omega
    simp only []
    rw [cons_memory.set_cdr_other _ _ _ _ _ _ (by simp; omega),
      (link_block_spec cb n m).2 _ hlt]
    simp only []
    rw [show n - (d + 1) + 1 = n - d by omega]
    exact h

theorem Fcons_take_spec (H : Header) (car cdr : repv) (s : ConsPool) (blk idx : Nat)
    (h : s.cons_freelist = repv.cons blk idx) :
    ∃ s1, Fcons_take H car cdr s = Except.ok (repv.cons blk idx, s1) ∧
      s1.cons_mem blk idx = { s.cons_mem blk idx with car := car, cdr := cdr } ∧
      (∀ b i, (b, i) ≠ (blk, idx) → s1.cons_mem b i = s.cons_mem b i) ∧
      s1.used_cons = s.used_cons + 1 ∧
      s1.rep_data_after_gc = s.rep_data_after_gc + H.sizeof_rep_cons ∧
      s1.cons_freelist = (s.cons_mem blk idx).cdr ∧
      (∀ l, free_list s.cons_mem s.cons_freelist ((blk, idx) :: l) →
        free_list s1.cons_mem s1.cons_freelist l) ∧
      s1.cons_block_chain = s.cons_block_chain ∧ s1.allocated_cons = s.allocated_cons ∧
      s1.freed_blocks = s.freed_blocks := by
  refine ⟨{ s with
      cons_freelist := (s.cons_mem blk idx).cdr
      cons_mem := s.cons_mem.set blk idx { s.cons_mem blk idx with car := car, cdr := cdr }
      used_cons := s.used_cons + 1
      rep_data_after_gc := s.rep_data_after_gc + H.sizeof_rep_cons },
    by simp only [Fcons_take, h], cons_memory.set_same _ _ _ _,
    fun b i hne => cons_memory.set_other _ _ _ _ _ _ hne, rfl, rfl, rfl, ?_, rfl, rfl, rfl⟩
  intro l hl
  have hnd := free_list_nodup hl
  refine free_list_congr (fun c hc => ?_) hl.2
  show (s.cons_mem.set blk idx _ c.1 c.2).cdr = _
  rw [cons_memory.set_other]
  intro he
  rw [Prod.mk.eta] at he
  exact (List.nodup_cons.mp hnd).1 (he ▸ hc)

theorem Fcons_eq_take (H : Header) (cb_alloc : Option Nat) (car cdr : repv) (s : ConsPool)
    (blk idx : Nat) (h : s.cons_freelist = repv.cons blk idx) :
    Fcons H cb_alloc car cdr s = Fcons_take H car cdr s := by
  simp [Fcons, h]

/-- C7: `Fcons` on a pool whose free-list starts with the cell `blk->cons[idx]`
returns that cell holding `car` and `cdr`, counts one more live pair, leaves
the former tail as the free-list and allocates no block; on a pool with an
empty free-list and a block `cb` obtained from the allocator it pushes `cb`
on the block chain, counts `rep_CONSBLK_SIZE` more allocated cells, returns
the first cell of `cb`, and the free-list is then the cells 1 to
`rep_CONSBLK_SIZE - 1` of `cb`, each once. -/
theorem Fcons_spec (H : Header) (cb_alloc : Option Nat) (car cdr : repv) (s : ConsPool) :
    (∀ blk idx, s.cons_freelist = repv.cons blk idx →
      ∃ s1, Fcons H cb_alloc car cdr s = Except.ok (repv.cons blk idx, s1) ∧
        (s1.cons_mem blk idx).car = car ∧ (s1.cons_mem blk idx).cdr = cdr ∧
        s1.used_cons = s.used_cons + 1 ∧
        s1.cons_freelist = (s.cons_mem blk idx).cdr ∧
        (∀ l, free_list s.cons_mem s.cons_freelist ((blk, idx) :: l) →
          free_list s1.cons_mem s1.cons_freelist l) ∧
        s1.cons_block_chain = s.cons_block_chain ∧
        s1.allocated_cons = s.allocated_cons) ∧
      (∀ cb, s.cons_freelist = rep_NULL → cb_alloc = some cb →
        ∃ s1, Fcons H cb_alloc car cdr s = Except.ok (repv.cons cb 0, s1) ∧
          (s1.cons_mem cb 0).car = car ∧ (s1.cons_mem cb 0).cdr = cdr ∧
          s1.used_cons = s.used_cons + 1 ∧
          s1.cons_block_chain = cb :: s.cons_block_chain ∧
          s1.allocated_cons = s.allocated_cons + H.rep_CONSBLK_SIZE ∧
          free_list s1.cons_mem s1.cons_freelist
            ((List.range' 1 (H.rep_CONSBLK_SIZE - 1)).map (fun i => (cb, i)))) := by
  constructor
  · intro blk idx h
    obtain ⟨s1, h1, h2, -, h4, -, h6, h7, h8, h9, -⟩ := Fcons_take_spec H car cdr s blk idx h
    refine ⟨s1, ?_, by rw [h2], by rw [h2], h4, h6, h7, h8, h9⟩
    rw [Fcons_eq_take H cb_alloc car cdr s blk idx h, h1]
  · intro cb h hcb
    obtain ⟨s1, h1, h2, -, h4, -, -, h7, h8, h9, -⟩ := Fcons_take_spec H car cdr
      { s with
        allocated_cons := s.allocated_cons + H.rep_CONSBLK_SIZE
        cons_block_chain := cb :: s.cons_block_chain
        cons_mem :=
          (link_block cb (H.rep_CONSBLK_SIZE - 1) s.cons_mem).set_cdr cb
            (H.rep_CONSBLK_SIZE - 1) rep_NULL
        cons_freelist := repv.cons cb 0 } cb 0 rfl
    refine ⟨s1, ?_, by rw [h2], by rw [h2], h4, h8, h9, ?_⟩
    · simp only [Fcons, h, hcb, h1]
      simp
    · apply h7
      have := fresh_block_free_list cb (H.rep_CONSBLK_SIZE - 1) s.cons_mem
        (H.rep_CONSBLK_SIZE - 1) (Nat.le_refl _)
      rw [Nat.sub_self, List.range'_succ, List.map_cons] at this
      exact this

/-- Witness of C7: a pair taken from the free-list of the sample pool, and a
pair taken from a fresh block at address 100 by the initial pool. -/
theorem Fcons_spec_witness :
    sample_pool.cons_freelist = repv.cons 100 1 ∧
      (∃ s1, Fcons sample_header none (repv.int 3) (repv.int 4) sample_pool =
          Except.ok (repv.cons 100 1, s1) ∧
        (s1.cons_mem 100 1).car = repv.int 3 ∧ (s1.cons_mem 100 1).cdr = repv.int 4 ∧
        s1.used_cons = sample_pool.used_cons + 1 ∧
        s1.cons_freelist = (sample_pool.cons_mem 100 1).cdr ∧
        (∀ l, free_list sample_pool.cons_mem sample_pool.cons_freelist ((100, 1) :: l) →
          free_list s1.cons_mem s1.cons_freelist l) ∧
        s1.cons_block_chain = sample_pool.cons_block_chain ∧
        s1.allocated_cons = sample_pool.allocated_cons) ∧
      ConsPool.init.cons_freelist = rep_NULL ∧
      (∃ s1, Fcons sample_header (some 100) (repv.int 1) (repv.int 2) ConsPool.init =
          Except.ok (repv.cons 100 0, s1) ∧
        (s1.cons_mem 100 0).car = repv.int 1 ∧ (s1.cons_mem 100 0).cdr = repv.int 2 ∧
        s1.used_cons = ConsPool.init.used_cons + 1 ∧
        s1.cons_block_chain = 100 :: ConsPool.init.cons_block_chain ∧
        s1.allocated_cons = ConsPool.init.allocated_cons + sample_header.rep_CONSBLK_SIZE ∧
        free_list s1.cons_mem s1.cons_freelist
          ((List.range' 1 (sample_header.rep_CONSBLK_SIZE - 1)).map (fun i => (100, i)))) :=
  ⟨rfl,
    (Fcons_spec sample_header none (repv.int 3) (repv.int 4) sample_pool).1 100 1 rfl,
    rfl,
    (Fcons_spec sample_header (some 100) (repv.int 1) (repv.int 2) ConsPool.init).2 100
      rfl rfl⟩

/-- C8: for a pool whose free-list is `l` and a pair cell `blk->cons[idx]`
that is not on it, `rep_cons_free` makes the cell the head of the free-list
with `l` as its tail and counts one live pair less; the next `Fcons a b` then
returns this cell holding `a` and `b`, allocates no block, and leaves the
free-list `l` and the live pair count of the pool before `rep_cons_free`. -/
theorem rep_cons_free_then_Fcons (H : Header) (s : ConsPool) (blk idx : Nat)
    (l : List (Nat × Nat)) (hl : free_list s.cons_mem s.cons_freelist l)
    (hp : (blk, idx) ∉ l) :
    ∃ s1, rep_cons_free (repv.cons blk idx) s = Except.ok s1 ∧
      s1.cons_freelist = repv.cons blk idx ∧
      free_list s1.cons_mem s1.cons_freelist ((blk, idx) :: l) ∧
      s1.used_cons = s.used_cons - 1 ∧
      ∀ (cb_alloc : Option Nat) (a b : repv),
        ∃ s2, Fcons H cb_alloc a b s1 = Except.ok (repv.cons blk idx, s2) ∧
          (s2.cons_mem blk idx).car = a ∧ (s2.cons_mem blk idx).cdr = b ∧
          s2.cons_block_chain = s.cons_block_chain ∧
          s2.allocated_cons = s.allocated_cons ∧
          s2.cons_freelist = s.cons_freelist ∧
          free_list s2.cons_mem s2.cons_freelist l ∧
          s2.used_cons = s.used_cons := by
  have hfl : free_list (s.cons_mem.set_cdr blk idx s.cons_freelist) (repv.cons blk idx)
      ((blk, idx) :: l) := by
    refine ⟨rfl, ?_⟩
    simp only [cons_memory.set_cdr_same]
    refine free_list_congr (fun c hc => ?_) hl
    rw [cons_memory.set_cdr_other]
    intro he
    rw [Prod.mk.eta] at he
    exact hp (he ▸ hc)
  refine ⟨{ s with
      cons_mem := s.cons_mem.set_cdr blk idx s.cons_freelist
      cons_freelist := repv.cons blk idx
      used_cons := s.used_cons - 1 }, rfl, rfl, hfl, rfl, ?_⟩
  intro cb_alloc a b
  obtain ⟨s2, h1, h2, -, h4, -, h6, h7, h8, h9, -⟩ := Fcons_take_spec H a b
    { s with
      cons_mem := s.cons_mem.set_cdr blk idx s.cons_freelist
      cons_freelist := repv.cons blk idx
      used_cons := s.used_cons - 1 } blk idx rfl
  refine ⟨s2, ?_, by rw [h2], by rw [h2], h8, h9, ?_, h7 l hfl, ?_⟩
  · rw [Fcons_eq_take H cb_alloc a b _ blk idx rfl, h1]
  · rw [h6]
    simp only [cons_memory.set_cdr_same]
  · rw [h4]
    simp

/-- Witness of C8: the live pair `100->cons[0]` of the sample pool is freed
while cells 1 to 3 are on the free-list. -/
theorem rep_cons_free_then_Fcons_witness :
    free_list sample_pool.cons_mem sample_pool.cons_freelist [(100, 1), (100, 2), (100, 3)] ∧
      (100, 0) ∉ [(100, 1), (100, 2), (100, 3)] ∧
      ∃ s1, rep_cons_free (repv.cons 100 0) sample_pool = Except.ok s1 ∧
        s1.cons_freelist = repv.cons 100 0 ∧
        free_list s1.cons_mem s1.cons_freelist
          ((100, 0) :: [(100, 1), (100, 2), (100, 3)]) ∧
        s1.used_cons = sample_pool.used_cons - 1 ∧
        ∀ (cb_alloc : Option Nat) (a b : repv),
          ∃ s2, Fcons sample_header cb_alloc a b s1 = Except.ok (repv.cons 100 0, s2) ∧
            (s2.cons_mem 100 0).car = a ∧ (s2.cons_mem 100 0).cdr = b ∧
            s2.cons_block_chain = sample_pool.cons_block_chain ∧
            s2.allocated_cons = sample_pool.allocated_cons ∧
            s2.cons_freelist = sample_pool.cons_freelist ∧
            free_list s2.cons_mem s2.cons_freelist [(100, 1), (100, 2), (100, 3)] ∧
            s2.used_cons = sample_pool.used_cons :=
  have h : free_list sample_pool.cons_mem sample_pool.cons_freelist
      [(100, 1), (100, 2), (100, 3)] := ⟨rfl, rfl, rfl, rfl⟩
  ⟨h, by decide,
    rep_cons_free_then_Fcons sample_header sample_pool 100 0 _ h (by decide)⟩

/-! ### The pair pool: sweeping -/

theorem marked_in_block_succ (m : cons_memory) (cb k : Nat) :
    marked_in_block m cb (k + 1) =
      marked_in_block m cb k ++ (if (m cb k).mark = true then [k] else []) := by
  simp only [marked_in_block, List.range_succ, List.filter_append, List.filter_cons,
    List.filter_nil]

theorem unmarked_in_block_succ (m : cons_memory) (cb k : Nat) :
    unmarked_in_block m cb (k + 1) =
      unmarked_in_block m cb k ++ (if (m cb k).mark = false then [k] else []) := by
  simp only [unmarked_in_block, List.range_succ, List.filter_append, List.filter_cons,
    List.filter_nil]
  cases (m cb k).mark <;> simp

theorem mem_unmarked_in_block {m : cons_memory} {cb n i : Nat} :
    i ∈ unmarked_in_block m cb n ↔ i < n ∧ (m cb i).mark = false := by
  simp [unmarked_in_block]

theorem mem_marked_in_block {m : cons_memory} {cb n i : Nat} :
    i ∈ marked_in_block m cb n ↔ i < n ∧ (m cb i).mark = true := by
  simp [marked_in_block]

theorem cons_sweep_scan_spec (cb k : Nat) (m : cons_memory) :
    (∀ b i, (b ≠ cb ∨ k ≤ i) → (cons_sweep_scan cb k m).mem b i = m b i) ∧
      (∀ i, i < k → (m cb i).mark = true →
        (cons_sweep_scan cb k m).mem cb i = { m cb i with mark := false }) ∧
      (∀ i, i < k → (m cb i).mark = false →
        ((cons_sweep_scan cb k m).mem cb i).mark = false ∧
          ((cons_sweep_scan cb k m).mem cb i).car = (m cb i).car) ∧
      (cons_sweep_scan cb k m).newused = (marked_in_block m cb k).length ∧
      free_list (cons_sweep_scan cb k m).mem (cons_sweep_scan cb k m).newfree
        ((unmarked_in_block m cb k).reverse.map (fun i => (cb, i))) ∧
      (cons_sweep_scan cb k m).newfreetail =
        (match (unmarked_in_block m cb k).head? with
         | some j => repv.cons cb j
         | none => rep_NULL) := by
  induction k with
  | zero =>
    refine ⟨fun _ _ _ => rfl, fun i hi => absurd hi (Nat.not_lt_zero i),
      fun i hi => absurd hi (Nat.not_lt_zero i), rfl, rfl, rfl⟩
  | succ k ih =>
    obtain ⟨i1, i2, i3, i4, i5, i6⟩ := ih
    have hk : ((cons_sweep_scan cb k m).mem cb k).mark = (m cb k).mark := by
      rw [i1 cb k (Or.inr (Nat.le_refl k))]
    cases hm : (m cb k).mark with
    | false =>
      have hs : cons_sweep_scan cb (k + 1) m =
          { cons_sweep_scan cb k m with
            newfreetail := if (cons_sweep_scan cb k m).newfreetail = rep_NULL
              then repv.cons cb k else (cons_sweep_scan cb k m).newfreetail
            mem := (cons_sweep_scan cb k m).mem.set_cdr cb k (cons_sweep_scan cb k m).newfree
            newfree := repv.cons cb k } := by
        rw [hm] at hk
        simp only [cons_sweep_scan, hk, if_true]
      rw [hs]
      refine ⟨?_, ?_, ?_, ?_, ?_, ?_⟩
      · intro b i h
        show (cons_sweep_scan cb k m).mem.set_cdr cb k _ b i = _
        rw [cons_memory.set_cdr_other, i1 b i (by omega)]
        intro he
        simp only [Prod.mk.injEq] at he
        omega
      · intro i hi hmi
        have hik : i ≠ k := by
          intro he
          rw [he, hm] at hmi
          cases hmi
        show (cons_sweep_scan cb k m).mem.set_cdr cb k _ cb i = _
        rw [cons_memory.set_cdr_other _ _ _ _ _ _ (by simp [hik]), i2 i (by omega) hmi]
      · intro i hi hmi
        show ((cons_sweep_scan cb k m).mem.set_cdr cb k _ cb i).mark = false ∧
          ((cons_sweep_scan cb k m).mem.set_cdr cb k _ cb i).car = _
        by_cases hik : i = k
        · subst hik
          rw [cons_memory.set_cdr_same]
          exact ⟨by simpa using hk.trans hm, by
            simp only []
            rw [i1 cb i (Or.inr (Nat.le_refl i))]⟩
        · rw [cons_memory.set_cdr_other _ _ _ _ _ _ (by simp [hik])]
          exact i3 i (by omega) hmi
      · show (cons_sweep_scan cb k m).newused = _
        rw [i4, marked_in_block_succ, hm]
        simp
      · rw [unmarked_in_block_succ, hm]
        simp only [if_true, List.reverse_append, List.reverse_cons, List.reverse_nil,
          List.nil_append, List.singleton_append, List.map_cons]
        refine ⟨rfl, ?_⟩
        show free_list _ ((cons_sweep_scan cb k m).mem.set_cdr cb k _ cb k).cdr _
        rw [cons_memory.set_cdr_same]
        refine free_list_congr (fun c hc => ?_) i5
        rw [cons_memory.set_cdr_other]
        intro he
        obtain ⟨j, hj, rfl⟩ := List.mem_map.mp hc
        simp only [Prod.mk.injEq, true_and] at he
        have := (mem_unmarked_in_block.mp (List.mem_reverse.mp hj)).1
        omega
      · rw [unmarked_in_block_succ, hm]
        show (if (cons_sweep_scan cb k m).newfreetail = rep_NULL then repv.cons cb k
          else (cons_sweep_scan cb k m).newfreetail) = _
        rw [i6]
        cases hu : unmarked_in_block m cb k with
        | nil => simp
        | cons j u => simp
    | true =>
      have hs : cons_sweep_scan cb (k + 1) m =
          { cons_sweep_scan cb k m with
            mem := (cons_sweep_scan cb k m).mem.set cb k
              { (cons_sweep_scan cb k m).mem cb k with mark := false }
            newused := (cons_sweep_scan cb k m).newused + 1 } := by
        rw [hm] at hk
        simp only [cons_sweep_scan, hk]
        simp
      rw [hs]
      refine ⟨?_, ?_, ?_, ?_, ?_, ?_⟩
      · intro b i h
        show (cons_sweep_scan cb k m).mem.set cb k _ b i = _
        rw [cons_memory.set_other, i1 b i (by omega)]
        intro he
        simp only [Prod.mk.injEq] at he
        omega
      · intro i hi hmi
        show (cons_sweep_scan cb k m).mem.set cb k _ cb i = _
        by_cases hik : i = k
        · subst hik
          rw [cons_memory.set_same, i1 cb i (Or.inr (Nat.le_refl i))]
        · rw [cons_memory.set_other _ _ _ _ _ _ (by simp [hik]), i2 i (by omega) hmi]
      · intro i hi hmi
        have hik : i ≠ k := by
          intro he
          rw [he, hm] at hmi
          cases hmi
        show ((cons_sweep_scan cb k m).mem.set cb k _ cb i).mark = false ∧
          ((cons_sweep_scan cb k m).mem.set cb k _ cb i).car = _
        rw [cons_memory.set_other _ _ _ _ _ _ (by simp [hik])]
        exact i3 i (by omega) hmi
      · show (cons_sweep_scan cb k m).newused + 1 = _
        rw [i4, marked_in_block_succ, hm]
        simp
      · rw [unmarked_in_block_succ, hm]
        simp only [Bool.true_eq_false, if_false, List.append_nil]
        refine free_list_congr (fun c hc => ?_) i5
        show ((cons_sweep_scan cb k m).mem.set cb k _ c.1 c.2).cdr = _
        rw [cons_memory.set_other]
        intro he
        obtain ⟨j, hj, rfl⟩ := List.mem_map.mp hc
        simp only [Prod.mk.injEq, true_and] at he
        have := (mem_unmarked_in_block.mp (List.mem_reverse.mp hj)).1
        omega
      · rw [unmarked_in_block_succ, hm]
        simp only [Bool.true_eq_false, if_false, List.append_nil]
        exact i6

theorem block_in_use_iff {m : cons_memory} {n cb : Nat} :
    block_in_use m n cb = true ↔ marked_in_block m cb n ≠ [] := by
  simp only [block_in_use, List.any_eq_true, marked_in_block, ne_eq, List.filter_eq_nil_iff,
    not_forall]
  constructor
  · rintro ⟨i, hi, hm⟩
    exact ⟨i, hi, by simp [hm]⟩
  · rintro ⟨i, hi, hm⟩
    exact ⟨i, hi, by simpa using hm⟩

theorem block_in_use_congr {m m1 : cons_memory} {n cb : Nat} (h : ∀ i, m1 cb i = m cb i) :
    block_in_use m1 n cb = block_in_use m n cb := by
  simp [block_in_use, h]

theorem marked_in_block_congr {m m1 : cons_memory} {n cb : Nat} (h : ∀ i, m1 cb i = m cb i) :
    marked_in_block m1 cb n = marked_in_block m cb n := by
  simp [marked_in_block, h]

theorem unmarked_in_block_congr {m m1 : cons_memory} {n cb : Nat} (h : ∀ i, m1 cb i = m cb i) :
    unmarked_in_block m1 cb n = unmarked_in_block m cb n := by
  simp [unmarked_in_block, h]

theorem cons_sweep_block_free (H : Header) (t : ConsPool) (cb : Nat)
    (h : block_in_use t.cons_mem H.rep_CONSBLK_SIZE cb = false) :
    cons_sweep_block H t cb =
      { t with
        cons_mem := (cons_sweep_scan cb H.rep_CONSBLK_SIZE t.cons_mem).mem
        freed_blocks := cb :: t.freed_blocks
        allocated_cons := t.allocated_cons - H.rep_CONSBLK_SIZE } := by
  have h0 : (cons_sweep_scan cb H.rep_CONSBLK_SIZE t.cons_mem).newused = 0 := by
    rw [(cons_sweep_scan_spec cb _ t.cons_mem).2.2.2.1]
    have : marked_in_block t.cons_mem cb H.rep_CONSBLK_SIZE = [] := by
      by_contra hne
      rw [block_in_use_iff.mpr hne] at h
      cases h
    simp [this]
  simp only [cons_sweep_block, h0, if_true]

theorem cons_sweep_block_keep (H : Header) (t : ConsPool) (cb j : Nat) (u : List Nat)
    (h : block_in_use t.cons_mem H.rep_CONSBLK_SIZE cb = true)
    (hu : unmarked_in_block t.cons_mem cb H.rep_CONSBLK_SIZE = j :: u) :
    cons_sweep_block H t cb =
      { t with
        cons_mem := (cons_sweep_scan cb H.rep_CONSBLK_SIZE t.cons_mem).mem.set_cdr cb j
          t.cons_freelist
        cons_freelist := (cons_sweep_scan cb H.rep_CONSBLK_SIZE t.cons_mem).newfree
        used_cons := t.used_cons + (marked_in_block t.cons_mem cb H.rep_CONSBLK_SIZE).length
        cons_block_chain := cb :: t.cons_block_chain } := by
  obtain ⟨-, -, -, i4, -, i6⟩ := cons_sweep_scan_spec cb H.rep_CONSBLK_SIZE t.cons_mem
  have h0 : (cons_sweep_scan cb H.rep_CONSBLK_SIZE t.cons_mem).newused ≠ 0 := by
    rw [i4]
    have := block_in_use_iff.mp h
    simpa using this
  rw [hu] at i6
  simp only [List.head?_cons] at i6
  have hne := block_in_use_iff.mp h
  simp only [cons_sweep_block, h0, if_false, i6, i4]
  simp [cons_memory.set_cdr_at, hne]

theorem cons_sweep_block_full (H : Header) (t : ConsPool) (cb : Nat)
    (h : block_in_use t.cons_mem H.rep_CONSBLK_SIZE cb = true)
    (hu : unmarked_in_block t.cons_mem cb H.rep_CONSBLK_SIZE = []) :
    cons_sweep_block H t cb =
      { t with
        cons_mem := (cons_sweep_scan cb H.rep_CONSBLK_SIZE t.cons_mem).mem
        cons_block_chain := cb :: t.cons_block_chain } := by
  obtain ⟨-, -, -, i4, -, i6⟩ := cons_sweep_scan_spec cb H.rep_CONSBLK_SIZE t.cons_mem
  have h0 : (cons_sweep_scan cb H.rep_CONSBLK_SIZE t.cons_mem).newused ≠ 0 := by
    rw [i4]
    have := block_in_use_iff.mp h
    simpa using this
  rw [hu] at i6
  simp only [List.head?_nil] at i6
  simp only [cons_sweep_block, h0, if_false, i6]
  simp

theorem swept_used_free {m : cons_memory} {n cb : Nat} (h : block_in_use m n cb = false) :
    swept_used m n cb = 0 := by
  have : marked_in_block m cb n = [] := by
    by_contra hne
    rw [block_in_use_iff.mpr hne] at h
    cases h
  simp [swept_used, this]

theorem sweep_inv_step (H : Header) (s : ConsPool) (done : List Nat) (t : ConsPool) (cb : Nat)
    (hi : sweep_inv H s done t) (hcb : cb ∉ done) :
    sweep_inv H s (done ++ [cb]) (cons_sweep_block H t cb) := by
  have hfr : ∀ i, t.cons_mem cb i = s.cons_mem cb i := fun i => hi.frame cb i hcb
  have hbu : block_in_use t.cons_mem H.rep_CONSBLK_SIZE cb =
      block_in_use s.cons_mem H.rep_CONSBLK_SIZE cb := block_in_use_congr hfr
  have hmk : marked_in_block t.cons_mem cb H.rep_CONSBLK_SIZE =
      marked_in_block s.cons_mem cb H.rep_CONSBLK_SIZE := marked_in_block_congr hfr
  have hum : unmarked_in_block t.cons_mem cb H.rep_CONSBLK_SIZE =
      unmarked_in_block s.cons_mem cb H.rep_CONSBLK_SIZE := unmarked_in_block_congr hfr
  obtain ⟨i1, i2, -, -, i5, -⟩ := cons_sweep_scan_spec cb H.rep_CONSBLK_SIZE t.cons_mem
  obtain ⟨l, hl, hmem⟩ := hi.free
  have hl_cb : ∀ c ∈ l, c.1 ≠ cb := fun c hc he => hcb (he ▸ ((hmem c).mp hc).1)
  have hl1 : free_list (cons_sweep_scan cb H.rep_CONSBLK_SIZE t.cons_mem).mem
      t.cons_freelist l :=
    free_list_congr (fun c hc => by rw [i1 c.1 c.2 (Or.inl (hl_cb c hc))]) hl
  have hframe : ∀ b i, b ∉ done ++ [cb] →
      (cons_sweep_scan cb H.rep_CONSBLK_SIZE t.cons_mem).mem b i = s.cons_mem b i := by
    intro b i hb
    simp only [List.mem_append, List.mem_singleton, not_or] at hb
    rw [i1 b i (Or.inl hb.2), hi.frame b i hb.1]
  have hmarked : ∀ b i, b ∈ done ++ [cb] → i < H.rep_CONSBLK_SIZE →
      (s.cons_mem b i).mark = true →
      (cons_sweep_scan cb H.rep_CONSBLK_SIZE t.cons_mem).mem b i =
        { s.cons_mem b i with mark := false } := by
    intro b i hb hiN hm
    by_cases hbc : b = cb
    · subst hbc
      rw [i2 i hiN (by rw [hfr i]; exact hm), hfr i]
    · simp only [List.mem_append, List.mem_singleton, hbc, or_false] at hb
      rw [i1 b i (Or.inl hbc), hi.marked b i hb hiN hm]
  cases hb : block_in_use s.cons_mem H.rep_CONSBLK_SIZE cb with
  | false =>
    rw [cons_sweep_block_free H t cb (hbu.trans hb)]
    refine ⟨?_, ?_, ?_, ?_, hi.after_gc, hframe, hmarked, ⟨l, hl1, fun c => ?_⟩⟩
    · show t.cons_block_chain = _
      simp [List.filter_append, hb, hi.chain]
    · show cb :: t.freed_blocks = _
      simp [List.filter_append, hb, hi.freed]
    · show t.allocated_cons - H.rep_CONSBLK_SIZE = _
      simp only [List.filter_append, List.filter_cons, hb, hi.allocated, Bool.not_false,
        if_true, List.filter_nil, List.length_append, List.length_singleton]
      push_cast
      ring
    · show t.used_cons = _
      simp [hi.used, swept_used_free hb]
    · rw [hmem c]
      simp only [List.mem_append, List.mem_singleton]
      constructor
      · rintro ⟨h1, h2⟩
        exact ⟨Or.inl h1, h2⟩
      · rintro ⟨h1 | h1, h2, h3⟩
        · exact ⟨h1, h2, h3⟩
        · rw [h1, hb] at h2
          cases h2
  | true =>
    cases hu : unmarked_in_block s.cons_mem cb H.rep_CONSBLK_SIZE with
    | nil =>
      rw [cons_sweep_block_full H t cb (hbu.trans hb) (hum.trans hu)]
      refine ⟨?_, ?_, ?_, ?_, hi.after_gc, hframe, hmarked, ⟨l, hl1, fun c => ?_⟩⟩
      · show cb :: t.cons_block_chain = _
        simp [List.filter_append, hb, hi.chain]
      · show t.freed_blocks = _
        simp [List.filter_append, hb, hi.freed]
      · show t.allocated_cons = _
        simp [List.filter_append, hb, hi.allocated]
      · show t.used_cons = _
        simp [hi.used, swept_used, hu]
      · rw [hmem c]
        simp only [List.mem_append, List.mem_singleton]
        constructor
        · rintro ⟨h1, h2⟩
          exact ⟨Or.inl h1, h2⟩
        · rintro ⟨h1 | h1, h2, h3, h4⟩
          · exact ⟨h1, h2, h3, h4⟩
          · have : c.2 ∈ unmarked_in_block s.cons_mem cb H.rep_CONSBLK_SIZE :=
              mem_unmarked_in_block.mpr ⟨h3, h1 ▸ h4⟩
            rw [hu] at this
            cases this
    | cons j u =>
      rw [cons_sweep_block_keep H t cb j u (hbu.trans hb) (hum.trans hu)]
      have hj : j < H.rep_CONSBLK_SIZE ∧ (s.cons_mem cb j).mark = false :=
        mem_unmarked_in_block.mp (by rw [hu]; exact List.mem_cons_self _ _)
      rw [hum, hu] at i5
      simp only [List.reverse_cons, List.map_append, List.map_cons, List.map_nil] at i5
      have happ := free_list_append (t := (cb, j)) i5 hl1
        (fun hc => hl_cb _ hc rfl)
      refine ⟨?_, ?_, ?_, ?_, hi.after_gc, ?_, ?_, ⟨_, happ, fun c => ?_⟩⟩
      · show cb :: t.cons_block_chain = _
        simp [List.filter_append, hb, hi.chain]
      · show t.freed_blocks = _
        simp [List.filter_append, hb, hi.freed]
      · show t.allocated_cons = _
        simp [List.filter_append, hb, hi.allocated]
      · show t.used_cons + _ = _
        simp [hi.used, swept_used, hu, hmk]
      · intro b i hbn
        show (cons_sweep_scan cb H.rep_CONSBLK_SIZE t.cons_mem).mem.set_cdr cb j _ b i = _
        rw [cons_memory.set_cdr_other, hframe b i hbn]
        intro he
        simp only [Prod.mk.injEq] at he
        exact hbn (by simp [he.1])
      · intro b i hbd hiN hm
        show (cons_sweep_scan cb H.rep_CONSBLK_SIZE t.cons_mem).mem.set_cdr cb j _ b i = _
        rw [cons_memory.set_cdr_other, hmarked b i hbd hiN hm]
        intro he
        simp only [Prod.mk.injEq] at he
        rw [he.1, he.2, hj.2] at hm
        cases hm
      · have hrev : ∀ x, x ∈ u.reverse ∨ x = j ↔
            x < H.rep_CONSBLK_SIZE ∧ (s.cons_mem cb x).mark = false := by
          intro x
          rw [← mem_unmarked_in_block, hu, List.mem_cons, List.mem_reverse]
          exact Or.comm
        simp only [List.mem_append, List.mem_cons, List.mem_map, List.not_mem_nil, or_false,
          hmem c]
        constructor
        · rintro (⟨x, hx, rfl⟩ | rfl | ⟨h1, h2⟩)
          · exact ⟨Or.inr rfl, hb, (hrev x).mp (Or.inl hx)⟩
          · exact ⟨Or.inr rfl, hb, hj⟩
          · exact ⟨Or.inl h1, h2⟩
        · rintro ⟨h1 | h1, h2, h3, h4⟩
          · exact Or.inr (Or.inr ⟨h1, h2, h3, h4⟩)
          · obtain ⟨c1, c2⟩ := c
            simp only at h1 h3 h4
            subst h1
            rcases (hrev c2).mpr ⟨h3, h4⟩ with hx | hx
            · exact Or.inl ⟨c2, hx, rfl⟩
            · exact Or.inr (Or.inl (by rw [hx]))

theorem sweep_inv_foldl (H : Header) (s : ConsPool) (todo done : List Nat) (t : ConsPool)
    (hi : sweep_inv H s done t) (hnd : (done ++ todo).Nodup) :
    sweep_inv H s (done ++ todo) (todo.foldl (cons_sweep_block H) t) := by
  induction todo generalizing done t with
  | nil => simpa using hi
  | cons cb todo ih =>
    have hcb : cb ∉ done := by
      intro hc
      have := List.nodup_append.mp hnd
      exact this.2.2 hc (List.mem_cons_self _ _) 
    have h1 := sweep_inv_step H s done t cb hi hcb
    have h2 := ih (done ++ [cb]) (cons_sweep_block H t cb) h1 (by simpa using hnd)
    simpa using h2

theorem sweep_inv_cons_sweep (H : Header) (s : ConsPool) (hnd : s.cons_block_chain.Nodup) :
    sweep_inv H s s.cons_block_chain (cons_sweep H s) := by
  have h0 : sweep_inv H s []
      { s with cons_block_chain := [], cons_freelist := rep_NULL, used_cons := 0 } := by
    refine ⟨rfl, by simp, by simp, rfl, rfl, fun _ _ _ => rfl, ?_, ⟨[], rfl, ?_⟩⟩
    · intro b i hb
      cases hb
    · intro c
      simp
  simpa [cons_sweep] using sweep_inv_foldl H s s.cons_block_chain [] _ h0 (by simpa using hnd)

/-- C9: on a pool whose block chain lists distinct blocks, `cons_sweep`
(a) keeps on the chain exactly the blocks with a marked cell, hands every
block without one to `rep_free` and takes `rep_CONSBLK_SIZE` off the
allocated count for each; (b) leaves a free-list that holds exactly the
unmarked cells of the kept blocks, each once; (c) leaves every marked cell
with its mark cleared and its `car` and `cdr` as they were.  When no cell is
marked, the chain and the free-list are empty and the live pair count is 0. -/
theorem cons_sweep_spec (H : Header) (s : ConsPool) (hnd : s.cons_block_chain.Nodup) :
    (cons_sweep H s).cons_block_chain =
        (s.cons_block_chain.filter (block_in_use s.cons_mem H.rep_CONSBLK_SIZE)).reverse ∧
      (cons_sweep H s).freed_blocks =
        (s.cons_block_chain.filter
          (fun b => !block_in_use s.cons_mem H.rep_CONSBLK_SIZE b)).reverse ++
          s.freed_blocks ∧
      (cons_sweep H s).allocated_cons = s.allocated_cons - H.rep_CONSBLK_SIZE *
        (s.cons_block_chain.filter
          (fun b => !block_in_use s.cons_mem H.rep_CONSBLK_SIZE b)).length ∧
      (∃ l, free_list (cons_sweep H s).cons_mem (cons_sweep H s).cons_freelist l ∧
        l.Nodup ∧
        ∀ blk idx, (blk, idx) ∈ l ↔
          (blk ∈ s.cons_block_chain ∧
            (∃ i, i < H.rep_CONSBLK_SIZE ∧ (s.cons_mem blk i).mark = true) ∧
            idx < H.rep_CONSBLK_SIZE ∧ (s.cons_mem blk idx).mark = false)) ∧
      (∀ blk idx, blk ∈ s.cons_block_chain → idx < H.rep_CONSBLK_SIZE →
        (s.cons_mem blk idx).mark = true →
        (cons_sweep H s).cons_mem blk idx = { s.cons_mem blk idx with mark := false }) ∧
      ((∀ blk idx, blk ∈ s.cons_block_chain → idx < H.rep_CONSBLK_SIZE →
          (s.cons_mem blk idx).mark = false) →
        (cons_sweep H s).cons_block_chain = [] ∧
          (cons_sweep H s).cons_freelist = rep_NULL ∧ (cons_sweep H s).used_cons = 0) := by
  have hi := sweep_inv_cons_sweep H s hnd
  obtain ⟨l, hl, hmem⟩ := hi.free
  have huse : ∀ b, block_in_use s.cons_mem H.rep_CONSBLK_SIZE b = true ↔
      ∃ i, i < H.rep_CONSBLK_SIZE ∧ (s.cons_mem b i).mark = true := by
    intro b
    simp [block_in_use]
  refine ⟨hi.chain, hi.freed, hi.allocated, ⟨l, hl, free_list_nodup hl, ?_⟩, hi.marked, ?_⟩
  · intro blk idx
    rw [hmem (blk, idx), huse]
  · intro hno
    have hfalse : ∀ b ∈ s.cons_block_chain,
        block_in_use s.cons_mem H.rep_CONSBLK_SIZE b = false := by
      intro b hb
      cases hu : block_in_use s.cons_mem H.rep_CONSBLK_SIZE b with
      | false => rfl
      | true =>
        obtain ⟨i, hi1, hi2⟩ := (huse b).mp hu
        rw [hno b i hb hi1] at hi2
        cases hi2
    refine ⟨?_, ?_, ?_⟩
    · rw [hi.chain, List.filter_eq_nil_iff.mpr (fun b hb => by simp [hfalse b hb])]
      rfl
    · cases l with
      | nil => exact hl
      | cons c l =>
        have := (hmem c).mp (List.mem_cons_self _ _)
        rw [hfalse c.1 this.1] at this
        cases this.2.1
    · rw [hi.used]
      apply List.sum_eq_zero
      intro x hx
      obtain ⟨b, hb, rfl⟩ := List.mem_map.mp hx
      exact swept_used_free (hfalse b hb)

/-- Witness of C9: the sample pool with the blocks 200 (no marked cell) and
100 (cell 0 marked). -/
theorem cons_sweep_spec_witness :
    sample_marked_pool.cons_block_chain.Nodup ∧
      (cons_sweep sample_header sample_marked_pool).cons_block_chain = [100] ∧
      (cons_sweep sample_header sample_marked_pool).freed_blocks = [200] ∧
      (cons_sweep sample_header sample_marked_pool).allocated_cons = 4 ∧
      (∃ l, free_list (cons_sweep sample_header sample_marked_pool).cons_mem
          (cons_sweep sample_header sample_marked_pool).cons_freelist l ∧
        l.Nodup ∧
        ∀ blk idx, (blk, idx) ∈ l ↔
          (blk ∈ sample_marked_pool.cons_block_chain ∧
            (∃ i, i < sample_header.rep_CONSBLK_SIZE ∧
              (sample_marked_pool.cons_mem blk i).mark = true) ∧
            idx < sample_header.rep_CONSBLK_SIZE ∧
            (sample_marked_pool.cons_mem blk idx).mark = false)) ∧
      (cons_sweep sample_header sample_marked_pool).cons_mem 100 0 =
        { car := repv.int 1, cdr := repv.int 2, mark := false } :=
  have h := cons_sweep_spec sample_header sample_marked_pool (by decide)
  ⟨by decide, h.1, h.2.1, h.2.2.1, h.2.2.2.1,
    h.2.2.2.2.1 100 0 (by decide) (by decide) rfl⟩

/-- C10, at the failing input: sweeping the sample pool whose only block has
all its 4 cells marked leaves the block on the chain and the free-list empty,
yet sets the live pair count to 0 and reports 4 free pairs, although 4 cells
were marked and survive. -/
theorem cons_sweep_full_block_count :
    (marked_in_block sample_full_pool.cons_mem 100 sample_header.rep_CONSBLK_SIZE).length = 4 ∧
      (cons_sweep sample_header sample_full_pool).cons_block_chain = [100] ∧
      (cons_sweep sample_header sample_full_pool).cons_freelist = rep_NULL ∧
      (cons_sweep sample_header sample_full_pool).used_cons = 0 ∧
      gc_cons_stats (cons_sweep sample_header sample_full_pool) = (0, 4) := by
  refine ⟨by decide, ?_, ?_, ?_, ?_⟩ <;> rfl

/-! ### The pair pool: allocation after a sweep -/

theorem link_block_mark (cb k : Nat) (m : cons_memory) (b i : Nat) :
    (link_block cb k m b i).mark = (m b i).mark := by
  induction k with
  | zero => rfl
  | succ k ih =>
    simp only [link_block]
    by_cases h : (b, i) = (cb, k)
    · simp only [Prod.mk.injEq] at h
      obtain ⟨rfl, rfl⟩ := h
      rw [cons_memory.set_cdr_same]
      exact ih
    · rw [cons_memory.set_cdr_other _ _ _ _ _ _ h]
      exact ih

theorem cons_memory.set_cdr_mark (m : cons_memory) (blk idx : Nat) (v : repv) (b i : Nat) :
    (m.set_cdr blk idx v b i).mark = (m b i).mark := by
  by_cases h : (b, i) = (blk, idx)
  · simp only [Prod.mk.injEq] at h
    rw [h.1, h.2, cons_memory.set_cdr_same]
  · rw [cons_memory.set_cdr_other _ _ _ _ _ _ h]

theorem Fcons_of_free_list (H : Header) (cb_alloc : Option Nat) (car cdr : repv)
    (s : ConsPool) (blk idx : Nat) (l : List (Nat × Nat))
    (hl : free_list s.cons_mem s.cons_freelist ((blk, idx) :: l)) :
    ∃ s1, Fcons H cb_alloc car cdr s = Except.ok (repv.cons blk idx, s1) ∧
      (∀ b i, (s1.cons_mem b i).mark = (s.cons_mem b i).mark) ∧
      s1.cons_block_chain = s.cons_block_chain ∧ s1.allocated_cons = s.allocated_cons ∧
      s1.used_cons = s.used_cons + 1 ∧ s1.freed_blocks = s.freed_blocks ∧
      free_list s1.cons_mem s1.cons_freelist l := by
  obtain ⟨s1, h1, h2, h3, h4, -, -, h7, h8, h9, h10⟩ := Fcons_take_spec H car cdr s blk idx hl.1
  refine ⟨s1, ?_, ?_, h8, h9, h4, h10, h7 l hl⟩
  · rw [Fcons_eq_take H cb_alloc car cdr s blk idx hl.1, h1]
  · intro b i
    by_cases h : (b, i) = (blk, idx)
    · simp only [Prod.mk.injEq] at h
      rw [h.1, h.2, h2]
    · rw [h3 b i h]

theorem Fcons_fresh_spec (H : Header) (cb : Nat) (car cdr : repv) (s : ConsPool)
    (h : s.cons_freelist = rep_NULL) :
    ∃ s1, Fcons H (some cb) car cdr s = Except.ok (repv.cons cb 0, s1) ∧
      (∀ b i, (s1.cons_mem b i).mark = (s.cons_mem b i).mark) ∧
      s1.cons_block_chain = cb :: s.cons_block_chain ∧
      s1.allocated_cons = s.allocated_cons + H.rep_CONSBLK_SIZE ∧
      s1.used_cons = s.used_cons + 1 ∧ s1.freed_blocks = s.freed_blocks ∧
      free_list s1.cons_mem s1.cons_freelist
        ((List.range' 1 (H.rep_CONSBLK_SIZE - 1)).map (fun i => (cb, i))) := by
  have hfl := fresh_block_free_list cb (H.rep_CONSBLK_SIZE - 1) s.cons_mem
    (H.rep_CONSBLK_SIZE - 1) (Nat.le_refl _)
  rw [Nat.sub_self, List.range'_succ, List.map_cons] at hfl
  obtain ⟨s1, h1, h2, h3, h4, h5, h6, h7⟩ := Fcons_of_free_list H (some cb) car cdr
    { s with
      allocated_cons := s.allocated_cons + H.rep_CONSBLK_SIZE
      cons_block_chain := cb :: s.cons_block_chain
      cons_mem :=
        (link_block cb (H.rep_CONSBLK_SIZE - 1) s.cons_mem).set_cdr cb
          (H.rep_CONSBLK_SIZE - 1) rep_NULL
      cons_freelist := repv.cons cb 0 } cb 0 _ hfl
  refine ⟨s1, ?_, ?_, h3, h4, h5, h6, h7⟩
  · have e1 : Fcons H (some cb) car cdr s = Fcons_take H car cdr
        { s with
          allocated_cons := s.allocated_cons + H.rep_CONSBLK_SIZE
          cons_block_chain := cb :: s.cons_block_chain
          cons_mem :=
            (link_block cb (H.rep_CONSBLK_SIZE - 1) s.cons_mem).set_cdr cb
              (H.rep_CONSBLK_SIZE - 1) rep_NULL
          cons_freelist := repv.cons cb 0 } := by
      simp only [Fcons, h, if_true]
    rw [e1, ← h1]
    exact (Fcons_eq_take H (some cb) car cdr _ cb 0 rfl).symm
  · intro b i
    rw [h2 b i]
    show ((link_block cb _ s.cons_mem).set_cdr cb _ rep_NULL b i).mark = _
    rw [cons_memory.set_cdr_mark, link_block_mark]

theorem cons_sweep_single_block (H : Header) (s : ConsPool) (cb j0 : Nat) (u : List Nat)
    (hc : s.cons_block_chain = [cb])
    (hb : block_in_use s.cons_mem H.rep_CONSBLK_SIZE cb = true)
    (hu : unmarked_in_block s.cons_mem cb H.rep_CONSBLK_SIZE = j0 :: u) :
    free_list (cons_sweep H s).cons_mem (cons_sweep H s).cons_freelist
        ((j0 :: u).reverse.map (fun i => (cb, i))) ∧
      (cons_sweep H s).cons_block_chain = [cb] ∧
      (cons_sweep H s).allocated_cons = s.allocated_cons ∧
      (cons_sweep H s).used_cons =
        (marked_in_block s.cons_mem cb H.rep_CONSBLK_SIZE).length := by
  have hs : cons_sweep H s = cons_sweep_block H
      { s with cons_block_chain := [], cons_freelist := rep_NULL, used_cons := 0 } cb := by
    simp [cons_sweep, hc]
  rw [hs, cons_sweep_block_keep H
    { s with cons_block_chain := [], cons_freelist := rep_NULL, used_cons := 0 } cb j0 u hb hu]
  obtain ⟨-, -, -, -, i5, -⟩ := cons_sweep_scan_spec cb H.rep_CONSBLK_SIZE s.cons_mem
  rw [hu] at i5
  simp only [List.reverse_cons, List.map_append, List.map_cons, List.map_nil] at i5 ⊢
  refine ⟨?_, True.intro, True.intro, by simp⟩
  have := @free_list_append _ _ [] (cb, j0) _ rep_NULL i5 rfl (by simp)
  exact this

theorem filter_eq_range (N j : Nat) (h : j < N) :
    (List.range N).filter (fun i => decide (i = j)) = [j] := by
  induction N with
  | zero => omega
  | succ N ih =>
    rw [List.range_succ, List.filter_append]
    by_cases hj : j = N
    · subst hj
      have : (List.range j).filter (fun i => decide (i = j)) = [] := by
        rw [List.filter_eq_nil_iff]
        intro a ha
        have := List.mem_range.mp ha
        simp only [decide_eq_true_eq]
        omega
      rw [this]
      simp
    · rw [ih (by omega)]
      have : N ≠ j := fun e => hj e.symm
      simp [this]

theorem filter_ne_range_last (N n j : Nat) (h : N = n + 1) (hj : n ≠ j) (cb : Nat) :
    (((List.range N).filter (fun i => !decide (i = j))).reverse.map
      (fun i => (cb, i))).head? = some (cb, n) := by
  subst h
  rw [List.range_succ, List.filter_append]
  simp [hj]

theorem marks_after_set (s : ConsPool) (cb j : Nat)
    (hm : ∀ b i, (s.cons_mem b i).mark = false) (i : Nat) :
    ((rep_GC_SET_CONS (repv.cons cb j) s).cons_mem cb i).mark = decide (i = j) := by
  show (s.cons_mem.set cb j _ cb i).mark = _
  by_cases h : i = j
  · subst h
    rw [cons_memory.set_same]
    simp
  · rw [cons_memory.set_other _ _ _ _ _ _ (by simp [h]), hm]
    simp [h]

/-- Counterexample to C11: with blocks of 4 pairs, after three `Fcons` calls
from the empty pool (block at 100), marking the first pair and sweeping, the
next two `Fcons` calls return the cells 3 and 2 of the block: the first of
them is the cell that was never handed out, not one of the two unmarked
pairs 1 and 2. -/
theorem three_pairs_swept_next_cells :
    (Fcons_calls sample_header
        [⟨some 100, repv.int 1, repv.int 2⟩, ⟨none, repv.int 3, repv.int 4⟩,
          ⟨none, repv.int 5, repv.int 6⟩] ConsPool.init).map Prod.fst =
        Except.ok [repv.cons 100 0, repv.cons 100 1, repv.cons 100 2] ∧
      (Fcons_calls sample_header [⟨none, repv.int 7, repv.int 8⟩, ⟨none, repv.int 9, repv.int 10⟩]
        (three_pairs_swept sample_header 100 0 ⟨none, repv.int 1, repv.int 2⟩
          ⟨none, repv.int 3, repv.int 4⟩ ⟨none, repv.int 5, repv.int 6⟩)).map Prod.fst =
        Except.ok [repv.cons 100 3, repv.cons 100 2] := by
  constructor <;> rfl

theorem three_pairs_spec (H : Header) (hN : 3 ≤ H.rep_CONSBLK_SIZE) (cb : Nat)
    (c1 c2 c3 : cons_call) :
    ∃ s3, Fcons_calls H [{ c1 with cb_alloc := some cb }, c2, c3] ConsPool.init =
        Except.ok ([repv.cons cb 0, repv.cons cb 1, repv.cons cb 2], s3) ∧
      (∀ b i, (s3.cons_mem b i).mark = false) ∧ s3.cons_block_chain = [cb] ∧
      s3.allocated_cons = H.rep_CONSBLK_SIZE ∧ s3.used_cons = 3 := by
  obtain ⟨s1, e1, m1, ch1, al1, us1, -, f1⟩ :=
    Fcons_fresh_spec H cb c1.car c1.cdr ConsPool.init rfl
  rw [show H.rep_CONSBLK_SIZE - 1 = (H.rep_CONSBLK_SIZE - 3) + 1 + 1 by omega,
    List.range'_succ, List.range'_succ, List.map_cons, List.map_cons] at f1
  obtain ⟨s2, e2, m2, ch2, al2, us2, -, f2⟩ :=
    Fcons_of_free_list H c2.cb_alloc c2.car c2.cdr s1 cb 1 _ f1
  obtain ⟨s3, e3, m3, ch3, al3, us3, -, -⟩ :=
    Fcons_of_free_list H c3.cb_alloc c3.car c3.cdr s2 cb (1 + 1) _ f2
  refine ⟨s3, ?_, ?_, ?_, ?_, ?_⟩
  · simp only [Fcons_calls, e1, e2, e3]
  · intro b i
    rw [m3, m2, m1]
    rfl
  · rw [ch3, ch2, ch1]
    rfl
  · rw [al3, al2, al1]
    simp [ConsPool.init]
  · rw [us3, us2, us1]
    simp [ConsPool.init]

/-- C11 as amended: with blocks of at least 3 pairs, after three `Fcons` calls
from the empty pool (returning the cells 0, 1, 2 of one block), marking
exactly one of them and running `cons_sweep`, the live pair count is 1 and
the two unmarked pairs are on the pool free-list; the next two `Fcons` calls
return the first two cells of that free-list and allocate no block.  With
blocks of at least 4 pairs the first cell returned is the last cell of the
block, which is none of the three pairs. -/
theorem three_pairs_swept_reuse (H : Header) (hN : 3 ≤ H.rep_CONSBLK_SIZE) (cb j : Nat)
    (hj : j < 3) (c1 c2 c3 c4 c5 : cons_call) :
    (∃ s3, Fcons_calls H [{ c1 with cb_alloc := some cb }, c2, c3] ConsPool.init =
        Except.ok ([repv.cons cb 0, repv.cons cb 1, repv.cons cb 2], s3)) ∧
      (three_pairs_swept H cb j c1 c2 c3).used_cons = 1 ∧
      ∃ k1 k2 rest,
        free_list (three_pairs_swept H cb j c1 c2 c3).cons_mem
          (three_pairs_swept H cb j c1 c2 c3).cons_freelist ((cb, k1) :: (cb, k2) :: rest) ∧
        (∀ i, i < 3 → i ≠ j → (cb, i) ∈ (cb, k1) :: (cb, k2) :: rest) ∧
        (∃ s6, Fcons_calls H [c4, c5] (three_pairs_swept H cb j c1 c2 c3) =
            Except.ok ([repv.cons cb k1, repv.cons cb k2], s6) ∧
          s6.cons_block_chain = [cb] ∧
          (three_pairs_swept H cb j c1 c2 c3).cons_block_chain = [cb] ∧
          s6.allocated_cons = (three_pairs_swept H cb j c1 c2 c3).allocated_cons) ∧
        (4 ≤ H.rep_CONSBLK_SIZE → k1 = H.rep_CONSBLK_SIZE - 1) := by
  obtain ⟨s3, e3, hm, hch, -, -⟩ := three_pairs_spec H hN cb c1 c2 c3
  have hsw : three_pairs_swept H cb j c1 c2 c3 =
      cons_sweep H (rep_GC_SET_CONS (repv.cons cb j) s3) := by
    simp only [three_pairs_swept, e3]
  have hmark := marks_after_set s3 cb j hm
  have hU : unmarked_in_block (rep_GC_SET_CONS (repv.cons cb j) s3).cons_mem cb
      H.rep_CONSBLK_SIZE = (List.range H.rep_CONSBLK_SIZE).filter (fun i => !decide (i = j)) := by
    simp only [unmarked_in_block, hmark]
  have hM : marked_in_block (rep_GC_SET_CONS (repv.cons cb j) s3).cons_mem cb
      H.rep_CONSBLK_SIZE = [j] := by
    simp only [marked_in_block, hmark]
    exact filter_eq_range _ _ (by omega)
  have hB : block_in_use (rep_GC_SET_CONS (repv.cons cb j) s3).cons_mem
      H.rep_CONSBLK_SIZE cb = true := by
    rw [block_in_use_iff, hM]
    simp
  have hmemU : ∀ i, i ∈ (List.range H.rep_CONSBLK_SIZE).filter (fun i => !decide (i = j)) ↔
      i < H.rep_CONSBLK_SIZE ∧ i ≠ j := by
    intro i
    simp
  cases hu : (List.range H.rep_CONSBLK_SIZE).filter (fun i => !decide (i = j)) with
  | nil =>
    have : (if j = 0 then 1 else 0) ∈
        (List.range H.rep_CONSBLK_SIZE).filter (fun i => !decide (i = j)) := by
      rw [hmemU]
      split <;> omega
    rw [hu] at this
    cases this
  | cons j0 u =>
    have hchm : (rep_GC_SET_CONS (repv.cons cb j) s3).cons_block_chain = [cb] := hch
    obtain ⟨hfl, hc4, hal4, hus4⟩ := cons_sweep_single_block H
      (rep_GC_SET_CONS (repv.cons cb j) s3) cb j0 u hchm hB (hU.trans hu)
    rw [← hsw] at hfl hc4 hal4 hus4
    have hmemL : ∀ i, (cb, i) ∈ (j0 :: u).reverse.map (fun i => (cb, i)) ↔
        i < H.rep_CONSBLK_SIZE ∧ i ≠ j := by
      intro i
      rw [← hmemU i, hu]
      simp [or_comm]
    have hform : ∀ c ∈ (j0 :: u).reverse.map (fun i => (cb, i)), c.1 = cb := by
      intro c hc
      obtain ⟨i, -, rfl⟩ := List.mem_map.mp hc
      rfl
    have hnd := free_list_nodup hfl
    refine ⟨⟨s3, e3⟩, by rw [hus4, hM]; rfl, ?_⟩
    -- two distinct unmarked pairs among the three
    obtain ⟨a, b, hab, ha, hb⟩ : ∃ a b, a ≠ b ∧ (a < 3 ∧ a ≠ j) ∧ (b < 3 ∧ b ≠ j) := by
      rcases (by omega : j = 0 ∨ j = 1 ∨ j = 2) with h | h | h
      · exact ⟨1, 2, by omega, by omega, by omega⟩
      · exact ⟨0, 2, by omega, by omega, by omega⟩
      · exact ⟨0, 1, by omega, by omega, by omega⟩
    have haL := (hmemL a).mpr ⟨by omega, ha.2⟩
    have hbL := (hmemL b).mpr ⟨by omega, hb.2⟩
    have hlast : 4 ≤ H.rep_CONSBLK_SIZE →
        ((j0 :: u).reverse.map (fun i => (cb, i))).head? = some (cb, H.rep_CONSBLK_SIZE - 1) := by
      intro h4
      rw [← hu]
      exact filter_ne_range_last _ _ j (by omega) (by omega) cb
    generalize (j0 :: u).reverse.map (fun i => (cb, i)) = L at hfl hmemL hform hnd haL hbL hlast
    match L, hfl, hmemL, hform, hnd, haL, hbL, hlast with
    | [], _, _, _, _, haL, _, _ => cases haL
    | [x], _, _, _, _, haL, hbL, _ =>
      simp only [List.mem_singleton] at haL hbL
      rw [← hbL] at haL
      simp only [Prod.mk.injEq, true_and] at haL
      exact absurd haL hab
    | x :: y :: rest, hfl, hmemL, hform, _, _, _, hlast =>
      obtain ⟨x1, k1⟩ := x
      obtain ⟨y1, k2⟩ := y
      have hx : cb = x1 := (hform (x1, k1) (by simp)).symm
      have hy : cb = y1 := (hform (y1, k2) (by simp)).symm
      subst hx hy
      refine ⟨k1, k2, rest, hfl, ?_, ?_, ?_⟩
      · intro i hi hij
        exact (hmemL i).mpr ⟨by omega, hij⟩
      · obtain ⟨s5, e5, -, ch5, al5, -, -, f5⟩ :=
          Fcons_of_free_list H c4.cb_alloc c4.car c4.cdr _ cb k1 _ hfl
        obtain ⟨s6, e6, -, ch6, al6, -, -, -⟩ :=
          Fcons_of_free_list H c5.cb_alloc c5.car c5.cdr s5 cb k2 _ f5
        refine ⟨s6, ?_, ?_, hc4, ?_⟩
        · simp only [Fcons_calls, e5, e6]
        · rw [ch6, ch5, hc4]
        · rw [al6, al5]
      · intro h4
        have := hlast h4
        simp only [List.head?_cons, Option.some.injEq, Prod.mk.injEq, true_and] at this
        exact this

/-- Witness of C11 as amended: blocks of 4 pairs, the block at 100, the first
pair marked. -/
theorem three_pairs_swept_reuse_witness :
    3 ≤ sample_header.rep_CONSBLK_SIZE ∧ 0 < 3 ∧
      (∃ s3, Fcons_calls sample_header
          [{ (⟨none, repv.int 1, repv.int 2⟩ : cons_call) with cb_alloc := some 100 },
            ⟨none, repv.int 3, repv.int 4⟩, ⟨none, repv.int 5, repv.int 6⟩] ConsPool.init =
        Except.ok ([repv.cons 100 0, repv.cons 100 1, repv.cons 100 2], s3)) ∧
      (three_pairs_swept sample_header 100 0 ⟨none, repv.int 1, repv.int 2⟩
        ⟨none, repv.int 3, repv.int 4⟩ ⟨none, repv.int 5, repv.int 6⟩).used_cons = 1 :=
  have h := three_pairs_swept_reuse sample_header (by decide) 100 0 (by decide)
    ⟨none, repv.int 1, repv.int 2⟩ ⟨none, repv.int 3, repv.int 4⟩
    ⟨none, repv.int 5, repv.int 6⟩ ⟨none, repv.int 7, repv.int 8⟩
    ⟨none, repv.int 9, repv.int 10⟩
  ⟨by decide, by decide, h.1, h.2.1⟩

/-! ### Strings and vectors -/

theorem cell_memory.set_eq (m : cell_memory) (a : Nat) (c : rep_cell) : m.set a c a = c := by
  simp [cell_memory.set]

theorem cell_memory.set_ne (m : cell_memory) (a : Nat) (c : rep_cell) (b : Nat)
    (h : b ≠ a) : m.set a c b = m b := by
  simp [cell_memory.set, h]

theorem Fcons_counters (H : Header) (cb_alloc : Option Nat) (car cdr : repv) (s s1 : ConsPool)
    (p : repv) (h : Fcons H cb_alloc car cdr s = Except.ok (p, s1)) :
    s1.rep_data_after_gc = s.rep_data_after_gc + H.sizeof_rep_cons ∧
      s1.used_cons = s.used_cons + 1 := by
  unfold Fcons at h
  split at h
  · cases cb_alloc with
    | none => cases h
    | some cb =>
      simp only [Fcons_take] at h
      cases h
      exact ⟨rfl, rfl⟩
  · unfold Fcons_take at h
    split at h
    · cases h
      exact ⟨rfl, rfl⟩
    · cases h

/-- Counterexample to C12: a request of `rep_MAX_STRING + 1` bytes on the
heap at program start signals the error, yet it has obtained the pair block at
100 for the error data and the allocation counter has grown from 0 to 16; no
string was allocated. -/
theorem rep_make_string_too_long_allocates :
    (rep_make_string sample_header sample_sizes sample_signals (some 100) none
        (sample_sizes.rep_MAX_STRING + 1) Heap.init).map
        (fun r => (r.1, r.2.pairs.rep_data_after_gc, r.2.pairs.cons_block_chain, r.2.strings)) =
        Except.ok (rep_NULL, 16, [100], []) ∧
      Heap.init.pairs.rep_data_after_gc = 0 ∧ Heap.init.pairs.cons_block_chain = [] := by
  refine ⟨?_, rfl, rfl⟩
  rfl

theorem rep_make_string_signal (H : Header) (Z : Sizes) (E : Signals)
    (cb_alloc str_alloc : Option Nat) (len : Int) (h : Heap) (hlen : len > Z.rep_MAX_STRING)
    (p : repv) (s1 : ConsPool)
    (hc : Fcons H cb_alloc E.string_overflow h.Qnil h.pairs = Except.ok (p, s1)) :
    rep_make_string H Z E cb_alloc str_alloc len h =
      Except.ok (E.Fsignal E.Qerror p { h with pairs := s1 }) := by
  simp only [rep_make_string, hlen, if_true, rep_LIST_1, Heap.Fcons, hc]

/-- C12 as amended: `rep_make_string rep_MAX_STRING` returns the new string
whenever the cell allocation returns one.  For every longer request the
function allocates no string and returns what `Fsignal` returns for `Qerror`
and the one-element list of the message; `Fsignal` receives the heap with its
string chain, string counts and cells as before, but the list has taken one
pair from `Fcons` (from the free-list, or from a new block when the free-list
is empty), which adds `sizeof (rep_cons)` to the allocation counter. -/
theorem rep_make_string_limit (H : Header) (Z : Sizes) (E : Signals)
    (cb_alloc str_alloc : Option Nat) (h : Heap) :
    (∀ str, str_alloc = some str →
      ∃ h1, rep_make_string H Z E cb_alloc str_alloc Z.rep_MAX_STRING h =
          Except.ok (repv.cell str, h1) ∧ h1.strings = str :: h.strings) ∧
      ∀ len, len > Z.rep_MAX_STRING →
        (∀ blk idx, h.pairs.cons_freelist = repv.cons blk idx →
          ∃ s1, rep_make_string H Z E cb_alloc str_alloc len h =
              Except.ok (E.Fsignal E.Qerror (repv.cons blk idx) { h with pairs := s1 }) ∧
            s1.rep_data_after_gc = h.pairs.rep_data_after_gc + H.sizeof_rep_cons ∧
            s1.used_cons = h.pairs.used_cons + 1 ∧
            s1.cons_block_chain = h.pairs.cons_block_chain) ∧
        (∀ cb, h.pairs.cons_freelist = rep_NULL → cb_alloc = some cb →
          ∃ s1, rep_make_string H Z E cb_alloc str_alloc len h =
              Except.ok (E.Fsignal E.Qerror (repv.cons cb 0) { h with pairs := s1 }) ∧
            s1.rep_data_after_gc = h.pairs.rep_data_after_gc + H.sizeof_rep_cons ∧
            s1.used_cons = h.pairs.used_cons + 1 ∧
            s1.cons_block_chain = cb :: h.pairs.cons_block_chain) := by
  refine ⟨?_, ?_⟩
  · intro str hs
    subst hs
    simp only [rep_make_string, gt_iff_lt, lt_self_iff_false, if_false]
    exact ⟨_, rfl, rfl⟩
  · intro len hlen
    refine ⟨?_, ?_⟩
    · intro blk idx hf
      obtain ⟨s1, h1, -, -, -, -, -, -, h8, -, -⟩ :=
        Fcons_take_spec H E.string_overflow h.Qnil h.pairs blk idx hf
      rw [← Fcons_eq_take H cb_alloc _ _ _ blk idx hf] at h1
      obtain ⟨c1, c2⟩ := Fcons_counters H _ _ _ _ _ _ h1
      exact ⟨s1, rep_make_string_signal H Z E cb_alloc str_alloc len h hlen _ _ h1, c1, c2, h8⟩
    · intro cb hf hcb
      subst hcb
      obtain ⟨s1, h1, -, h3, -, -, -, -⟩ :=
        Fcons_fresh_spec H cb E.string_overflow h.Qnil h.pairs hf
      obtain ⟨c1, c2⟩ := Fcons_counters H _ _ _ _ _ _ h1
      exact ⟨s1, rep_make_string_signal H Z E _ str_alloc len h hlen _ _ h1, c1, c2, h3⟩

/-- Witness of C12 as amended: the heap at program start, a string cell at
2000 for the request of `rep_MAX_STRING` bytes, and the block at 100 for the
error data of the request of one byte more. -/
theorem rep_make_string_limit_witness :
    (∃ h1, rep_make_string sample_header sample_sizes sample_signals (some 100) (some 2000)
        sample_sizes.rep_MAX_STRING Heap.init = Except.ok (repv.cell 2000, h1) ∧
      h1.strings = 2000 :: Heap.init.strings) ∧
      sample_sizes.rep_MAX_STRING + 1 > sample_sizes.rep_MAX_STRING ∧
      Heap.init.pairs.cons_freelist = rep_NULL ∧
      ∃ s1, rep_make_string sample_header sample_sizes sample_signals (some 100) (some 2000)
          (sample_sizes.rep_MAX_STRING + 1) Heap.init =
          Except.ok (sample_signals.Fsignal sample_signals.Qerror (repv.cons 100 0)
            { Heap.init with pairs := s1 }) ∧
        s1.rep_data_after_gc = Heap.init.pairs.rep_data_after_gc +
          sample_header.sizeof_rep_cons ∧
        s1.used_cons = Heap.init.pairs.used_cons + 1 ∧
        s1.cons_block_chain = 100 :: Heap.init.pairs.cons_block_chain :=
  have h := rep_make_string_limit sample_header sample_sizes sample_signals (some 100)
    (some 2000) Heap.init
  ⟨h.1 2000 rfl, by decide, rfl,
    (h.2 (sample_sizes.rep_MAX_STRING + 1) (by decide)).2 100 rfl rfl⟩

/-- C13: `rep_make_vector size` with a cell `v` from the allocator returns `v`
with length field `size` as the new head of the vector chain, the old chain
behind it, adds `rep_VECT_SIZE (size)` to the allocation counter and `size`
to the live slot count; `rep_make_string len` (for `len` within the limit)
with a cell `str` returns `str` as the new head of the string chain, adds
`rep_DSTRING_SIZE (len)` to the allocation counter and to the string byte
count and 1 to the live string count.  Every cell other than the new one is
unchanged, so the cells of the old chain are unchanged when the allocator
returns a cell that is not on it. -/
theorem rep_make_vector_string_spec (H : Header) (Z : Sizes) (E : Signals)
    (cb_alloc : Option Nat) (h : Heap) :
    (∀ (v : Nat) (size : Int),
      (rep_make_vector Z (some v) size h).1 = repv.cell v ∧
        rep_VECT_LEN ((rep_make_vector Z (some v) size h).2.cells v) = size ∧
        (rep_make_vector Z (some v) size h).2.vector_chain = v :: h.vector_chain ∧
        (rep_make_vector Z (some v) size h).2.pairs.rep_data_after_gc =
          h.pairs.rep_data_after_gc + Z.rep_VECT_SIZE size ∧
        (rep_make_vector Z (some v) size h).2.used_vector_slots =
          h.used_vector_slots + size ∧
        (∀ a, a ≠ v → (rep_make_vector Z (some v) size h).2.cells a = h.cells a) ∧
        (v ∉ h.vector_chain →
          ∀ a ∈ h.vector_chain, (rep_make_vector Z (some v) size h).2.cells a = h.cells a)) ∧
      ∀ (str : Nat) (len : Int), len ≤ Z.rep_MAX_STRING →
        ∃ h1, rep_make_string H Z E cb_alloc (some str) len h = Except.ok (repv.cell str, h1) ∧
          h1.strings = str :: h.strings ∧
          h1.pairs.rep_data_after_gc = h.pairs.rep_data_after_gc + Z.rep_DSTRING_SIZE len ∧
          h1.allocated_string_bytes = h.allocated_string_bytes + Z.rep_DSTRING_SIZE len ∧
          h1.allocated_strings = h.allocated_strings + 1 ∧
          (∀ a, a ≠ str → h1.cells a = h.cells a) ∧
          (str ∉ h.strings → ∀ a ∈ h.strings, h1.cells a = h.cells a) := by
  refine ⟨?_, ?_⟩
  · intro v size
    refine ⟨rfl, ?_, rfl, rfl, rfl, fun a ha => cell_memory.set_ne _ _ _ _ ha, ?_⟩
    · show rep_VECT_LEN (h.cells.set v _ v) = size
      rw [cell_memory.set_eq]
      rfl
    · intro hv a ha
      exact cell_memory.set_ne _ _ _ _ (fun e => hv (e ▸ ha))
  · intro str len hlen
    have hn : ¬ len > Z.rep_MAX_STRING := not_lt.mpr hlen
    simp only [rep_make_string, hn, if_false]
    refine ⟨_, rfl, rfl, rfl, rfl, rfl, fun a ha => cell_memory.set_ne _ _ _ _ ha, ?_⟩
    intro hv a ha
    exact cell_memory.set_ne _ _ _ _ (fun e => hv (e ▸ ha))

/-- Witness of C13: a string of 5 bytes at 3000 on the sample heap. -/
theorem rep_make_vector_string_spec_witness :
    (5 : Int) ≤ sample_sizes.rep_MAX_STRING ∧
      ∃ h1, rep_make_string sample_header sample_sizes sample_signals none (some 3000) 5
          sample_heap = Except.ok (repv.cell 3000, h1) ∧
        h1.strings = 3000 :: sample_heap.strings ∧
        h1.pairs.rep_data_after_gc =
          sample_heap.pairs.rep_data_after_gc + sample_sizes.rep_DSTRING_SIZE 5 ∧
        h1.allocated_string_bytes =
          sample_heap.allocated_string_bytes + sample_sizes.rep_DSTRING_SIZE 5 ∧
        h1.allocated_strings = sample_heap.allocated_strings + 1 ∧
        (∀ a, a ≠ 3000 → h1.cells a = sample_heap.cells a) ∧
        (3000 ∉ sample_heap.strings → ∀ a ∈ sample_heap.strings, h1.cells a = sample_heap.cells a) :=
  ⟨by decide,
    (rep_make_vector_string_spec sample_header sample_sizes sample_signals none sample_heap).2
      3000 5 (by decide)⟩

theorem vector_sweep_foldl (h0 : Heap) (todo : List Nat) (t : Heap) (hnd : todo.Nodup)
    (hc : ∀ a ∈ todo, t.cells a = h0.cells a) :
    (todo.foldl vector_sweep_step t).vector_chain =
        (todo.filter (fun a => (h0.cells a).mark)).reverse ++ t.vector_chain ∧
      (todo.foldl vector_sweep_step t).freed_cells =
        (todo.filter (fun a => !(h0.cells a).mark)).reverse ++ t.freed_cells ∧
      (todo.foldl vector_sweep_step t).used_vector_slots = t.used_vector_slots +
        ((todo.filter (fun a => (h0.cells a).mark)).map
          (fun a => rep_VECT_LEN (h0.cells a))).sum ∧
      (∀ a, (todo.foldl vector_sweep_step t).cells a =
        if a ∈ todo ∧ (h0.cells a).mark = true then { h0.cells a with mark := false }
        else t.cells a) := by
  induction todo generalizing t with
  | nil => simp
  | cons x todo ih =>
    have hx : t.cells x = h0.cells x := hc x (List.mem_cons_self _ _)
    have hxn : x ∉ todo := (List.nodup_cons.mp hnd).1
    have hnd1 : todo.Nodup := (List.nodup_cons.mp hnd).2
    have hc1 : ∀ a ∈ todo, (vector_sweep_step t x).cells a = h0.cells a := by
      intro a ha
      have hax : a ≠ x := fun e => hxn (e ▸ ha)
      unfold vector_sweep_step
      split
      · exact hc a (List.mem_cons_of_mem _ ha)
      · show t.cells.set x _ a = _
        rw [cell_memory.set_ne _ _ _ _ hax]
        exact hc a (List.mem_cons_of_mem _ ha)
    obtain ⟨i1, i2, i3, i4⟩ := ih (vector_sweep_step t x) hnd1 hc1
    simp only [List.foldl_cons]
    cases hm : (h0.cells x).mark with
    | false =>
      have hs : vector_sweep_step t x = { t with freed_cells := x :: t.freed_cells } := by
        simp [vector_sweep_step, hx, hm]
      rw [hs] at i1 i2 i3 i4 ⊢
      refine ⟨?_, ?_, ?_, ?_⟩
      · rw [i1]; simp [List.filter_cons, hm]
      · rw [i2]; simp [List.filter_cons, hm]
      · rw [i3]; simp [List.filter_cons, hm]
      · intro a
        rw [i4 a]
        by_cases hax : a = x
        · subst hax
          simp [hxn, hm]
        · simp [hax]
    | true =>
      have hs : vector_sweep_step t x =
          { t with
            vector_chain := x :: t.vector_chain
            used_vector_slots := t.used_vector_slots + rep_VECT_LEN (h0.cells x)
            cells := t.cells.set x { h0.cells x with mark := false } } := by
        simp [vector_sweep_step, hx, hm]
      rw [hs] at i1 i2 i3 i4 ⊢
      refine ⟨?_, ?_, ?_, ?_⟩
      · rw [i1]; simp [List.filter_cons, hm]
      · rw [i2]; simp [List.filter_cons, hm]
      · rw [i3]; simp [List.filter_cons, hm]; ring
      · intro a
        rw [i4 a]
        by_cases hax : a = x
        · subst hax
          simp [hxn, hm, cell_memory.set_eq]
        · simp [hax, cell_memory.set_ne _ _ _ _ hax]

theorem string_sweep_foldl (Z : Sizes) (h0 : Heap) (todo : List Nat) (t : Heap)
    (hnd : todo.Nodup) (hc : ∀ a ∈ todo, t.cells a = h0.cells a) :
    ((todo.foldl (string_sweep_step Z) t).strings =
        (todo.filter (fun a => (h0.cells a).mark)).reverse ++ t.strings ∧
      (todo.foldl (string_sweep_step Z) t).freed_cells =
        (todo.filter (fun a => !(h0.cells a).mark)).reverse ++ t.freed_cells ∧
      (todo.foldl (string_sweep_step Z) t).allocated_strings = t.allocated_strings +
        (todo.filter (fun a => (h0.cells a).mark)).length) ∧
      (todo.foldl (string_sweep_step Z) t).allocated_string_bytes =
        t.allocated_string_bytes + ((todo.filter (fun a => (h0.cells a).mark)).map
          (fun a => Z.rep_DSTRING_SIZE (rep_STRING_LEN (h0.cells a)))).sum ∧
      (∀ a, (todo.foldl (string_sweep_step Z) t).cells a =
        if a ∈ todo ∧ (h0.cells a).mark = true then { h0.cells a with mark := false }
        else t.cells a) := by
  induction todo generalizing t with
  | nil => simp
  | cons x todo ih =>
    have hx : t.cells x = h0.cells x := hc x (List.mem_cons_self _ _)
    have hxn : x ∉ todo := (List.nodup_cons.mp hnd).1
    have hnd1 : todo.Nodup := (List.nodup_cons.mp hnd).2
    have hc1 : ∀ a ∈ todo, (string_sweep_step Z t x).cells a = h0.cells a := by
      intro a ha
      have hax : a ≠ x := fun e => hxn (e ▸ ha)
      unfold string_sweep_step
      split
      · show t.cells.set x _ a = _
        rw [cell_memory.set_ne _ _ _ _ hax]
        exact hc a (List.mem_cons_of_mem _ ha)
      · exact hc a (List.mem_cons_of_mem _ ha)
    obtain ⟨⟨i1, i2, i3⟩, i5, i4⟩ := ih (string_sweep_step Z t x) hnd1 hc1
    simp only [List.foldl_cons]
    cases hm : (h0.cells x).mark with
    | false =>
      have hs : string_sweep_step Z t x = { t with freed_cells := x :: t.freed_cells } := by
        simp [string_sweep_step, hx, hm]
      rw [hs] at i1 i2 i3 i4 i5 ⊢
      refine ⟨⟨?_, ?_, ?_⟩, ?_, ?_⟩
      · rw [i1]; simp [List.filter_cons, hm]
      · rw [i2]; simp [List.filter_cons, hm]
      · rw [i3]; simp [List.filter_cons, hm]
      · rw [i5]; simp [List.filter_cons, hm]
      · intro a
        rw [i4 a]
        by_cases hax : a = x
        · subst hax
          simp [hxn, hm]
        · simp [hax]
    | true =>
      have hs : string_sweep_step Z t x =
          { t with
            cells := t.cells.set x { h0.cells x with mark := false }
            strings := x :: t.strings
            allocated_strings := t.allocated_strings + 1
            allocated_string_bytes :=
              t.allocated_string_bytes + Z.rep_DSTRING_SIZE (rep_STRING_LEN (h0.cells x)) } := by
        simp [string_sweep_step, hx, hm]
      rw [hs] at i1 i2 i3 i4 i5 ⊢
      refine ⟨⟨?_, ?_, ?_⟩, ?_, ?_⟩
      · rw [i1]; simp [List.filter_cons, hm]
      · rw [i2]; simp [List.filter_cons, hm]
      · rw [i3]; simp [List.filter_cons, hm]; ring
      · rw [i5]; simp [List.filter_cons, hm]; ring
      · intro a
        rw [i4 a]
        by_cases hax : a = x
        · subst hax
          simp [hxn, hm, cell_memory.set_eq]
        · simp [hax, cell_memory.set_ne _ _ _ _ hax]

/-- C14: on a vector chain (string chain) of distinct cells, `vector_sweep`
(`string_sweep`) leaves on the chain exactly the cells that were marked, each
once; each of them has its mark cleared and its body (length, slots or
bytes) as before; the unmarked cells have been handed to `rep_free`; and the
live slot count is the sum of the lengths of the kept vectors (the live
string count is the number of kept strings). -/
theorem vector_string_sweep_spec (Z : Sizes) (h : Heap) :
    (h.vector_chain.Nodup →
      (vector_sweep h).vector_chain =
          (h.vector_chain.filter (fun a => (h.cells a).mark)).reverse ∧
        (vector_sweep h).vector_chain.Nodup ∧
        (∀ a ∈ h.vector_chain, (h.cells a).mark = true →
          (vector_sweep h).cells a = { h.cells a with mark := false }) ∧
        (vector_sweep h).freed_cells =
          (h.vector_chain.filter (fun a => !(h.cells a).mark)).reverse ++ h.freed_cells ∧
        (vector_sweep h).used_vector_slots =
          ((h.vector_chain.filter (fun a => (h.cells a).mark)).map
            (fun a => rep_VECT_LEN (h.cells a))).sum) ∧
      (h.strings.Nodup →
        (string_sweep Z h).strings =
            (h.strings.filter (fun a => (h.cells a).mark)).reverse ∧
          (string_sweep Z h).strings.Nodup ∧
          (∀ a ∈ h.strings, (h.cells a).mark = true →
            (string_sweep Z h).cells a = { h.cells a with mark := false }) ∧
          (string_sweep Z h).freed_cells =
            (h.strings.filter (fun a => !(h.cells a).mark)).reverse ++ h.freed_cells ∧
          (string_sweep Z h).allocated_strings =
            (h.strings.filter (fun a => (h.cells a).mark)).length) := by
  constructor
  · intro hnd
    obtain ⟨i1, i2, i3, i4⟩ := vector_sweep_foldl h h.vector_chain
      { h with vector_chain := [], used_vector_slots := 0 } hnd (fun _ _ => rfl)
    have e1 : (vector_sweep h).vector_chain =
        (h.vector_chain.filter (fun a => (h.cells a).mark)).reverse := by
      simpa [vector_sweep] using i1
    refine ⟨e1, ?_, ?_, ?_, ?_⟩
    · rw [e1]
      exact List.nodup_reverse.mpr (hnd.filter _)
    · intro a ha hm
      have := i4 a
      simp only [ha, hm, and_self, if_true] at this
      exact this
    · simpa [vector_sweep] using i2
    · simpa [vector_sweep] using i3
  · intro hnd
    obtain ⟨⟨i1, i2, i3⟩, -, i4⟩ := string_sweep_foldl Z h h.strings
      { h with strings := [], allocated_strings := 0, allocated_string_bytes := 0 } hnd
      (fun _ _ => rfl)
    have e1 : (string_sweep Z h).strings =
        (h.strings.filter (fun a => (h.cells a).mark)).reverse := by
      simpa [string_sweep] using i1
    refine ⟨e1, ?_, ?_, ?_, ?_⟩
    · rw [e1]
      exact List.nodup_reverse.mpr (hnd.filter _)
    · intro a ha hm
      have := i4 a
      simp only [ha, hm, and_self, if_true] at this
      exact this
    · simpa [string_sweep] using i2
    · simpa [string_sweep] using i3

/-- Witness of C14: the sample heap, where the marked vector at 1000 keeps its
two slots and the marked string at 2000 its bytes. -/
theorem vector_string_sweep_spec_witness :
    sample_heap.vector_chain.Nodup ∧ sample_heap.strings.Nodup ∧
      (vector_sweep sample_heap).vector_chain = [1000] ∧
      (vector_sweep sample_heap).cells 1000 =
        { body := cell_body.vector false 2 [repv.int 1, repv.int 2], mark := false } ∧
      (vector_sweep sample_heap).freed_cells = [1008] ∧
      (vector_sweep sample_heap).used_vector_slots = 2 ∧
      (string_sweep sample_sizes sample_heap).strings = [2000] ∧
      (string_sweep sample_sizes sample_heap).cells 2000 =
        { body := cell_body.string 2 [97, 98], mark := false } ∧
      (string_sweep sample_sizes sample_heap).allocated_strings = 1 :=
  have h := vector_string_sweep_spec sample_sizes sample_heap
  have hv := h.1 (by decide)
  have hs := h.2 (by decide)
  ⟨by decide, by decide, hv.1, hv.2.2.1 1000 (by decide) rfl, hv.2.2.2.1, hv.2.2.2.2,
    hs.1, hs.2.2.1 2000 (by decide) rfl, hs.2.2.2.2⟩

/-! ### Allocation while a collection is in progress -/

/-- Counterexample to C19: on the heap at program start with `rep_in_gc` set,
`Fcons`, `rep_make_vector` and `rep_make_string` return the pair
`100->cons[0]` and the cells at 1000 and 2000, and each has changed its
pool. -/
theorem alloc_in_gc_succeeds :
    (Heap.Fcons sample_header (some 100) (repv.int 1) (repv.int 2)
        { Heap.init with rep_in_gc := true }).map
        (fun (r : repv × Heap) => (r.1, r.2.pairs.used_cons, r.2.rep_in_gc)) =
        Except.ok (repv.cons 100 0, 1, true) ∧
      (((rep_make_vector sample_sizes (some 1000) 2 { Heap.init with rep_in_gc := true }).1,
        (rep_make_vector sample_sizes (some 1000) 2
          { Heap.init with rep_in_gc := true }).2.vector_chain) = (repv.cell 1000, [1000])) ∧
      (rep_make_string sample_header sample_sizes sample_signals none (some 2000) 5
        { Heap.init with rep_in_gc := true }).map (fun (r : repv × Heap) => (r.1, r.2.strings)) =
        Except.ok (repv.cell 2000, [2000]) := by
  refine ⟨?_, ?_, ?_⟩ <;> rfl

/-- C19 as amended: an allocation attempted while `rep_in_gc` is set is not
rejected.  `Fcons`, `rep_make_vector` and `rep_make_string` (for a length
within the limit) do not read the flag: called with the flag set they return
the same value and make the same changes to the heap as with the flag clear,
and leave the flag set. -/
theorem alloc_ignores_in_gc (H : Header) (Z : Sizes) (E : Signals)
    (cb_alloc c_alloc : Option Nat) (car cdr : repv) (n : Int) (h : Heap) :
    Heap.Fcons H cb_alloc car cdr { h with rep_in_gc := true } =
        ((Heap.Fcons H cb_alloc car cdr { h with rep_in_gc := false }).map
          (fun (r : repv × Heap) => (r.1, { r.2 with rep_in_gc := true }))) ∧
      rep_make_vector Z c_alloc n { h with rep_in_gc := true } =
        ((rep_make_vector Z c_alloc n { h with rep_in_gc := false }).1,
          { (rep_make_vector Z c_alloc n { h with rep_in_gc := false }).2 with
            rep_in_gc := true }) ∧
      (n ≤ Z.rep_MAX_STRING →
        rep_make_string H Z E cb_alloc c_alloc n { h with rep_in_gc := true } =
          ((rep_make_string H Z E cb_alloc c_alloc n { h with rep_in_gc := false }).map
            (fun (r : repv × Heap) => (r.1, { r.2 with rep_in_gc := true })))) := by
  refine ⟨?_, ?_, ?_⟩
  · simp only [Heap.Fcons]
    cases Fcons H cb_alloc car cdr h.pairs with
    | error e => rfl
    | ok r => rfl
  · cases c_alloc <;> rfl
  · intro hn
    have hn1 : ¬ n > Z.rep_MAX_STRING := not_lt.mpr hn
    simp only [rep_make_string, hn1, if_false]
    cases c_alloc <;> rfl

/-- Witness of C19 as amended: a string of 5 bytes requested with the flag
set. -/
theorem alloc_ignores_in_gc_witness :
    (5 : Int) ≤ sample_sizes.rep_MAX_STRING ∧
      rep_make_string sample_header sample_sizes sample_signals none (some 2000) 5
          { Heap.init with rep_in_gc := true } =
        ((rep_make_string sample_header sample_sizes sample_signals none (some 2000) 5
          { Heap.init with rep_in_gc := false }).map
          (fun (r : repv × Heap) => (r.1, { r.2 with rep_in_gc := true }))) :=
  ⟨by decide,
    (alloc_ignores_in_gc sample_header sample_sizes sample_signals none (some 2000)
      rep_NULL rep_NULL 5 Heap.init).2.2 (by decide)⟩

/-! ### Static roots -/

theorem take_set_succ (t : List Nat) (n x : Nat) (h : n < t.length) :
    (t.set n x).take (n + 1) = t.take n ++ [x] := by
  induction t generalizing n with
  | nil => simp at h
  | cons a t ih =>
    cases n with
    | zero => simp
    | succ n =>
      simp only [List.length_cons, Nat.add_lt_add_iff_right] at h
      simp [ih n h]

theorem rep_mark_static_first (obj : Nat) :
    ∃ s, rep_mark_static true obj StaticRoots.init = Except.ok s ∧
      static_roots_inv [obj] s := by
  refine ⟨StaticRoots.mk (some (obj :: List.replicate 255 0)) 1 256, rfl,
    ⟨rfl, ⟨_, rfl, ?_, rfl⟩, ⟨0, rfl, ?_, Or.inl rfl⟩⟩⟩
  · show (obj :: List.replicate 255 0).length = 256
    rw [List.length_cons, List.length_replicate]
  · show 1 ≤ 256
    decide

theorem rep_mark_static_step (objs : List Nat) (s : StaticRoots) (obj : Nat)
    (hne : objs ≠ []) (hi : static_roots_inv objs s) :
    ∃ s1, rep_mark_static true obj s = Except.ok s1 ∧ static_roots_inv (objs ++ [obj]) s1 := by
  obtain ⟨hn, ⟨t, ht, htl, htk⟩, ⟨k, hk, hle, hmin⟩⟩ := hi
  have hpos : 0 < objs.length := List.length_pos.mpr hne
  have hk0 : s.allocated_static_roots ≠ 0 := by omega
  by_cases hfull : s.next_static_root = s.allocated_static_roots
  · have hto : t = objs := by
      rw [← htk, List.take_of_length_le (by omega)]
    subst hto
    have hlen : t.length = s.allocated_static_roots := htl
    refine ⟨{ s with
        static_roots := some ((t ++ List.replicate t.length 0).set t.length obj)
        next_static_root := s.next_static_root + 1
        allocated_static_roots := s.allocated_static_roots * 2 }, ?_, ?_⟩
    · have e1 : s.allocated_static_roots * 2 - t.length = t.length := by omega
      have e2 : (t ++ List.replicate t.length 0).take (s.allocated_static_roots * 2) =
          t ++ List.replicate t.length 0 :=
        List.take_of_length_le (by simp; omega)
      simp only [rep_mark_static, hfull, if_true, ht, hk0, ne_eq, not_false_eq_true, e1, e2]
      rw [← hlen, hn] at hfull
      simp [← hlen]
    · refine ⟨by simp [hn], ⟨_, rfl, by simp; omega, ?_⟩, ⟨k + 1, ?_, ?_, ?_⟩⟩
      · rw [List.length_append, List.length_singleton,
          take_set_succ _ _ _ (by simp; omega)]
        simp
      · show s.allocated_static_roots * 2 = _
        rw [hk, pow_succ]
        ring
      · show (t ++ [obj]).length ≤ s.allocated_static_roots * 2
        simp
        omega
      · right
        simp only [Nat.add_sub_cancel, List.length_append, List.length_singleton]
        omega
  · have hlt : objs.length < t.length := by omega
    refine ⟨{ s with
        static_roots := some (t.set s.next_static_root obj)
        next_static_root := s.next_static_root + 1 }, ?_, ?_⟩
    · simp only [rep_mark_static, hfull, if_false, ht]
    · refine ⟨by simp [hn], ⟨_, rfl, by simp [htl], ?_⟩, ⟨k, hk, ?_, ?_⟩⟩
      · rw [List.length_append, List.length_singleton, hn, take_set_succ _ _ _ hlt, htk]
      · show (objs ++ [obj]).length ≤ s.allocated_static_roots
        simp
        omega
      · rcases hmin with h0 | h1
        · exact Or.inl h0
        · right
          simp only [List.length_append, List.length_singleton]
          omega

theorem rep_mark_static_calls_inv (rest objs : List Nat) (s : StaticRoots) (hne : objs ≠ [])
    (hi : static_roots_inv objs s) :
    ∃ s1, rep_mark_static_calls (rest.map (fun a => (true, a))) s = Except.ok s1 ∧
      static_roots_inv (objs ++ rest) s1 := by
  induction rest generalizing objs s with
  | nil => exact ⟨s, rfl, by simpa using hi⟩
  | cons a rest ih =>
    obtain ⟨s1, h1, i1⟩ := rep_mark_static_step objs s a hne hi
    obtain ⟨s2, h2, i2⟩ := ih (objs ++ [a]) s1 (by simp) i1
    refine ⟨s2, ?_, by simpa using i2⟩
    simp only [List.map_cons, rep_mark_static_calls, h1, h2]

/-- C20: from the empty static-root table, `n ≥ 1` calls of `rep_mark_static`
whose table allocations succeed leave the arguments at the indices 0 to
`n - 1` of the table in the order of the calls, the entry count `n`, and as
capacity the least number of the form `256 * 2^k` that is at least `n`. -/
theorem rep_mark_static_table (objs : List Nat) (hne : objs ≠ []) :
    ∃ s t, rep_mark_static_calls (objs.map (fun a => (true, a))) StaticRoots.init =
        Except.ok s ∧
      s.static_roots = some t ∧ t.take objs.length = objs ∧
      t.length = s.allocated_static_roots ∧
      s.next_static_root = objs.length ∧
      (∃ k, s.allocated_static_roots = 256 * 2 ^ k) ∧
      objs.length ≤ s.allocated_static_roots ∧
      ∀ k, objs.length ≤ 256 * 2 ^ k → s.allocated_static_roots ≤ 256 * 2 ^ k := by
  cases objs with
  | nil => exact absurd rfl hne
  | cons a rest =>
    obtain ⟨s1, h1, i1⟩ := rep_mark_static_first a
    obtain ⟨s2, h2, ⟨hn, ⟨t, ht, htl, htk⟩, ⟨k, hk, hle, hmin⟩⟩⟩ :=
      rep_mark_static_calls_inv rest [a] s1 (by simp) i1
    simp only [List.singleton_append] at hn htk hle hmin
    refine ⟨s2, t, ?_, ht, htk, htl, hn, ⟨k, hk⟩, hle, ?_⟩
    · simp only [List.map_cons, rep_mark_static_calls, h1, h2]
    · intro k1 hk1
      rw [hk]
      apply Nat.mul_le_mul_left
      apply Nat.pow_le_pow_right (by decide)
      rcases hmin with h0 | h1
      · omega
      · have : 256 * 2 ^ (k - 1) < 256 * 2 ^ k1 := by omega
        have h2 : 2 ^ (k - 1) < 2 ^ k1 := Nat.lt_of_mul_lt_mul_left this
        have := (Nat.pow_lt_pow_iff_right (by decide : 1 < 2)).mp h2
        omega

/-- Witness of C20: three registrations. -/
theorem rep_mark_static_table_witness :
    [8, 16, 24] ≠ [] ∧
      ∃ s t, rep_mark_static_calls ([8, 16, 24].map (fun a => (true, a))) StaticRoots.init =
          Except.ok s ∧
        s.static_roots = some t ∧ t.take [8, 16, 24].length = [8, 16, 24] ∧
        t.length = s.allocated_static_roots ∧
        s.next_static_root = [8, 16, 24].length ∧
        (∃ k, s.allocated_static_roots = 256 * 2 ^ k) ∧
        [8, 16, 24].length ≤ s.allocated_static_roots ∧
        ∀ k, [8, 16, 24].length ≤ 256 * 2 ^ k → s.allocated_static_roots ≤ 256 * 2 ^ k :=
  ⟨by decide, rep_mark_static_table [8, 16, 24] (by decide)⟩

/-! ### The collection driver -/

theorem foldl_events {α : Type} (g : List gc_event → α → List gc_event)
    (f : α → List gc_event) (hg : ∀ s x, g s x = s ++ f x) (l : List α)
    (log : List gc_event) : l.foldl g log = log ++ (l.map f).flatten := by
  induction l generalizing log with
  | nil => simp
  | cons x l ih => simp [ih, hg, List.append_assoc]

theorem flatten_map_option {α : Type} (f : α → Option gc_event) (l : List α) :
    (l.map (fun t => match f t with
      | some e => [e]
      | none => [])).flatten = l.filterMap f := by
  induction l with
  | nil => rfl
  | cons x l ih =>
    simp only [List.map_cons, List.flatten_cons, ih, List.filterMap_cons]
    cases f x <;> rfl

theorem flatten_map_flatten {α β : Type} (f : α → List β) (L : List (List α)) :
    (L.map (fun l => (l.map f).flatten)).flatten = (L.flatten.map f).flatten := by
  induction L with
  | nil => rfl
  | cons l L ih => simp [ih]

theorem registry_fold_events (r : Registry) (sel : rep_type → Option gc_event)
    (log : List gc_event) :
    (List.finRange TYPE_HASH_SIZE).foldl
        (fun s i => (r.data_types i).foldl
          (fun s t =>
            match sel t with
            | some e => s ++ [e]
            | none => s) s) log =
      log ++ r.descriptors.filterMap sel := by
  have inner : ∀ (s : List gc_event) (i : Fin TYPE_HASH_SIZE),
      (r.data_types i).foldl
          (fun s t =>
            match sel t with
            | some e => s ++ [e]
            | none => s) s =
        s ++ ((r.data_types i).map (fun t => match sel t with
          | some e => [e]
          | none => [])).flatten := by
    intro s i
    apply foldl_events
    intro s t
    cases sel t <;> simp
  rw [foldl_events _ _ inner]
  congr 1
  rw [← flatten_map_option, Registry.descriptors, ← flatten_map_flatten, List.map_map]
  rfl

theorem flatten_map_singleton {α β : Type} (f : α → β) (l : List α) :
    (l.map (fun x => [f x])).flatten = l.map f := by
  induction l with
  | nil => rfl
  | cons x l ih => simp [ih]

theorem foldl_event {α : Type} (f : α → gc_event) (l : List α) (log : List gc_event) :
    l.foldl (fun s x => s ++ [f x]) log = log ++ l.map f := by
  rw [foldl_events _ (fun x => [f x]) (fun _ _ => rfl), flatten_map_singleton]

theorem registry_fold_mark_type (r : Registry) (log : List gc_event) :
    (List.finRange TYPE_HASH_SIZE).foldl
        (fun s i => (r.data_types i).foldl
          (fun s t =>
            match t.mark_type with
            | some f => s ++ [gc_event.mark_type t.code f]
            | none => s) s) log =
      log ++ r.descriptors.filterMap (fun t => t.mark_type.map (gc_event.mark_type t.code)) := by
  rw [← registry_fold_events]
  congr 1
  funext s i
  congr 1
  funext s t
  cases t.mark_type <;> rfl

theorem registry_fold_sweep (r : Registry) (log : List gc_event) :
    (List.finRange TYPE_HASH_SIZE).foldl
        (fun s i => (r.data_types i).foldl
          (fun s t =>
            match t.sweep with
            | some f => s ++ [gc_event.sweep t.code f]
            | none => s) s) log =
      log ++ r.descriptors.filterMap (fun t => t.sweep.map (gc_event.sweep t.code)) := by
  rw [← registry_fold_events]
  congr 1
  funext s i
  congr 1
  funext s t
  cases t.sweep <;> rfl

/-- C18: the actions of one run of `Fgarbage_collect` are, in this order: the
setting of `rep_in_gc`; `rep_MARKVAL` on every static root, on every pushed
single root and on every element of every pushed root array; the `mark_type`
callback of every registered descriptor that has one; `rep_mark_regexp_data`
(and `rep_mark_dl_data`); `rep_MARKVAL` on `fun`, `args`, `saved_env`,
`saved_fenv`, `saved_special_env` of every call-stack frame; then one call
of the `sweep` callback for each registered descriptor that has one; then the
reset of `rep_data_after_gc` and the clearing of `rep_in_gc`.  So every
marking action precedes every sweep and none follows one. -/
theorem Fgarbage_collect_order (G : gc_inputs) :
    ∃ marks sweeps,
      Fgarbage_collect_trace G =
        gc_event.set_in_gc true ::
          (marks ++ sweeps ++ [gc_event.reset_data_after_gc, gc_event.set_in_gc false]) ∧
      marks =
        (List.range G.statics.next_static_root).map
            (fun i => gc_event.markval
              (G.read ((G.statics.static_roots.getD []).getD i 0) 0)) ++
          G.rep_gc_root_stack.map (fun ptr => gc_event.markval (G.read ptr 0)) ++
          (G.rep_gc_n_roots_stack.map (fun r =>
            (List.range r.count).map (fun i => gc_event.markval (G.read r.first i)))).flatten ++
          G.registry.descriptors.filterMap
            (fun t => t.mark_type.map (gc_event.mark_type t.code)) ++
          [gc_event.mark_regexp_data] ++
          (if G.HAVE_DYNAMIC_LOADING = true then [gc_event.mark_dl_data] else []) ++
          (G.rep_call_stack.map (fun lc =>
            [gc_event.markval lc.func, gc_event.markval lc.args,
              gc_event.markval lc.saved_env, gc_event.markval lc.saved_fenv,
              gc_event.markval lc.saved_special_env])).flatten ∧
      sweeps = G.registry.descriptors.filterMap (fun t => t.sweep.map (gc_event.sweep t.code)) ∧
      (∀ e ∈ marks, e.is_mark = true ∧ e.is_sweep = false) ∧
      (∀ e ∈ sweeps, e.is_sweep = true ∧ e.is_mark = false) := by
  refine ⟨_, _, ?_, rfl, rfl, ?_, ?_⟩
  · have hfr : ∀ (s : List gc_event) (lc : rep_Call),
        s ++ [gc_event.markval lc.func] ++ [gc_event.markval lc.args] ++
            [gc_event.markval lc.saved_env] ++ [gc_event.markval lc.saved_fenv] ++
            [gc_event.markval lc.saved_special_env] =
          s ++ [gc_event.markval lc.func, gc_event.markval lc.args,
            gc_event.markval lc.saved_env, gc_event.markval lc.saved_fenv,
            gc_event.markval lc.saved_special_env] := by
      intro s lc
      simp
    have hout : ∀ (log : List gc_event) (l : List rep_GC_n_roots),
        l.foldl (fun s r => s ++ (List.range r.count).map
            (fun i => gc_event.markval (G.read r.first i))) log =
          log ++ (l.map (fun r => (List.range r.count).map
            (fun i => gc_event.markval (G.read r.first i)))).flatten :=
      fun log l => foldl_events _ _ (fun _ _ => rfl) l log
    simp only [Fgarbage_collect_trace, Fgarbage_collect_run, foldl_event,
      foldl_events _ _ hfr, registry_fold_mark_type, registry_fold_sweep, hout]
    cases G.HAVE_DYNAMIC_LOADING <;> simp [List.append_assoc]
  · intro e he
    simp only [List.mem_append, List.mem_map, List.mem_flatten, List.mem_filterMap,
      List.mem_singleton, Option.map_eq_some'] at he
    rcases he with (((((⟨i, -, rfl⟩ | ⟨p, -, rfl⟩) | ⟨l, ⟨r, -, rfl⟩, hl⟩) |
      ⟨t, -, f, -, rfl⟩) | rfl) | hdl) | ⟨l, ⟨lc, -, rfl⟩, hl⟩
    · exact ⟨rfl, rfl⟩
    · exact ⟨rfl, rfl⟩
    · obtain ⟨i, -, rfl⟩ := List.mem_map.mp hl
      exact ⟨rfl, rfl⟩
    · exact ⟨rfl, rfl⟩
    · exact ⟨rfl, rfl⟩
    · split at hdl
      · rw [List.mem_singleton.mp hdl]
        exact ⟨rfl, rfl⟩
      · cases hdl
    · simp only [List.mem_cons, List.mem_singleton, List.not_mem_nil, or_false] at hl
      rcases hl with rfl | rfl | rfl | rfl | rfl <;> exact ⟨rfl, rfl⟩
  · intro e he
    simp only [List.mem_filterMap, Option.map_eq_some'] at he
    obtain ⟨t, -, f, -, rfl⟩ := he
    exact ⟨rfl, rfl⟩

/-! ### Marking -/

/-- C17: `rep_mark_value` on a pair that is not writable, on a string that is
not writable, on a small integer, on a bound-variable cell, on a
primitive-procedure cell or on a special-form cell returns the heap it was
given, unchanged, without any nested invocation. -/
theorem rep_mark_value_inert (M : mark_env) (h : Heap) (fuel : Nat) :
    (∀ blk idx, h.cons_writable blk idx = false →
      rep_mark_value M (fuel + 1) h (repv.cons blk idx) = mark_outcome.done h 0) ∧
      (∀ addr len data, (h.cells addr).body = cell_body.string len data →
        h.cell_writable addr = false →
        rep_mark_value M (fuel + 1) h (repv.cell addr) = mark_outcome.done h 0) ∧
      (∀ n, rep_mark_value M (fuel + 1) h (repv.int n) = mark_outcome.done h 0) ∧
      (∀ addr, ((h.cells addr).body = cell_body.var ∨
          (∃ n, (h.cells addr).body = cell_body.subr n) ∨
          (h.cells addr).body = cell_body.sf) →
        rep_mark_value M (fuel + 1) h (repv.cell addr) = mark_outcome.done h 0) := by
  refine ⟨?_, ?_, ?_, ?_⟩
  · intro blk idx hw
    simp [rep_mark_value, rep_mark_visit, hw]
  · intro addr len data hb hw
    simp [rep_mark_value, rep_mark_visit, hb, hw]
  · intro n
    simp [rep_mark_value, rep_mark_visit]
  · intro addr hb
    rcases hb with hb | ⟨n, hb⟩ | hb <;> simp [rep_mark_value, rep_mark_visit, hb]

/-- Witness of C17: the read-only pair `200->cons[0]`, the read-only string
at 5000 and the primitive procedure at 40 of the sample heap. -/
theorem rep_mark_value_inert_witness :
    sample_list_heap.cons_writable 200 0 = false ∧
      rep_mark_value sample_mark_env 1 sample_list_heap (repv.cons 200 0) =
        mark_outcome.done sample_list_heap 0 ∧
      (sample_list_heap.cells 5000).body = cell_body.string 1 [97] ∧
      sample_list_heap.cell_writable 5000 = false ∧
      rep_mark_value sample_mark_env 1 sample_list_heap (repv.cell 5000) =
        mark_outcome.done sample_list_heap 0 ∧
      rep_mark_value sample_mark_env 1 sample_list_heap (repv.cell 40) =
        mark_outcome.done sample_list_heap 0 :=
  have h := rep_mark_value_inert sample_mark_env sample_list_heap 0
  ⟨rfl, h.1 200 0 rfl, rfl, rfl, h.2.1 5000 1 [97] rfl rfl,
    h.2.2.2 40 (Or.inr (Or.inl ⟨2, rfl⟩))⟩

theorem set_mark_cons_mem (h : Heap) (b i b1 i1 : Nat) :
    (h.set_mark (repv.cons b i)).pairs.cons_mem b1 i1 =
      if (b1, i1) = (b, i) then { h.pairs.cons_mem b i with mark := true }
      else h.pairs.cons_mem b1 i1 := by
  show h.pairs.cons_mem.set b i _ b1 i1 = _
  by_cases he : (b1, i1) = (b, i)
  · simp only [Prod.mk.injEq] at he
    obtain ⟨rfl, rfl⟩ := he
    simp [cons_memory.set_same]
  · rw [cons_memory.set_other _ _ _ _ _ _ he, if_neg he]

theorem set_mark_cons_cdr (h : Heap) (b i b1 i1 : Nat) :
    ((h.set_mark (repv.cons b i)).pairs.cons_mem b1 i1).cdr = (h.pairs.cons_mem b1 i1).cdr ∧
      ((h.set_mark (repv.cons b i)).pairs.cons_mem b1 i1).car = (h.pairs.cons_mem b1 i1).car := by
  rw [set_mark_cons_mem]
  split
  · next he =>
    simp only [Prod.mk.injEq] at he
    obtain ⟨rfl, rfl⟩ := he
    exact ⟨rfl, rfl⟩
  · exact ⟨rfl, rfl⟩

theorem rep_GC_MARKEDP_set_mark (h : Heap) (v x : repv) (hx : rep_GC_MARKEDP h x = true) :
    rep_GC_MARKEDP (h.set_mark v) x = true := by
  cases v with
  | null => exact hx
  | int n => exact hx
  | cons b i =>
    cases x with
    | cons b1 i1 =>
      show ((h.set_mark (repv.cons b i)).pairs.cons_mem b1 i1).mark = true
      rw [set_mark_cons_mem]
      split
      · rfl
      · exact hx
    | null => exact hx
    | int n => exact hx
    | cell a => exact hx
  | cell a =>
    cases x with
    | cell a1 =>
      show (h.cells.set a _ a1).mark = true
      by_cases he : a1 = a
      · subst he
        rw [cell_memory.set_eq]
      · rw [cell_memory.set_ne _ _ _ _ he]
        exact hx
    | null => exact hx
    | int n => exact hx
    | cons b1 i1 => exact hx

theorem cdr_chain_set_mark (h : Heap) (b i : Nat) (p : repv) (l : List (Nat × Nat))
    (hc : cdr_chain h p l) : cdr_chain (h.set_mark (repv.cons b i)) p l := by
  induction l generalizing p with
  | nil => exact hc
  | cons c l ih =>
    refine ⟨hc.1, ?_⟩
    rw [(set_mark_cons_cdr h b i c.1 c.2).1]
    exact ih _ hc.2

theorem mark_pairs_marked (h : Heap) (l : List (Nat × Nat)) (x : repv)
    (hx : rep_GC_MARKEDP h x = true ∨ ∃ c ∈ l, x = repv.cons c.1 c.2) :
    rep_GC_MARKEDP (h.mark_pairs l) x = true := by
  induction l generalizing h with
  | nil =>
    rcases hx with hx | ⟨c, hc, -⟩
    · exact hx
    · cases hc
  | cons c l ih =>
    show rep_GC_MARKEDP ((h.set_mark (repv.cons c.1 c.2)).mark_pairs l) x = true
    apply ih
    rcases hx with hx | ⟨d, hd, rfl⟩
    · exact Or.inl (rep_GC_MARKEDP_set_mark h _ x hx)
    · rcases List.mem_cons.mp hd with rfl | hd
      · left
        show ((h.set_mark (repv.cons d.1 d.2)).pairs.cons_mem d.1 d.2).mark = true
        rw [set_mark_cons_mem]
        simp
      · exact Or.inr ⟨d, hd, rfl⟩

theorem rep_mark_value_chain (M : mark_env) (l : List (Nat × Nat)) :
    ∀ (h : Heap) (v : repv) (fuel : Nat), l ≠ [] → cdr_chain h v l → l.Nodup →
      (∀ b i, h.Qnil ≠ repv.cons b i) →
      (∀ c ∈ l, h.cons_writable c.1 c.2 = true) →
      (∀ c ∈ l, (h.pairs.cons_mem c.1 c.2).mark = false) →
      (∀ c ∈ l, rep_INTP (h.pairs.cons_mem c.1 c.2).car = true ∨
        rep_GC_MARKEDP h (h.pairs.cons_mem c.1 c.2).car = true) →
      l.length ≤ fuel →
      rep_mark_value M fuel h v = mark_outcome.done (h.mark_pairs l) 0 := by
  induction l with
  | nil => intro h v fuel hne; exact absurd rfl hne
  | cons c l ih =>
    intro h v fuel _ hch hnd hnil hw hum hcar hfuel
    obtain ⟨hv, hrest⟩ := hch
    subst hv
    cases fuel with
    | zero => simp at hfuel
    | succ fuel =>
      have hwc := hw c (List.mem_cons_self _ _)
      have hcarc := hcar c (List.mem_cons_self _ _)
      have hcar1 : rep_INTP (h.pairs.cons_mem c.1 c.2).car = false →
          rep_GC_MARKEDP (h.set_mark (repv.cons c.1 c.2)) (h.pairs.cons_mem c.1 c.2).car = true := by
        intro hi
        rcases hcarc with h1 | h1
        · rw [h1] at hi
          cases hi
        · exact rep_GC_MARKEDP_set_mark h _ _ h1
      cases l with
      | nil =>
        have hq : (h.pairs.cons_mem c.1 c.2).cdr = h.Qnil := hrest
        have hvis : rep_mark_visit M h (repv.cons c.1 c.2) =
            visit_result.node (h.set_mark (repv.cons c.1 c.2)) []
              (h.pairs.cons_mem c.1 c.2).car true := by
          simp only [rep_mark_visit, hwc, if_true, hq]
        unfold rep_mark_value
        rw [hvis]
        simp only [rep_MARKVAL_list]
        rw [if_neg]
        · rfl
        · rintro ⟨-, h2, h3⟩
          rw [hcar1 (h2 True.intro)] at h3
          cases h3
      | cons d l =>
        obtain ⟨hd, hrest2⟩ := hrest
        have hq : (h.pairs.cons_mem c.1 c.2).cdr ≠ h.Qnil := by
          rw [hd]
          exact fun e => hnil _ _ e.symm
        have hcd : d ≠ c := by
          intro e
          have := (List.nodup_cons.mp hnd).1
          exact this (e ▸ List.mem_cons_self _ _)
        have hmv : rep_MARKVAL (rep_mark_value M fuel) (h.set_mark (repv.cons c.1 c.2))
            (h.pairs.cons_mem c.1 c.2).car =
            mark_outcome.done (h.set_mark (repv.cons c.1 c.2)) 0 := by
          unfold rep_MARKVAL
          rw [if_neg]
          rintro ⟨-, h2, h3⟩
          rw [hcar1 h2] at h3
          cases h3
        have hnew : ∀ e ∈ d :: l,
            (h.set_mark (repv.cons c.1 c.2)).pairs.cons_mem e.1 e.2 = h.pairs.cons_mem e.1 e.2 := by
          intro e he
          rw [set_mark_cons_mem, if_neg]
          intro hec
          rw [Prod.mk.eta, Prod.mk.eta] at hec
          exact (List.nodup_cons.mp hnd).1 (hec ▸ he)
        have hih := ih (h.set_mark (repv.cons c.1 c.2)) (repv.cons d.1 d.2) fuel (by simp)
          (cdr_chain_set_mark h c.1 c.2 _ _ ⟨rfl, hrest2⟩) (List.nodup_cons.mp hnd).2 hnil
          (fun e he => hw e (List.mem_cons_of_mem _ he))
          (fun e he => by rw [hnew e he]; exact hum e (List.mem_cons_of_mem _ he))
          (fun e he => by
            rw [hnew e he]
            rcases hcar e (List.mem_cons_of_mem _ he) with h1 | h1
            · exact Or.inl h1
            · exact Or.inr (rep_GC_MARKEDP_set_mark h _ _ h1))
          (by simp only [List.length_cons] at hfuel ⊢; omega)
        have hdm : rep_GC_MARKEDP (h.set_mark (repv.cons c.1 c.2)) (repv.cons d.1 d.2) = false := by
          show ((h.set_mark (repv.cons c.1 c.2)).pairs.cons_mem d.1 d.2).mark = false
          rw [hnew d (List.mem_cons_self _ _)]
          exact hum d (List.mem_cons_of_mem _ (List.mem_cons_self _ _))
        have hvis : rep_mark_visit M h (repv.cons c.1 c.2) =
            visit_result.node (h.set_mark (repv.cons c.1 c.2)) [(h.pairs.cons_mem c.1 c.2).car]
              (h.pairs.cons_mem c.1 c.2).cdr true := by
          simp only [rep_mark_visit, hwc, if_true, hq, if_false]
        unfold rep_mark_value
        rw [hvis]
        simp only [rep_MARKVAL_list, hmv]
        rw [hd, if_pos ⟨by simp, fun _ => rfl, hdm⟩, hih]
        rfl

theorem cdr_chain_unique {h : Heap} (hnil : ∀ b i, h.Qnil ≠ repv.cons b i)
    {l1 l2 : List (Nat × Nat)} {p : repv} (h1 : cdr_chain h p l1) (h2 : cdr_chain h p l2) :
    l1 = l2 := by
  induction l1 generalizing p l2 with
  | nil =>
    cases l2 with
    | nil => rfl
    | cons d l2 =>
      have h1 : p = h.Qnil := h1
      exact absurd (h1.symm.trans h2.1) (hnil _ _)
  | cons c l1 ih =>
    cases l2 with
    | nil =>
      have h2 : p = h.Qnil := h2
      exact absurd (h2.symm.trans h1.1) (hnil _ _)
    | cons d l2 =>
      obtain ⟨a1, a2⟩ := h1
      obtain ⟨b1, b2⟩ := h2
      rw [a1] at b1
      have hcd : c = d := by
        cases c; cases d
        simp only [repv.cons.injEq] at b1
        simp [b1.1, b1.2]
      subst hcd
      rw [ih a2 b2]

theorem cdr_chain_suffix {h : Heap} {l1 l2 : List (Nat × Nat)} {c : Nat × Nat} {p : repv}
    (hc : cdr_chain h p (l1 ++ c :: l2)) : cdr_chain h (repv.cons c.1 c.2) (c :: l2) := by
  induction l1 generalizing p with
  | nil => exact ⟨rfl, hc.2⟩
  | cons d l1 ih => exact ih hc.2

theorem cdr_chain_nodup {h : Heap} (hnil : ∀ b i, h.Qnil ≠ repv.cons b i)
    {l : List (Nat × Nat)} {p : repv} (hc : cdr_chain h p l) : l.Nodup := by
  induction l generalizing p with
  | nil => exact List.nodup_nil
  | cons c l ih =>
    obtain ⟨_, h2⟩ := hc
    refine List.nodup_cons.mpr ⟨?_, ih h2⟩
    intro hm
    obtain ⟨l1, l2, hl⟩ := List.append_of_mem hm
    rw [hl] at h2
    have h3 := (cdr_chain_suffix h2).2
    have := congrArg List.length (cdr_chain_unique hnil h2 h3)
    simp at this
    omega

/-- C16: for a list of `n ≥ 1` writable unmarked pairs linked through their
tails and ended by nil (nil not being a pair), whose heads are small integers
or values already marked, `rep_mark_value` with fuel for `n` passes through
`again` returns after 0 nested invocations of itself, for every `n`: the
heap it returns is the given heap with the mark bits of the `n` pairs set. -/
theorem rep_mark_value_long_list (M : mark_env) (h : Heap) (v : repv) (l : List (Nat × Nat))
    (hne : l ≠ []) (hch : cdr_chain h v l) (hnil : ∀ b i, h.Qnil ≠ repv.cons b i)
    (hw : ∀ c ∈ l, h.cons_writable c.1 c.2 = true)
    (hum : ∀ c ∈ l, (h.pairs.cons_mem c.1 c.2).mark = false)
    (hcar : ∀ c ∈ l, rep_INTP (h.pairs.cons_mem c.1 c.2).car = true ∨
      rep_GC_MARKEDP h (h.pairs.cons_mem c.1 c.2).car = true)
    (fuel : Nat) (hfuel : l.length ≤ fuel) :
    rep_mark_value M fuel h v = mark_outcome.done (h.mark_pairs l) 0 ∧
      ∀ c ∈ l, ((h.mark_pairs l).pairs.cons_mem c.1 c.2).mark = true := by
  refine ⟨rep_mark_value_chain M l h v fuel hne hch (cdr_chain_nodup hnil hch) hnil hw hum hcar
    hfuel, ?_⟩
  intro c hc
  exact mark_pairs_marked h l (repv.cons c.1 c.2) (Or.inr ⟨c, hc, rfl⟩)

/-- Witness of C16: the list `(1 2)` of the sample heap. -/
theorem rep_mark_value_long_list_witness :
    [(100, 0), (100, 1)] ≠ [] ∧
      cdr_chain sample_list_heap (repv.cons 100 0) [(100, 0), (100, 1)] ∧
      [(100, 0), (100, 1)].length ≤ 2 ∧
      rep_mark_value sample_mark_env 2 sample_list_heap (repv.cons 100 0) =
        mark_outcome.done (sample_list_heap.mark_pairs [(100, 0), (100, 1)]) 0 ∧
      ∀ c ∈ [(100, 0), (100, 1)],
        ((sample_list_heap.mark_pairs [(100, 0), (100, 1)]).pairs.cons_mem c.1 c.2).mark = true :=
  have hch : cdr_chain sample_list_heap (repv.cons 100 0) [(100, 0), (100, 1)] :=
    ⟨rfl, rfl, rfl⟩
  have h := rep_mark_value_long_list sample_mark_env sample_list_heap (repv.cons 100 0)
    [(100, 0), (100, 1)] (by decide) hch (fun b i => by simp [sample_list_heap, Heap.init])
    (by decide) (by decide) (by decide) 2 (by decide)
  ⟨by decide, hch, by decide, h.1, h.2⟩

/-! ### What marking reaches -/

theorem clear_marks_set_mark (h : Heap) (v : repv) :
    (h.set_mark v).clear_marks = h.clear_marks := by
  cases v with
  | null => rfl
  | int n => rfl
  | cons b i =>
    have e : ∀ b1 i1, ({ (h.set_mark (repv.cons b i)).pairs.cons_mem b1 i1 with mark := false } :
        rep_cons) = { h.pairs.cons_mem b1 i1 with mark := false } := by
      intro b1 i1
      rw [set_mark_cons_mem]
      split
      · next he =>
        simp only [Prod.mk.injEq] at he
        obtain ⟨rfl, rfl⟩ := he
        rfl
      · rfl
    show ({ (h.set_mark (repv.cons b i)) with
      pairs := { (h.set_mark (repv.cons b i)).pairs with
        cons_mem := fun b1 i1 =>
          { (h.set_mark (repv.cons b i)).pairs.cons_mem b1 i1 with mark := false } }
      cells := fun a => { h.cells a with mark := false } } : Heap) = _
    simp only [e]
    rfl
  | cell a =>
    have e : ∀ a1, ({ (h.set_mark (repv.cell a)).cells a1 with mark := false } : rep_cell) =
        { h.cells a1 with mark := false } := by
      intro a1
      show ({ h.cells.set a _ a1 with mark := false } : rep_cell) = _
      by_cases he : a1 = a
      · subst he
        rw [cell_memory.set_eq]
      · rw [cell_memory.set_ne _ _ _ _ he]
    show ({ (h.set_mark (repv.cell a)) with
      pairs := { h.pairs with
        cons_mem := fun b1 i1 => { h.pairs.cons_mem b1 i1 with mark := false } }
      cells := fun a1 => { (h.set_mark (repv.cell a)).cells a1 with mark := false } } : Heap) = _
    simp only [e]
    rfl

theorem clear_marks_fields {h h0 : Heap} (hs : h.clear_marks = h0.clear_marks) :
    h.cons_writable = h0.cons_writable ∧ h.cell_writable = h0.cell_writable ∧
      h.Qnil = h0.Qnil ∧
      (∀ b i, (h.pairs.cons_mem b i).car = (h0.pairs.cons_mem b i).car ∧
        (h.pairs.cons_mem b i).cdr = (h0.pairs.cons_mem b i).cdr) ∧
      ∀ a, (h.cells a).body = (h0.cells a).body := by
  have e1 : h.clear_marks.cons_writable = h0.clear_marks.cons_writable :=
    congrArg Heap.cons_writable hs
  have e2 : h.clear_marks.cell_writable = h0.clear_marks.cell_writable :=
    congrArg Heap.cell_writable hs
  have e3 : h.clear_marks.Qnil = h0.clear_marks.Qnil := congrArg Heap.Qnil hs
  refine ⟨e1, e2, e3, ?_, ?_⟩
  · intro b i
    have e : h.clear_marks.pairs.cons_mem b i = h0.clear_marks.pairs.cons_mem b i := by
      rw [hs]
    have ea : (h.clear_marks.pairs.cons_mem b i).car = (h0.clear_marks.pairs.cons_mem b i).car :=
      congrArg rep_cons.car e
    have ed : (h.clear_marks.pairs.cons_mem b i).cdr = (h0.clear_marks.pairs.cons_mem b i).cdr :=
      congrArg rep_cons.cdr e
    exact ⟨ea, ed⟩
  · intro a
    have e : h.clear_marks.cells a = h0.clear_marks.cells a := by rw [hs]
    have eb : (h.clear_marks.cells a).body = (h0.clear_marks.cells a).body :=
      congrArg rep_cell.body e
    exact eb

theorem rep_markable_congr (d : Bool) {h h0 : Heap} (hs : h.clear_marks = h0.clear_marks)
    (x : repv) : rep_markable d h x = rep_markable d h0 x := by
  obtain ⟨h1, h2, _, _, h5⟩ := clear_marks_fields hs
  cases x with
  | null => rfl
  | int n => rfl
  | cons b i => simp only [rep_markable, h1]
  | cell a => simp only [rep_markable, h2, h5]

theorem mark_fields_congr (d : Bool) {h h0 : Heap} (hs : h.clear_marks = h0.clear_marks)
    (x : repv) : mark_fields d h x = mark_fields d h0 x := by
  obtain ⟨h1, h2, h3, h4, h5⟩ := clear_marks_fields hs
  cases x with
  | null => rfl
  | int n => rfl
  | cons b i => simp only [mark_fields, h1, h3, (h4 b i).1, (h4 b i).2]
  | cell a => simp only [mark_fields, h2, h5]

theorem user_cell_congr {h h0 : Heap} (hs : h.clear_marks = h0.clear_marks) (x : repv) :
    user_cell h x = user_cell h0 x := by
  obtain ⟨_, _, _, _, h5⟩ := clear_marks_fields hs
  cases x with
  | null => rfl
  | int n => rfl
  | cons b i => rfl
  | cell a => simp only [user_cell, h5]

theorem mark_fields_markable (d : Bool) (h : Heap) (x y : repv)
    (hy : y ∈ mark_fields d h x) : rep_markable d h x = true := by
  cases x with
  | null => simp [mark_fields] at hy
  | int n => simp [mark_fields] at hy
  | cons b i =>
    by_cases hw : h.cons_writable b i = true
    · exact hw
    · simp [mark_fields, hw] at hy
  | cell a =>
    cases hb : (h.cells a).body with
    | vector c len array =>
      by_cases hw : d = false ∨ h.cell_writable a = true
      · rcases hw with hw | hw <;> simp [rep_markable, hb, hw]
      · simp [mark_fields, hb, hw] at hy
    | symbol name value function prop_list next => simp [rep_markable, hb]
    | funarg env fenv special_env fh_env func => simp [rep_markable, hb]
    | string len data => simp [mark_fields, hb] at hy
    | var => simp [mark_fields, hb] at hy
    | subr n => simp [mark_fields, hb] at hy
    | sf => simp [mark_fields, hb] at hy
    | other t => simp [mark_fields, hb] at hy
    | cell16 t => simp [mark_fields, hb] at hy

theorem mark_reachable_of_not_markable (d : Bool) (h : Heap) (y x : repv)
    (hy : rep_markable d h y = false) (hr : mark_reachable d h y x) : x = y := by
  rcases Relation.ReflTransGen.cases_head hr with e | ⟨z, hz, _⟩
  · exact e.symm
  · rw [mark_fields_markable d h y z hz] at hy
    exact absurd hy (by decide)

theorem rep_GC_MARKEDP_set_mark_self (d : Bool) (h : Heap) (val : repv)
    (hm : rep_markable d h val = true) : rep_GC_MARKEDP (h.set_mark val) val = true := by
  cases val with
  | null => exact absurd hm (by simp [rep_markable])
  | int n => exact absurd hm (by simp [rep_markable])
  | cons b i =>
    show ((h.set_mark (repv.cons b i)).pairs.cons_mem b i).mark = true
    rw [set_mark_cons_mem, if_pos rfl]
  | cell a =>
    show (h.cells.set a _ a).mark = true
    rw [cell_memory.set_eq]

theorem rep_GC_MARKEDP_set_mark_inv (h : Heap) (val x : repv)
    (hx : rep_GC_MARKEDP (h.set_mark val) x = true) : x = val ∨ rep_GC_MARKEDP h x = true := by
  cases val with
  | null => exact Or.inr hx
  | int n => exact Or.inr hx
  | cons b i =>
    cases x with
    | cons b1 i1 =>
      have hx : ((h.set_mark (repv.cons b i)).pairs.cons_mem b1 i1).mark = true := hx
      rw [set_mark_cons_mem] at hx
      by_cases he : (b1, i1) = (b, i)
      · simp only [Prod.mk.injEq] at he
        exact Or.inl (by rw [he.1, he.2])
      · rw [if_neg he] at hx
        exact Or.inr hx
    | null => exact Or.inr hx
    | int n => exact Or.inr hx
    | cell a => exact Or.inr hx
  | cell a =>
    cases x with
    | cell a1 =>
      have hx : (h.cells.set a { h.cells a with mark := true } a1).mark = true := hx
      by_cases he : a1 = a
      · exact Or.inl (by rw [he])
      · rw [cell_memory.set_ne _ _ _ _ he] at hx
        exact Or.inr hx
    | null => exact Or.inr hx
    | int n => exact Or.inr hx
    | cons b1 i1 => exact Or.inr hx

theorem rep_mark_visit_cases (M : mark_env) (h : Heap) (val : repv) (hv : val ≠ rep_NULL)
    (hu : user_cell h val = false) :
    (rep_markable M.rep_DUMPED h val = false ∧ rep_mark_visit M h val = visit_result.skip) ∨
    (rep_markable M.rep_DUMPED h val = true ∧ ∃ ch t ci,
      rep_mark_visit M h val = visit_result.node (h.set_mark val) ch t ci ∧
      (∀ y ∈ mark_fields M.rep_DUMPED h val, y ∈ ch ++ [t]) ∧
      ∀ y ∈ ch ++ [t], y = rep_NULL ∨ y ∈ mark_fields M.rep_DUMPED h val) := by
  cases val with
  | null => exact absurd rfl hv
  | int n => exact Or.inl ⟨rfl, rfl⟩
  | cons b i =>
    by_cases hw : h.cons_writable b i = true
    · refine Or.inr ⟨hw, ?_⟩
      by_cases hn : (h.pairs.cons_mem b i).cdr = h.Qnil
      · exact ⟨[], (h.pairs.cons_mem b i).car, true,
          by simp only [rep_mark_visit, hw, hn, if_true],
          by simp [mark_fields, hw, hn], by simp [mark_fields, hw, hn]⟩
      · exact ⟨[(h.pairs.cons_mem b i).car], (h.pairs.cons_mem b i).cdr, true,
          by simp only [rep_mark_visit, hw, hn, if_true, if_false],
          by simp [mark_fields, hw, hn], by simp [mark_fields, hw, hn]⟩
    · refine Or.inl ⟨by simpa [rep_markable] using hw, ?_⟩
      simp only [rep_mark_visit, hw, if_false]
      rfl
  | cell a =>
    cases hb : (h.cells a).body with
    | vector c len array =>
      by_cases hw : M.rep_DUMPED = false ∨ h.cell_writable a = true
      · refine Or.inr ⟨by rcases hw with hw | hw <;> simp [rep_markable, hb, hw], ?_⟩
        refine ⟨(List.range len.toNat).map (fun i => array.getD i rep_NULL), rep_NULL, true,
          by simp only [rep_mark_visit, hb, hw, if_true], ?_, ?_⟩
        · intro y hy
          simp only [mark_fields, hb, hw, if_true] at hy
          exact List.mem_append_left _ hy
        · intro y hy
          rcases List.mem_append.mp hy with hy | hy
          · right
            simp only [mark_fields, hb, hw, if_true]
            exact hy
          · left
            simpa using hy
      · refine Or.inl ⟨?_, by simp only [rep_mark_visit, hb, hw, if_false]⟩
        simp only [not_or] at hw
        simp only [rep_markable, hb]
        cases hd : M.rep_DUMPED with
        | false => exact absurd hd hw.1
        | true =>
          cases hc : h.cell_writable a with
          | false => rfl
          | true => exact absurd hc hw.2
    | symbol name value function prop_list next =>
      refine Or.inr ⟨by simp [rep_markable, hb], [name, value, function, prop_list], next, true,
        by simp only [rep_mark_visit, hb], ?_, ?_⟩
      · intro y hy
        simpa [mark_fields, hb] using hy
      · intro y hy
        right
        simpa [mark_fields, hb] using hy
    | funarg env fenv special_env fh_env func =>
      refine Or.inr ⟨by simp [rep_markable, hb], [env, fenv, special_env, fh_env], func, false,
        by simp only [rep_mark_visit, hb], ?_, ?_⟩
      · intro y hy
        simpa [mark_fields, hb] using hy
      · intro y hy
        right
        simpa [mark_fields, hb] using hy
    | string len data =>
      cases hc : h.cell_writable a with
      | false =>
        exact Or.inl ⟨by simp [rep_markable, hb, hc], by simp [rep_mark_visit, hb, hc]⟩
      | true =>
        refine Or.inr ⟨by simp [rep_markable, hb, hc], [], rep_NULL, true,
          by simp [rep_mark_visit, hb, hc], ?_, ?_⟩
        · intro y hy
          simp [mark_fields, hb] at hy
        · intro y hy
          left
          simpa using hy
    | var => exact Or.inl ⟨by simp [rep_markable, hb], by simp [rep_mark_visit, hb]⟩
    | subr n => exact Or.inl ⟨by simp [rep_markable, hb], by simp [rep_mark_visit, hb]⟩
    | sf => exact Or.inl ⟨by simp [rep_markable, hb], by simp [rep_mark_visit, hb]⟩
    | other t => simp [user_cell, hb] at hu
    | cell16 t => simp [user_cell, hb] at hu

theorem filter_length_le_of_imp {α : Type} (p q : α → Bool) (l : List α)
    (hpq : ∀ a, p a = true → q a = true) : (l.filter p).length ≤ (l.filter q).length := by
  induction l with
  | nil => exact Nat.le_refl _
  | cons a l ih =>
    cases hp : p a with
    | true =>
      rw [List.filter_cons_of_pos hp, List.filter_cons_of_pos (hpq a hp)]
      exact Nat.succ_le_succ ih
    | false =>
      rw [List.filter_cons_of_neg (by simp [hp])]
      cases hq : q a with
      | true =>
        rw [List.filter_cons_of_pos hq]
        exact Nat.le_succ_of_le ih
      | false =>
        rw [List.filter_cons_of_neg (by simp [hq])]
        exact ih

theorem filter_length_lt_of_imp {α : Type} (p q : α → Bool) (l : List α)
    (hpq : ∀ a, p a = true → q a = true) (x : α) (hx : x ∈ l) (hqx : q x = true)
    (hpx : p x = false) : (l.filter p).length < (l.filter q).length := by
  induction l with
  | nil => simp at hx
  | cons a l ih =>
    rcases List.mem_cons.mp hx with e | hm
    · subst e
      rw [List.filter_cons_of_neg (by simp [hpx]), List.filter_cons_of_pos hqx]
      exact Nat.lt_succ_of_le (filter_length_le_of_imp p q l hpq)
    · cases hp : p a with
      | true =>
        rw [List.filter_cons_of_pos hp, List.filter_cons_of_pos (hpq a hp)]
        exact Nat.succ_lt_succ (ih hm)
      | false =>
        rw [List.filter_cons_of_neg (by simp [hp])]
        cases hq : q a with
        | true =>
          rw [List.filter_cons_of_pos hq]
          exact Nat.lt_succ_of_lt (ih hm)
        | false =>
          rw [List.filter_cons_of_neg (by simp [hq])]
          exact ih hm

theorem unmarked_count_mono (d : Bool) (h0 : Heap) (U : List repv) (h h1 : Heap)
    (hm : ∀ x, rep_GC_MARKEDP h x = true → rep_GC_MARKEDP h1 x = true) :
    unmarked_count d h0 U h1 ≤ unmarked_count d h0 U h := by
  apply filter_length_le_of_imp
  intro a ha
  simp only [Bool.and_eq_true, Bool.not_eq_true', Bool.not_eq_eq_eq_not, Bool.not_true] at ha ⊢
  refine ⟨ha.1, ?_⟩
  cases hx : rep_GC_MARKEDP h a with
  | false => rfl
  | true =>
    rw [hm a hx] at ha
    exact absurd ha.2 (by decide)

theorem unmarked_count_lt (d : Bool) (h0 : Heap) (U : List repv) (h h1 : Heap)
    (hm : ∀ x, rep_GC_MARKEDP h x = true → rep_GC_MARKEDP h1 x = true) (val : repv)
    (hU : val ∈ U) (hv : rep_markable d h0 val = true) (hu : rep_GC_MARKEDP h val = false)
    (hv1 : rep_GC_MARKEDP h1 val = true) :
    unmarked_count d h0 U h1 < unmarked_count d h0 U h := by
  apply filter_length_lt_of_imp _ _ U _ val hU
  · simp [hv, hu]
  · simp [hv1]
  · intro a ha
    simp only [Bool.and_eq_true, Bool.not_eq_true', Bool.not_eq_eq_eq_not, Bool.not_true] at ha ⊢
    refine ⟨ha.1, ?_⟩
    cases hx : rep_GC_MARKEDP h a with
    | false => rfl
    | true =>
      rw [hm a hx] at ha
      exact absurd ha.2 (by decide)

theorem unmarked_count_le_length (d : Bool) (h0 : Heap) (U : List repv) (h : Heap) :
    unmarked_count d h0 U h ≤ U.length :=
  List.length_filter_le _ _

theorem mark_post_skip (d : Bool) (h0 h : Heap) (vals : List repv)
    (hs : h.clear_marks = h0.clear_marks)
    (hy : ∀ y ∈ vals, rep_markable d h0 y = true → rep_GC_MARKEDP h y = true) :
    mark_post d h0 h vals h :=
  ⟨hs, fun _ hx => hx, hy, fun _ hx => Or.inl hx,
    fun x hx hn => absurd hx (by simp [hn])⟩

theorem mark_post_append (d : Bool) (h0 h h1 h2 : Heap) (xs ys : List repv)
    (p1 : mark_post d h0 h xs h1) (p2 : mark_post d h0 h1 ys h2) :
    mark_post d h0 h (xs ++ ys) h2 := by
  refine ⟨p2.same, fun x hx => p2.mono x (p1.mono x hx), ?_, ?_, ?_⟩
  · intro y hy hm
    rcases List.mem_append.mp hy with hy | hy
    · exact p2.mono y (p1.root y hy hm)
    · exact p2.root y hy hm
  · intro x hx
    rcases p2.sound x hx with h1x | ⟨hm, y, hy, hr⟩
    · rcases p1.sound x h1x with hx0 | ⟨hm, y, hy, hr⟩
      · exact Or.inl hx0
      · exact Or.inr ⟨hm, y, List.mem_append_left _ hy, hr⟩
    · exact Or.inr ⟨hm, y, List.mem_append_right _ hy, hr⟩
  · intro x hx hn y hy hm
    cases h1x : rep_GC_MARKEDP h1 x with
    | true => exact p2.mono y (p1.closed x h1x hn y hy hm)
    | false => exact p2.closed x hx h1x y hy hm

theorem mark_post_node (d : Bool) (h0 h h3 : Heap) (val : repv) (ch : List repv) (t : repv)
    (hvm : rep_markable d h0 val = true)
    (hsub : ∀ y ∈ mark_fields d h0 val, y ∈ ch ++ [t])
    (hsup : ∀ y ∈ ch ++ [t], y = rep_NULL ∨ y ∈ mark_fields d h0 val)
    (p : mark_post d h0 (h.set_mark val) (ch ++ [t]) h3) :
    mark_post d h0 h [val] h3 := by
  have hself : rep_GC_MARKEDP (h.set_mark val) val = true := by
    cases val with
    | null => exact absurd hvm (by simp [rep_markable])
    | int n => exact absurd hvm (by simp [rep_markable])
    | cons b i =>
      show ((h.set_mark (repv.cons b i)).pairs.cons_mem b i).mark = true
      rw [set_mark_cons_mem, if_pos rfl]
    | cell a =>
      show (h.cells.set a _ a).mark = true
      rw [cell_memory.set_eq]
  refine ⟨p.same, fun x hx => p.mono x (rep_GC_MARKEDP_set_mark h val x hx), ?_, ?_, ?_⟩
  · intro y hy _
    rw [List.mem_singleton.mp hy]
    exact p.mono val hself
  · intro x hx
    rcases p.sound x hx with h1x | ⟨hm, y, hy, hr⟩
    · rcases rep_GC_MARKEDP_set_mark_inv h val x h1x with e | hx0
      · rw [e]
        exact Or.inr ⟨hvm, val, List.mem_singleton.mpr rfl, Relation.ReflTransGen.refl⟩
      · exact Or.inl hx0
    · refine Or.inr ⟨hm, val, List.mem_singleton.mpr rfl, ?_⟩
      rcases hsup y hy with e | hf
      · have hx : x = y :=
          mark_reachable_of_not_markable d h0 y x (by rw [e]; rfl) hr
        rw [hx, e] at hm
        exact absurd hm (by simp [rep_markable])
      · exact Relation.ReflTransGen.head hf hr
  · intro x hx hn y hy hm
    cases h1x : rep_GC_MARKEDP (h.set_mark val) x with
    | true =>
      rcases rep_GC_MARKEDP_set_mark_inv h val x h1x with e | hx0
      · rw [e] at hy
        exact p.root y (hsub y hy) hm
      · rw [hx0] at hn
        exact absurd hn (by decide)
    | false => exact p.closed x hx h1x y hy hm

theorem rep_markable_of_not_pointer (d : Bool) (h : Heap) (x : repv)
    (hx : x = rep_NULL ∨ rep_INTP x = true) : rep_markable d h x = false := by
  cases x with
  | null => rfl
  | int n => rfl
  | cons b i => rcases hx with hx | hx <;> simp [rep_INTP] at hx
  | cell a => rcases hx with hx | hx <;> simp [rep_INTP] at hx

theorem rep_MARKVAL_list_post (M : mark_env) (h0 : Heap) (U : List repv) (fuel : Nat)
    (hP : ∀ h val, h.clear_marks = h0.clear_marks → val ∈ U → val ≠ rep_NULL →
      rep_GC_MARKEDP h val = false → unmarked_count M.rep_DUMPED h0 U h < fuel →
      ∃ h1 n, rep_mark_value M fuel h val = mark_outcome.done h1 n ∧
        mark_post M.rep_DUMPED h0 h [val] h1) :
    ∀ (xs : List repv) (h : Heap), h.clear_marks = h0.clear_marks →
      (∀ y ∈ xs, y = rep_NULL ∨ y ∈ U) → unmarked_count M.rep_DUMPED h0 U h < fuel →
      ∃ h1 n, rep_MARKVAL_list (rep_mark_value M fuel) h xs = mark_outcome.done h1 n ∧
        mark_post M.rep_DUMPED h0 h xs h1 := by
  intro xs
  induction xs with
  | nil =>
    intro h hs _ _
    exact ⟨h, 0, rfl, mark_post_skip _ h0 h [] hs (fun y hy => absurd hy (List.not_mem_nil y))⟩
  | cons x xs ih =>
    intro h hs hxs hlt
    have step : ∃ h1 n, rep_MARKVAL (rep_mark_value M fuel) h x = mark_outcome.done h1 n ∧
        mark_post M.rep_DUMPED h0 h [x] h1 := by
      by_cases hc : x ≠ rep_NULL ∧ rep_INTP x = false ∧ rep_GC_MARKEDP h x = false
      · have hxU : x ∈ U := by
          rcases hxs x (List.mem_cons_self x xs) with e | hx
          · exact absurd e hc.1
          · exact hx
        obtain ⟨h1, n, e, p⟩ := hP h x hs hxU hc.1 hc.2.2 hlt
        exact ⟨h1, n + 1, by simp only [rep_MARKVAL, if_pos hc, e], p⟩
      · refine ⟨h, 0, by simp only [rep_MARKVAL, if_neg hc], mark_post_skip _ h0 h [x] hs ?_⟩
        intro y hy hm
        rw [List.mem_singleton.mp hy] at hm ⊢
        by_cases h1 : x = rep_NULL
        · rw [rep_markable_of_not_pointer _ h0 x (Or.inl h1)] at hm
          exact absurd hm (by decide)
        · cases h2 : rep_INTP x with
          | true =>
            rw [rep_markable_of_not_pointer _ h0 x (Or.inr h2)] at hm
            exact absurd hm (by decide)
          | false =>
            cases h3 : rep_GC_MARKEDP h x with
            | true => rfl
            | false => exact absurd ⟨h1, h2, h3⟩ hc
    obtain ⟨h1, n, e1, p1⟩ := step
    obtain ⟨h2, m, e2, p2⟩ := ih h1 p1.same
      (fun y hy => hxs y (List.mem_cons_of_mem x hy))
      (Nat.lt_of_le_of_lt (unmarked_count_mono _ h0 U h h1 p1.mono) hlt)
    exact ⟨h2, n + m, by simp only [rep_MARKVAL_list, e1, e2],
      mark_post_append _ h0 h h1 h2 [x] xs p1 p2⟩

theorem rep_mark_value_post (M : mark_env) (h0 : Heap) (U : List repv)
    (hclosed : ∀ x ∈ U, ∀ y ∈ mark_fields M.rep_DUMPED h0 x, y = rep_NULL ∨ y ∈ U)
    (huser : ∀ x ∈ U, user_cell h0 x = false) :
    ∀ (fuel : Nat) (h : Heap) (val : repv), h.clear_marks = h0.clear_marks → val ∈ U →
      val ≠ rep_NULL → rep_GC_MARKEDP h val = false →
      unmarked_count M.rep_DUMPED h0 U h < fuel →
      ∃ h1 n, rep_mark_value M fuel h val = mark_outcome.done h1 n ∧
        mark_post M.rep_DUMPED h0 h [val] h1 := by
  intro fuel
  induction fuel with
  | zero =>
    intro h val _ _ _ _ hlt
    exact absurd hlt (Nat.not_lt_zero _)
  | succ fuel ih =>
    intro h val hs hU hv hum hlt
    have hu : user_cell h val = false := by
      rw [user_cell_congr hs]
      exact huser val hU
    rcases rep_mark_visit_cases M h val hv hu with ⟨hm, e⟩ | ⟨hm, ch, t, ci, e, hsub, hsup⟩
    · refine ⟨h, 0, by simp only [rep_mark_value, e], mark_post_skip _ h0 h [val] hs ?_⟩
      intro y hy hmy
      rw [List.mem_singleton.mp hy, ← rep_markable_congr _ hs, hm] at hmy
      exact absurd hmy (by decide)
    · rw [rep_markable_congr _ hs] at hm
      rw [mark_fields_congr _ hs] at hsub hsup
      have hs1 : (h.set_mark val).clear_marks = h0.clear_marks :=
        (clear_marks_set_mark h val).trans hs
      have hlt1 : unmarked_count M.rep_DUMPED h0 U (h.set_mark val) < fuel := by
        have := unmarked_count_lt M.rep_DUMPED h0 U h (h.set_mark val)
          (rep_GC_MARKEDP_set_mark h val) val hU hm hum
          (by
            have hm1 := hm
            rw [← rep_markable_congr _ hs] at hm1
            exact rep_GC_MARKEDP_set_mark_self _ h val hm1)
        omega
      have hin : ∀ y ∈ ch ++ [t], y = rep_NULL ∨ y ∈ U := by
        intro y hy
        rcases hsup y hy with e | hf
        · exact Or.inl e
        · exact hclosed val hU y hf
      obtain ⟨h2, n, e2, p2⟩ := rep_MARKVAL_list_post M h0 U fuel ih ch (h.set_mark val) hs1
        (fun y hy => hin y (List.mem_append_left _ hy)) hlt1
      have hlt2 : unmarked_count M.rep_DUMPED h0 U h2 < fuel :=
        Nat.lt_of_le_of_lt (unmarked_count_mono _ h0 U _ h2 p2.mono) hlt1
      have hrun : rep_mark_value M (fuel + 1) h val =
          if t ≠ rep_NULL ∧ (ci = true → rep_INTP t = false) ∧
              rep_GC_MARKEDP h2 t = false then
            match rep_mark_value M fuel h2 t with
            | mark_outcome.done h3 m => mark_outcome.done h3 (n + m)
            | o => o
          else mark_outcome.done h2 n := by
        simp only [rep_mark_value, e, e2]
      have tail : ∃ h3 k, rep_mark_value M (fuel + 1) h val = mark_outcome.done h3 k ∧
          mark_post M.rep_DUMPED h0 h2 [t] h3 := by
        by_cases hc : t ≠ rep_NULL ∧ (ci = true → rep_INTP t = false) ∧
            rep_GC_MARKEDP h2 t = false
        · have htU : t ∈ U := by
            rcases hin t (List.mem_append_right _ (List.mem_singleton.mpr rfl)) with e | ht
            · exact absurd e hc.1
            · exact ht
          obtain ⟨h3, m, e3, p3⟩ := ih h2 t p2.same htU hc.1 hc.2.2 hlt2
          exact ⟨h3, n + m, by rw [hrun, if_pos hc, e3], p3⟩
        · refine ⟨h2, n, by rw [hrun, if_neg hc], mark_post_skip _ h0 h2 [t] p2.same ?_⟩
          intro y hy hmy
          rw [List.mem_singleton.mp hy] at hmy ⊢
          by_cases h1 : t = rep_NULL
          · rw [rep_markable_of_not_pointer _ h0 t (Or.inl h1)] at hmy
            exact absurd hmy (by decide)
          · cases h2i : rep_INTP t with
            | true =>
              rw [rep_markable_of_not_pointer _ h0 t (Or.inr h2i)] at hmy
              exact absurd hmy (by decide)
            | false =>
              cases h3 : rep_GC_MARKEDP h2 t with
              | true => rfl
              | false => exact absurd ⟨h1, fun _ => h2i, h3⟩ hc
      obtain ⟨h3, k, e3, p3⟩ := tail
      exact ⟨h3, k, e3, mark_post_node _ h0 h h3 val ch t hm hsub hsup
        (mark_post_append _ h0 _ h2 h3 ch [t] p2 p3)⟩

/-- Counterexample to C15: in the sample heap, where no cell is marked, the
symbol `nil` at 8 is a writable symbol cell and is the tail of the writable
pair `100->cons[0]`, so it is reachable from that pair by following a pair
tail.  `rep_mark_value` on the pair (one pass through `again`, whatever the
fuel) sets the mark bit of the pair and returns with the symbol `nil` and its
name string at 16 not marked. -/
theorem rep_mark_value_skips_nil :
    sample_nil_heap.Qnil = repv.cell 8 ∧
      (sample_nil_heap.cells 8).body =
        cell_body.symbol (repv.cell 16) (repv.cell 8) rep_NULL rep_NULL rep_NULL ∧
      sample_nil_heap.cell_writable 8 = true ∧
      sample_nil_heap.cons_writable 100 0 = true ∧
      (sample_nil_heap.pairs.cons_mem 100 0).cdr = repv.cell 8 ∧
      (∀ x, rep_GC_MARKEDP sample_nil_heap x = false) ∧
      rep_mark_value sample_mark_env 1 sample_nil_heap (repv.cons 100 0) =
        mark_outcome.done (sample_nil_heap.set_mark (repv.cons 100 0)) 0 ∧
      rep_mark_value sample_mark_env 100000 sample_nil_heap (repv.cons 100 0) =
        mark_outcome.done (sample_nil_heap.set_mark (repv.cons 100 0)) 0 ∧
      rep_GC_MARKEDP (sample_nil_heap.set_mark (repv.cons 100 0)) (repv.cons 100 0) = true ∧
      rep_GC_MARKEDP (sample_nil_heap.set_mark (repv.cons 100 0)) (repv.cell 8) = false ∧
      rep_GC_MARKEDP (sample_nil_heap.set_mark (repv.cons 100 0)) (repv.cell 16) = false := by
  refine ⟨rfl, rfl, rfl, rfl, rfl, ?_, rfl, rfl, rfl, rfl, rfl⟩
  intro x
  cases x with
  | null => rfl
  | int n => rfl
  | cons b i =>
    show (if b = 100 ∧ i = 0 then _ else _ : rep_cons).mark = false
    split <;> rfl
  | cell a =>
    show (if a = 8 then _ else if a = 16 then _ else _ : rep_cell).mark = false
    split
    · rfl
    · split <;> rfl

/-- C15 as amended: the tail of a pair is not followed when it is `Qnil`.
Let `U` be a finite list of values that holds `v` and every non-null member
followed from a cell of `U` (`mark_fields`: head and tail of a writable pair
but the head alone when the tail is `Qnil`, the slots of a vector or compiled
block, the five members of a symbol and of a closure), with no cell of a
registered type in `U`, and let no cell of the heap be marked.  Then for `v`
not null and every fuel above the length of `U`, `rep_mark_value` returns; the
heap it returns differs from the given one in mark bits only; and a cell is
marked in it exactly when it is markable (a writable pair or string, a
vector or compiled block, writable if `rep_DUMPED` is defined, a symbol or a
closure) and reachable from `v` through such members. -/
theorem rep_mark_value_marks_reachable (M : mark_env) (h : Heap) (v : repv) (U : List repv)
    (hv : v ≠ rep_NULL) (hU : v ∈ U)
    (hclosed : ∀ x ∈ U, ∀ y ∈ mark_fields M.rep_DUMPED h x, y = rep_NULL ∨ y ∈ U)
    (huser : ∀ x ∈ U, user_cell h x = false)
    (hum : ∀ x, rep_GC_MARKEDP h x = false)
    (fuel : Nat) (hfuel : U.length < fuel) :
    ∃ h1 n, rep_mark_value M fuel h v = mark_outcome.done h1 n ∧
      h1.clear_marks = h.clear_marks ∧
      ∀ x, rep_GC_MARKEDP h1 x = true ↔
        (rep_markable M.rep_DUMPED h x = true ∧ mark_reachable M.rep_DUMPED h v x) := by
  obtain ⟨h1, n, e, p⟩ := rep_mark_value_post M h U hclosed huser fuel h v rfl hU hv (hum v)
    (Nat.lt_of_le_of_lt (unmarked_count_le_length _ h U h) hfuel)
  refine ⟨h1, n, e, p.same, ?_⟩
  intro x
  constructor
  · intro hx
    rcases p.sound x hx with h0 | ⟨hm, y, hy, hr⟩
    · rw [hum x] at h0
      exact absurd h0 (by decide)
    · rw [List.mem_singleton.mp hy] at hr
      exact ⟨hm, hr⟩
  · rintro ⟨hm, hr0⟩
    have hr : Relation.ReflTransGen (fun a b => b ∈ mark_fields M.rep_DUMPED h a) v x := hr0
    clear hr0
    induction hr with
    | refl => exact p.root v (List.mem_singleton.mpr rfl) hm
    | tail _ hbc ih =>
      exact p.closed _ (ih (mark_fields_markable _ h _ _ hbc)) (hum _) _ hbc hm

/-- Witness of C15 as amended: the sample heap with a cycle through two
pairs and a symbol, marked from the pair `100->cons[0]`. -/
theorem rep_mark_value_marks_reachable_witness :
    repv.cons 100 0 ≠ rep_NULL ∧
      (∀ x ∈ [repv.cons 100 0, repv.cell 24, repv.cons 100 1, repv.cell 16, repv.int 7],
        ∀ y ∈ mark_fields sample_mark_env.rep_DUMPED sample_cycle_heap x, y = rep_NULL ∨
          y ∈ [repv.cons 100 0, repv.cell 24, repv.cons 100 1, repv.cell 16, repv.int 7]) ∧
      (∀ x, rep_GC_MARKEDP sample_cycle_heap x = false) ∧
      ∃ h1 n, rep_mark_value sample_mark_env 6 sample_cycle_heap (repv.cons 100 0) =
          mark_outcome.done h1 n ∧
        h1.clear_marks = sample_cycle_heap.clear_marks ∧
        ∀ x, rep_GC_MARKEDP h1 x = true ↔
          (rep_markable sample_mark_env.rep_DUMPED sample_cycle_heap x = true ∧
            mark_reachable sample_mark_env.rep_DUMPED sample_cycle_heap (repv.cons 100 0) x) :=
  have hclosed : ∀ x ∈ [repv.cons 100 0, repv.cell 24, repv.cons 100 1, repv.cell 16,
      repv.int 7], ∀ y ∈ mark_fields sample_mark_env.rep_DUMPED sample_cycle_heap x,
      y = rep_NULL ∨
        y ∈ [repv.cons 100 0, repv.cell 24, repv.cons 100 1, repv.cell 16, repv.int 7] := by
    decide
  have hum : ∀ x, rep_GC_MARKEDP sample_cycle_heap x = false := by
    intro x
    cases x with
    | null => rfl
    | int n => rfl
    | cons b i =>
      show (if b = 100 ∧ i = 0 then _ else if b = 100 ∧ i = 1 then _ else _ : rep_cons).mark
        = false
      split
      · rfl
      · split <;> rfl
    | cell a =>
      show (if a = 24 then _ else if a = 16 then _ else if a = 8 then _ else _ : rep_cell).mark
        = false
      split
      · rfl
      · split
        · rfl
        · split <;> rfl
  ⟨by decide, hclosed, hum,
    rep_mark_value_marks_reachable sample_mark_env sample_cycle_heap (repv.cons 100 0)
      [repv.cons 100 0, repv.cell 24, repv.cons 100 1, repv.cell 16, repv.int 7]
      (by decide) (by decide) hclosed (by decide) hum 6 (by decide)⟩

/-! ### The end of a collection -/

/-- Counterexample to C21: on the heap at program start, with nothing to
mark or sweep, `Fgarbage_collect` called with a nil `noStats` returns the
statistics list `500->cons[2]` with `rep_in_gc` clear and `rep_data_after_gc`
at 112, the bytes of the seven pairs of 16 bytes that make up the list;
called with `noStats` the symbol `t` it returns `t` and the counter is 0. -/
theorem Fgarbage_collect_stats_counted :
    Heap.init.Qnil = repv.cell 8 ∧
      (Fgarbage_collect sample_header sample_mark_env sample_gc_callbacks 1 sample_gc_inputs
        sample_gc_externs sample_blocks (repv.cell 8) Heap.init).report =
        some (repv.cons 500 2, false, 112) ∧
      (Fgarbage_collect sample_header sample_mark_env sample_gc_callbacks 1 sample_gc_inputs
        sample_gc_externs sample_blocks (repv.cell 32) Heap.init).report =
        some (repv.cell 32, false, 0) := by
  refine ⟨rfl, ?_, ?_⟩ <;> rfl

theorem gc_act_done (M : mark_env) (X : gc_callbacks) (fuel : Nat) (e : gc_event)
    (s : mark_outcome) (h : Heap) (n : Nat) (hd : gc_act M X fuel e s = mark_outcome.done h n) :
    ∃ h0 n0, s = mark_outcome.done h0 n0 := by
  cases s with
  | done h0 n0 => exact ⟨h0, n0, rfl⟩
  | fault e0 => exact absurd hd (by simp [gc_act])
  | out_of_fuel => exact absurd hd (by simp [gc_act])

theorem Fgarbage_collect_run_end (M : mark_env) (X : gc_callbacks) (fuel : Nat) (G : gc_inputs)
    (h h1 : Heap) (n : Nat)
    (hrun : Fgarbage_collect_run (gc_act M X fuel) G (mark_outcome.done h 0) =
      mark_outcome.done h1 n) :
    h1.rep_in_gc = false ∧ h1.pairs.rep_data_after_gc = 0 := by
  have hend : ∃ s, Fgarbage_collect_run (gc_act M X fuel) G (mark_outcome.done h 0) =
      gc_act M X fuel (gc_event.set_in_gc false)
        (gc_act M X fuel gc_event.reset_data_after_gc s) := ⟨_, rfl⟩
  obtain ⟨s, hs⟩ := hend
  rw [hs] at hrun
  obtain ⟨s1, n1, e1⟩ := gc_act_done M X fuel _ _ h1 n hrun
  obtain ⟨s0, n0, e0⟩ := gc_act_done M X fuel _ _ s1 n1 e1
  rw [e0] at hrun
  simp only [gc_act, mark_outcome.done.injEq] at hrun
  rw [← hrun.1]
  exact ⟨rfl, rfl⟩

theorem Heap_Fcons_frame (H : Header) (a : Option Nat) (car cdr : repv) (h h1 : Heap) (p : repv)
    (hc : h.Fcons H a car cdr = Except.ok (p, h1)) :
    h1.pairs.rep_data_after_gc = h.pairs.rep_data_after_gc + H.sizeof_rep_cons ∧
      h1.rep_in_gc = h.rep_in_gc ∧ h1.Qnil = h.Qnil ∧
      h1.allocated_strings = h.allocated_strings ∧
      h1.allocated_string_bytes = h.allocated_string_bytes ∧
      h1.used_vector_slots = h.used_vector_slots := by
  unfold Heap.Fcons at hc
  cases hf : Rep.Fcons H a car cdr h.pairs with
  | error e =>
    rw [hf] at hc
    exact absurd hc (by simp)
  | ok r =>
    obtain ⟨q, s1⟩ := r
    rw [hf] at hc
    simp only [Except.ok.injEq, Prod.mk.injEq] at hc
    rw [← hc.2]
    exact ⟨(Fcons_counters H a car cdr h.pairs s1 q hf).1, rfl, rfl, rfl, rfl, rfl⟩

theorem Heap_Fcons_of_free_list (H : Header) (a : Option Nat) (car cdr : repv) (h : Heap)
    (c : Nat × Nat) (l : List (Nat × Nat))
    (hl : free_list h.pairs.cons_mem h.pairs.cons_freelist (c :: l)) :
    ∃ h1, h.Fcons H a car cdr = Except.ok (repv.cons c.1 c.2, h1) ∧
      (h1.pairs.cons_mem c.1 c.2).car = car ∧ (h1.pairs.cons_mem c.1 c.2).cdr = cdr ∧
      (∀ d : Nat × Nat, d ≠ c → h1.pairs.cons_mem d.1 d.2 = h.pairs.cons_mem d.1 d.2) ∧
      free_list h1.pairs.cons_mem h1.pairs.cons_freelist l ∧
      h1.Qnil = h.Qnil ∧ h1.allocated_strings = h.allocated_strings ∧
      h1.allocated_string_bytes = h.allocated_string_bytes ∧
      h1.used_vector_slots = h.used_vector_slots := by
  have hp : h.pairs.cons_freelist = repv.cons c.1 c.2 := hl.1
  obtain ⟨s1, e, hm, ho, -, -, -, hfl, -⟩ := Fcons_take_spec H car cdr h.pairs c.1 c.2 hp
  have e1 : Rep.Fcons H a car cdr h.pairs = Except.ok (repv.cons c.1 c.2, s1) := by
    rw [Fcons_eq_take H a car cdr h.pairs c.1 c.2 hp]
    exact e
  refine ⟨{ h with pairs := s1 }, by simp only [Heap.Fcons, e1], ?_, ?_, ?_, ?_,
    rfl, rfl, rfl, rfl⟩
  · show (s1.cons_mem c.1 c.2).car = car
    rw [hm]
  · show (s1.cons_mem c.1 c.2).cdr = cdr
    rw [hm]
  · intro d hd
    exact ho d.1 d.2 hd
  · exact hfl l hl

theorem rep_LIST_4_frame (H : Header) (a4 a3 a2 a1 : Option Nat) (v1 v2 v3 v4 : repv)
    (h h2 : Heap) (v : repv) (hs : rep_LIST_4 H a4 a3 a2 a1 v1 v2 v3 v4 h = Except.ok (v, h2)) :
    h2.pairs.rep_data_after_gc = h.pairs.rep_data_after_gc + 4 * H.sizeof_rep_cons ∧
      h2.rep_in_gc = h.rep_in_gc := by
  unfold rep_LIST_4 at hs
  cases e4 : Heap.Fcons H a4 v4 h.Qnil h with
  | error e => simp [e4] at hs
  | ok r4 =>
    obtain ⟨l4, h4⟩ := r4
    rw [e4] at hs
    dsimp only at hs
    cases e3 : Heap.Fcons H a3 v3 l4 h4 with
    | error e => simp [e3] at hs
    | ok r3 =>
      obtain ⟨l3, h3⟩ := r3
      rw [e3] at hs
      dsimp only at hs
      cases e2 : Heap.Fcons H a2 v2 l3 h3 with
      | error e => simp [e2] at hs
      | ok r2 =>
        obtain ⟨l2, h2a⟩ := r2
        rw [e2] at hs
        dsimp only at hs
        have k4 := Heap_Fcons_frame H a4 v4 h.Qnil h h4 l4 e4
        have k3 := Heap_Fcons_frame H a3 v3 l4 h4 h3 l3 e3
        have k2 := Heap_Fcons_frame H a2 v2 l3 h3 h2a l2 e2
        have k1 := Heap_Fcons_frame H a1 v1 l2 h2a h2 v hs
        refine ⟨?_, ?_⟩
        · rw [k1.1, k2.1, k3.1, k4.1]
          ring
        · rw [k1.2.1, k2.2.1, k3.2.1, k4.2.1]

theorem Fgarbage_collect_stats_frame (H : Header) (Y : gc_externs) (a : Nat → Option Nat)
    (h h2 : Heap) (v : repv) (hs : Fgarbage_collect_stats H Y a h = Except.ok (v, h2)) :
    h2.pairs.rep_data_after_gc = h.pairs.rep_data_after_gc + 7 * H.sizeof_rep_cons ∧
      h2.rep_in_gc = h.rep_in_gc := by
  unfold Fgarbage_collect_stats at hs
  cases e1 : Heap.Fcons H (a 0) (repv.int h.pairs.used_cons)
      (repv.int (h.pairs.allocated_cons - h.pairs.used_cons)) h with
  | error e => simp [e1] at hs
  | ok r1 =>
    obtain ⟨p1, h1⟩ := r1
    rw [e1] at hs
    dsimp only at hs
    cases e2 : Heap.Fcons H (a 1) (repv.int Y.rep_used_symbols)
        (repv.int (Y.rep_allocated_symbols - Y.rep_used_symbols)) h1 with
    | error e => simp [e2] at hs
    | ok r2 =>
      obtain ⟨p2, h2a⟩ := r2
      rw [e2] at hs
      dsimp only at hs
      cases e3 : Heap.Fcons H (a 2) (repv.int h2a.allocated_strings)
          (repv.int h2a.allocated_string_bytes) h2a with
      | error e => simp [e3] at hs
      | ok r3 =>
        obtain ⟨p3, h3⟩ := r3
        rw [e3] at hs
        dsimp only at hs
        have k1 := Heap_Fcons_frame H _ _ _ h h1 p1 e1
        have k2 := Heap_Fcons_frame H _ _ _ h1 h2a p2 e2
        have k3 := Heap_Fcons_frame H _ _ _ h2a h3 p3 e3
        have k4 := rep_LIST_4_frame H _ _ _ _ _ _ _ _ h3 h2 v hs
        refine ⟨?_, ?_⟩
        · rw [k4.1, k3.1, k2.1, k1.1]
          ring
        · rw [k4.2, k3.2.1, k2.2.1, k1.2.1]

theorem Heap_Fcons_fresh_block (H : Header) (cb : Nat) (car cdr : repv) (h : Heap)
    (hnull : h.pairs.cons_freelist = rep_NULL) :
    ∃ h1, h.Fcons H (some cb) car cdr = Except.ok (repv.cons cb 0, h1) ∧
      (h1.pairs.cons_mem cb 0).car = car ∧ (h1.pairs.cons_mem cb 0).cdr = cdr ∧
      (∀ d : Nat × Nat, d.1 ≠ cb → h1.pairs.cons_mem d.1 d.2 = h.pairs.cons_mem d.1 d.2) ∧
      free_list h1.pairs.cons_mem h1.pairs.cons_freelist
        ((List.range' 1 (H.rep_CONSBLK_SIZE - 1)).map (fun i => (cb, i))) ∧
      h1.Qnil = h.Qnil ∧ h1.allocated_strings = h.allocated_strings ∧
      h1.allocated_string_bytes = h.allocated_string_bytes ∧
      h1.used_vector_slots = h.used_vector_slots := by
  have hfl := fresh_block_free_list cb (H.rep_CONSBLK_SIZE - 1) h.pairs.cons_mem
    (H.rep_CONSBLK_SIZE - 1) (Nat.le_refl _)
  rw [Nat.sub_self, List.range'_succ, List.map_cons] at hfl
  have e1 : Rep.Fcons H (some cb) car cdr h.pairs = Fcons_take H car cdr
      { h.pairs with
        allocated_cons := h.pairs.allocated_cons + H.rep_CONSBLK_SIZE
        cons_block_chain := cb :: h.pairs.cons_block_chain
        cons_mem :=
          (link_block cb (H.rep_CONSBLK_SIZE - 1) h.pairs.cons_mem).set_cdr cb
            (H.rep_CONSBLK_SIZE - 1) rep_NULL
        cons_freelist := repv.cons cb 0 } := by
    simp only [Fcons, hnull, if_true]
  obtain ⟨s1, t1, hm, ho, -, -, -, hf, -⟩ := Fcons_take_spec H car cdr
    { h.pairs with
      allocated_cons := h.pairs.allocated_cons + H.rep_CONSBLK_SIZE
      cons_block_chain := cb :: h.pairs.cons_block_chain
      cons_mem :=
        (link_block cb (H.rep_CONSBLK_SIZE - 1) h.pairs.cons_mem).set_cdr cb
          (H.rep_CONSBLK_SIZE - 1) rep_NULL
      cons_freelist := repv.cons cb 0 } cb 0 rfl
  refine ⟨{ h with pairs := s1 }, by simp only [Heap.Fcons, e1, t1], ?_, ?_, ?_, hf _ hfl,
    rfl, rfl, rfl, rfl⟩
  · show (s1.cons_mem cb 0).car = car
    rw [hm]
  · show (s1.cons_mem cb 0).cdr = cdr
    rw [hm]
  · intro d hd
    show s1.cons_mem d.1 d.2 = h.pairs.cons_mem d.1 d.2
    have hne : (d.1, d.2) ≠ (cb, 0) := fun e => hd (congrArg Prod.fst e)
    rw [ho d.1 d.2 hne]
    show (link_block cb _ h.pairs.cons_mem).set_cdr cb _ rep_NULL d.1 d.2 = _
    rw [cons_memory.set_cdr_other _ _ _ _ _ _ (fun e => hd (congrArg Prod.fst e)),
      (link_block_spec cb _ h.pairs.cons_mem).1 d.1 d.2 (Or.inl hd)]

theorem from_pool_mono (l0 : List (Nat × Nat)) (a : Nat → Option Nat) (k : Nat)
    (c : Nat × Nat) (hc : from_pool l0 a k c) : from_pool l0 a (k + 1) c := by
  rcases hc with hc | ⟨j, h1, h2, h3⟩
  · exact Or.inl hc
  · exact Or.inr ⟨j, h1, Nat.lt_succ_of_lt h2, h3⟩

theorem Heap_Fcons_step (H : Header) (a : Nat → Option Nat) (l0 : List (Nat × Nat)) (k : Nat)
    (car cdr : repv) (h : Heap) (l T : List (Nat × Nat))
    (hl : free_list h.pairs.cons_mem h.pairs.cons_freelist l)
    (hlT : ∀ x ∈ l, x ∉ T) (hlo : ∀ x ∈ l, from_pool l0 a k x)
    (hTo : ∀ d ∈ T, from_pool l0 a k d) (hlen : l0.length ≤ l.length + k)
    (halloc : l0.length ≤ k → ∃ cb, a k = some cb)
    (hfresh : ∀ cb, l0.length ≤ k → a k = some cb → ∀ c ∈ l0, c.1 ≠ cb)
    (hdist : ∀ j cb, l0.length ≤ j → j < k → a j = some cb → a k ≠ some cb) :
    ∃ (c : Nat × Nat) (h1 : Heap) (l1 : List (Nat × Nat)),
      h.Fcons H (a k) car cdr = Except.ok (repv.cons c.1 c.2, h1) ∧ c ∉ T ∧
      (h1.pairs.cons_mem c.1 c.2).car = car ∧ (h1.pairs.cons_mem c.1 c.2).cdr = cdr ∧
      (∀ d ∈ T, h1.pairs.cons_mem d.1 d.2 = h.pairs.cons_mem d.1 d.2) ∧
      free_list h1.pairs.cons_mem h1.pairs.cons_freelist l1 ∧
      (∀ x ∈ l1, x ∉ c :: T) ∧ (∀ x ∈ l1, from_pool l0 a (k + 1) x) ∧
      (∀ d ∈ c :: T, from_pool l0 a (k + 1) d) ∧ l0.length ≤ l1.length + (k + 1) ∧
      h1.Qnil = h.Qnil ∧ h1.allocated_strings = h.allocated_strings ∧
      h1.allocated_string_bytes = h.allocated_string_bytes ∧
      h1.used_vector_slots = h.used_vector_slots := by
  cases l with
  | cons c l1 =>
    obtain ⟨h1, e, hcar, hcdr, hu, hf, q1, q2, q3, q4⟩ :=
      Heap_Fcons_of_free_list H (a k) car cdr h c l1 hl
    have hnd := free_list_nodup hl
    have hcT : c ∉ T := hlT c (List.mem_cons_self _ _)
    refine ⟨c, h1, l1, e, hcT, hcar, hcdr, ?_, hf, ?_, ?_, ?_, ?_, q1, q2, q3, q4⟩
    · intro d hd
      exact hu d (fun e => hcT (e ▸ hd))
    · intro x hx hm
      rcases List.mem_cons.mp hm with e | hm
      · exact (List.nodup_cons.mp hnd).1 (e ▸ hx)
      · exact hlT x (List.mem_cons_of_mem _ hx) hm
    · intro x hx
      exact from_pool_mono l0 a k x (hlo x (List.mem_cons_of_mem _ hx))
    · intro d hd
      rcases List.mem_cons.mp hd with e | hd
      · rw [e]
        exact from_pool_mono l0 a k c (hlo c (List.mem_cons_self _ _))
      · exact from_pool_mono l0 a k d (hTo d hd)
    · simp only [List.length_cons] at hlen
      omega
  | nil =>
    have hk : l0.length ≤ k := by simpa using hlen
    obtain ⟨cb, ha⟩ := halloc hk
    have hnull : h.pairs.cons_freelist = rep_NULL := hl
    obtain ⟨h1, e, hcar, hcdr, hu, hf, q1, q2, q3, q4⟩ :=
      Heap_Fcons_fresh_block H cb car cdr h hnull
    have hblk : ∀ d, from_pool l0 a k d → d.1 ≠ cb := by
      intro d hd
      rcases hd with hd | ⟨j, h1, h2, h3⟩
      · exact hfresh cb hk ha d hd
      · intro e
        rw [e] at h3
        exact hdist j cb h1 h2 h3 ha
    have hnew : ∀ x ∈ (List.range' 1 (H.rep_CONSBLK_SIZE - 1)).map (fun i => (cb, i)),
        x.1 = cb ∧ 1 ≤ x.2 := by
      intro x hx
      obtain ⟨i, hi, rfl⟩ := List.mem_map.mp hx
      exact ⟨rfl, (List.mem_range'_1.mp hi).1⟩
    have hcT : (cb, 0) ∉ T := fun hm => hblk (cb, 0) (hTo _ hm) rfl
    refine ⟨(cb, 0), h1, _, by rw [ha]; exact e, hcT, hcar, hcdr, ?_, hf, ?_, ?_, ?_, ?_,
      q1, q2, q3, q4⟩
    · intro d hd
      exact hu d (hblk d (hTo d hd))
    · intro x hx hm
      obtain ⟨hx1, hx2⟩ := hnew x hx
      rcases List.mem_cons.mp hm with e | hm
      · rw [e] at hx2
        exact absurd hx2 (Nat.not_succ_le_zero 0)
      · exact hblk x (hTo x hm) hx1
    · intro x hx
      exact Or.inr ⟨k, hk, Nat.lt_succ_self k, (hnew x hx).1 ▸ ha⟩
    · intro d hd
      rcases List.mem_cons.mp hd with e | hd
      · rw [e]
        exact Or.inr ⟨k, hk, Nat.lt_succ_self k, ha⟩
      · exact from_pool_mono l0 a k d (hTo d hd)
    · omega

theorem Fgarbage_collect_stats_list (H : Header) (Y : gc_externs) (a : Nat → Option Nat)
    (h : Heap) (l0 : List (Nat × Nat))
    (hl : free_list h.pairs.cons_mem h.pairs.cons_freelist l0)
    (halloc : ∀ k, k < 7 → l0.length ≤ k → ∃ cb, a k = some cb)
    (hfresh : ∀ k cb, k < 7 → l0.length ≤ k → a k = some cb → ∀ c ∈ l0, c.1 ≠ cb)
    (hdist : ∀ j k cb, k < 7 → l0.length ≤ j → j < k → a j = some cb → a k ≠ some cb) :
    ∃ v h2, Fgarbage_collect_stats H Y a h = Except.ok (v, h2) ∧
      is_statistics_list Y h h2 v := by
  obtain ⟨c0, h1, l1, e1, -, car1, cdr1, u1, fl1, d1, o1, t1, len1,
      q1, as1, ab1, uv1⟩ :=
    Heap_Fcons_step H a l0 0 (repv.int h.pairs.used_cons)
      (repv.int (h.pairs.allocated_cons - h.pairs.used_cons)) h
      l0 [] hl (fun _ _ hm => List.not_mem_nil _ hm)
      (fun x hx => Or.inl hx) (fun d hd => absurd hd (List.not_mem_nil d))
      (Nat.le_add_right _ _)
      (halloc 0 (by decide)) (fun cb => hfresh 0 cb (by decide))
      (fun j cb => hdist j 0 cb (by decide))
  obtain ⟨c1, h2, l2, e2, -, car2, cdr2, u2, fl2, d2, o2, t2, len2,
      q2, as2, ab2, uv2⟩ :=
    Heap_Fcons_step H a l0 1 (repv.int Y.rep_used_symbols)
      (repv.int (Y.rep_allocated_symbols - Y.rep_used_symbols)) h1
      l1 [c0] fl1 d1 o1 t1 len1
      (halloc 1 (by decide)) (fun cb => hfresh 1 cb (by decide))
      (fun j cb => hdist j 1 cb (by decide))
  obtain ⟨c2, h3, l3, e3, -, car3, cdr3, u3, fl3, d3, o3, t3, len3,
      q3, as3, ab3, uv3⟩ :=
    Heap_Fcons_step H a l0 2 (repv.int h2.allocated_strings)
      (repv.int h2.allocated_string_bytes) h2
      l2 [c1, c0] fl2 d2 o2 t2 len2
      (halloc 2 (by decide)) (fun cb => hfresh 2 cb (by decide))
      (fun j cb => hdist j 2 cb (by decide))
  obtain ⟨c3, h4, l4, e4, -, car4, cdr4, u4, fl4, d4, o4, t4, len4,
      q4, as4, ab4, uv4⟩ :=
    Heap_Fcons_step H a l0 3 (repv.int h3.used_vector_slots)
      h3.Qnil h3
      l3 [c2, c1, c0] fl3 d3 o3 t3 len3
      (halloc 3 (by decide)) (fun cb => hfresh 3 cb (by decide))
      (fun j cb => hdist j 3 cb (by decide))
  obtain ⟨c4, h5, l5, e5, -, car5, cdr5, u5, fl5, d5, o5, t5, len5,
      q5, as5, ab5, uv5⟩ :=
    Heap_Fcons_step H a l0 4 (repv.cons c2.1 c2.2)
      (repv.cons c3.1 c3.2) h4
      l4 [c3, c2, c1, c0] fl4 d4 o4 t4 len4
      (halloc 4 (by decide)) (fun cb => hfresh 4 cb (by decide))
      (fun j cb => hdist j 4 cb (by decide))
  obtain ⟨c5, h6, l6, e6, -, car6, cdr6, u6, fl6, d6, o6, t6, len6,
      q6, as6, ab6, uv6⟩ :=
    Heap_Fcons_step H a l0 5 (repv.cons c1.1 c1.2)
      (repv.cons c4.1 c4.2) h5
      l5 [c4, c3, c2, c1, c0] fl5 d5 o5 t5 len5
      (halloc 5 (by decide)) (fun cb => hfresh 5 cb (by decide))
      (fun j cb => hdist j 5 cb (by decide))
  obtain ⟨c6, h7, l7, e7, -, car7, cdr7, u7, fl7, d7, o7, t7, len7,
      q7, as7, ab7, uv7⟩ :=
    Heap_Fcons_step H a l0 6 (repv.cons c0.1 c0.2)
      (repv.cons c5.1 c5.2) h6
      l6 [c5, c4, c3, c2, c1, c0] fl6 d6 o6 t6 len6
      (halloc 6 (by decide)) (fun cb => hfresh 6 cb (by decide))
      (fun j cb => hdist j 6 cb (by decide))
  refine ⟨repv.cons c6.1 c6.2, h7,
    by simp only [Fgarbage_collect_stats, rep_LIST_4, e1, e2, e3, e4, e5, e6, e7], ?_⟩
  have m0 : h7.pairs.cons_mem c0.1 c0.2 = h1.pairs.cons_mem c0.1 c0.2 := by
    rw [u7 c0 (by simp), u6 c0 (by simp), u5 c0 (by simp), u4 c0 (by simp), u3 c0 (by simp), u2 c0 (by simp)]
  have m1 : h7.pairs.cons_mem c1.1 c1.2 = h2.pairs.cons_mem c1.1 c1.2 := by
    rw [u7 c1 (by simp), u6 c1 (by simp), u5 c1 (by simp), u4 c1 (by simp), u3 c1 (by simp)]
  have m2 : h7.pairs.cons_mem c2.1 c2.2 = h3.pairs.cons_mem c2.1 c2.2 := by
    rw [u7 c2 (by simp), u6 c2 (by simp), u5 c2 (by simp), u4 c2 (by simp)]
  have m3 : h7.pairs.cons_mem c3.1 c3.2 = h4.pairs.cons_mem c3.1 c3.2 := by
    rw [u7 c3 (by simp), u6 c3 (by simp), u5 c3 (by simp)]
  have m4 : h7.pairs.cons_mem c4.1 c4.2 = h5.pairs.cons_mem c4.1 c4.2 := by
    rw [u7 c4 (by simp), u6 c4 (by simp)]
  have m5 : h7.pairs.cons_mem c5.1 c5.2 = h6.pairs.cons_mem c5.1 c5.2 := by
    rw [u7 c5 (by simp)]
  have hq : h7.Qnil = h3.Qnil := by rw [q7, q6, q5, q4]
  refine ⟨c6, c5, c4, c3, c0, c1, c2, ⟨rfl, ?_⟩, car7, ?_, ?_, ?_, ?_, ?_, ?_, ?_, ?_, ?_⟩
  · rw [cdr7]
    refine ⟨rfl, ?_⟩
    rw [m5, cdr6]
    refine ⟨rfl, ?_⟩
    rw [m4, cdr5]
    refine ⟨rfl, ?_⟩
    rw [m3, cdr4]
    exact hq.symm
  · rw [m5, car6]
  · rw [m4, car5]
  · rw [m3, car4, uv3, uv2, uv1]
  · rw [m0, car1]
  · rw [m0, cdr1]
  · rw [m1, car2]
  · rw [m1, cdr2]
  · rw [m2, car3, as2, as1]
  · rw [m2, cdr3, ab2, ab1]

/-- C21 as amended: the counter is 0 on return only when no statistics list
is built.  When the marking and sweeping of `Fgarbage_collect` have run to
their end, leaving the heap `h1`, the flag `rep_in_gc` is clear and
`rep_data_after_gc` is 0 there.  With a non-nil `noStats` the function
returns `Qt` and that heap.  With a nil `noStats` it goes on to build the
statistics list with seven calls of `Fcons`: whenever it returns, the flag is
clear and the counter is 7 times `sizeof (rep_cons)`; and it does return, with
the four-element statistics list, when the free-list is well formed and
every call of `Fcons` that finds it empty gets a block of its own. -/
theorem Fgarbage_collect_spec (H : Header) (M : mark_env) (X : gc_callbacks) (fuel : Nat)
    (G : gc_inputs) (Y : gc_externs) (a : Nat → Option Nat) (noStats : repv) (h h1 : Heap)
    (n : Nat)
    (hrun : Fgarbage_collect_run (gc_act M X fuel) G (mark_outcome.done h 0) =
      mark_outcome.done h1 n) :
    h1.rep_in_gc = false ∧ h1.pairs.rep_data_after_gc = 0 ∧
      (noStats ≠ h1.Qnil →
        Fgarbage_collect H M X fuel G Y a noStats h = gc_outcome.returned Y.Qt h1) ∧
      (noStats = h1.Qnil →
        (∀ v h2, Fgarbage_collect H M X fuel G Y a noStats h = gc_outcome.returned v h2 →
          h2.rep_in_gc = false ∧ h2.pairs.rep_data_after_gc = 7 * H.sizeof_rep_cons) ∧
        ∀ l0 : List (Nat × Nat),
          free_list h1.pairs.cons_mem h1.pairs.cons_freelist l0 →
          (∀ k, k < 7 → l0.length ≤ k → ∃ cb, a k = some cb) →
          (∀ k cb, k < 7 → l0.length ≤ k → a k = some cb → ∀ c ∈ l0, c.1 ≠ cb) →
          (∀ j k cb, k < 7 → l0.length ≤ j → j < k → a j = some cb → a k ≠ some cb) →
          ∃ v h2, Fgarbage_collect H M X fuel G Y a noStats h = gc_outcome.returned v h2 ∧
            is_statistics_list Y h1 h2 v) := by
  obtain ⟨hflag, hcount⟩ := Fgarbage_collect_run_end M X fuel G h h1 n hrun
  refine ⟨hflag, hcount, ?_, ?_⟩
  · intro hn
    simp only [Fgarbage_collect, hrun, if_neg hn]
  · intro hn
    have hfun : Fgarbage_collect H M X fuel G Y a noStats h =
        match Fgarbage_collect_stats H Y a h1 with
        | Except.ok (v, h2) => gc_outcome.returned v h2
        | Except.error e => gc_outcome.fault e := by
      simp only [Fgarbage_collect, hrun, if_pos hn]
    refine ⟨?_, ?_⟩
    · intro v h2 hret
      rw [hfun] at hret
      cases hs : Fgarbage_collect_stats H Y a h1 with
      | error e =>
        rw [hs] at hret
        exact absurd hret (by simp)
      | ok r =>
        obtain ⟨v1, h3⟩ := r
        rw [hs] at hret
        simp only [gc_outcome.returned.injEq] at hret
        obtain ⟨k1, k2⟩ := Fgarbage_collect_stats_frame H Y a h1 h3 v1 hs
        rw [← hret.2, k1, k2, hcount, hflag]
        exact ⟨rfl, by ring⟩
    · intro l0 hl halloc hfresh hdist
      obtain ⟨v, h2, e, hlist⟩ :=
        Fgarbage_collect_stats_list H Y a h1 l0 hl halloc hfresh hdist
      exact ⟨v, h2, by rw [hfun, e], hlist⟩

/-- Witness of C21 as amended: a collection with nothing to mark or sweep on
the heap at program start, called with a nil `noStats`; the seven pairs of
the statistics list come from two fresh blocks. -/
theorem Fgarbage_collect_spec_witness :
    Fgarbage_collect_run (gc_act sample_mark_env sample_gc_callbacks 1) sample_gc_inputs
        (mark_outcome.done Heap.init 0) = mark_outcome.done Heap.init 0 ∧
      free_list Heap.init.pairs.cons_mem Heap.init.pairs.cons_freelist [] ∧
      (∀ v h2, Fgarbage_collect sample_header sample_mark_env sample_gc_callbacks 1
          sample_gc_inputs sample_gc_externs sample_blocks (repv.cell 8) Heap.init =
          gc_outcome.returned v h2 →
        h2.rep_in_gc = false ∧
          h2.pairs.rep_data_after_gc = 7 * sample_header.sizeof_rep_cons) ∧
      ∃ v h2, Fgarbage_collect sample_header sample_mark_env sample_gc_callbacks 1
          sample_gc_inputs sample_gc_externs sample_blocks (repv.cell 8) Heap.init =
          gc_outcome.returned v h2 ∧
        is_statistics_list sample_gc_externs Heap.init h2 v :=
  have hs := Fgarbage_collect_spec sample_header sample_mark_env sample_gc_callbacks 1
    sample_gc_inputs sample_gc_externs sample_blocks (repv.cell 8) Heap.init Heap.init 0 rfl
  ⟨rfl, rfl, (hs.2.2.2 rfl).1,
    (hs.2.2.2 rfl).2 [] rfl (fun _ _ _ => ⟨_, rfl⟩)
      (fun _ _ _ _ _ c hc => absurd hc (List.not_mem_nil c))
      (fun j k cb _ _ hjk hj hk => by
        simp only [sample_blocks, Option.some.injEq] at hj hk
        omega)⟩

/-! ### String bytes: allocation against sweep -/

/-- C22, at the failing input: two strings made by `rep_make_string (6)` and
`rep_make_string (1)` are the whole chain and are counted with
`rep_DSTRING_SIZE (6) + rep_DSTRING_SIZE (1)`, 55 bytes; their recorded
lengths are 5 and 0.  With both strings marked, `string_sweep` keeps both
(the count stays 2, the marks are cleared) and leaves `allocated_string_bytes`
at `rep_DSTRING_SIZE (5) + rep_DSTRING_SIZE (0)`, 53 bytes: one byte less
for each surviving string. -/
theorem string_sweep_bytes_drift :
    sample_two_strings.strings = [2008, 2000] ∧
      sample_two_strings.allocated_strings = 2 ∧
      sample_two_strings.allocated_string_bytes = 55 ∧
      rep_STRING_LEN (sample_two_strings.cells 2000) = 5 ∧
      rep_STRING_LEN (sample_two_strings.cells 2008) = 0 ∧
      (string_sweep sample_sizes
        ((sample_two_strings.set_mark (repv.cell 2000)).set_mark (repv.cell 2008))).strings =
        [2000, 2008] ∧
      (string_sweep sample_sizes
        ((sample_two_strings.set_mark (repv.cell 2000)).set_mark
          (repv.cell 2008))).allocated_strings = 2 ∧
      (string_sweep sample_sizes
        ((sample_two_strings.set_mark (repv.cell 2000)).set_mark
          (repv.cell 2008))).allocated_string_bytes = 53 ∧
      (string_sweep sample_sizes
        ((sample_two_strings.set_mark (repv.cell 2000)).set_mark
          (repv.cell 2008))).freed_cells = [] := by
  refine ⟨rfl, rfl, rfl, rfl, rfl, rfl, rfl, rfl, rfl⟩


/-! ### Termination of marking -/

theorem user_cell_type_congr {h h0 : Heap} (hs : h.clear_marks = h0.clear_marks) (x : repv) :
    user_cell_type h x = user_cell_type h0 x := by
  obtain ⟨_, _, _, _, h5⟩ := clear_marks_fields hs
  cases x with
  | null => rfl
  | int n => rfl
  | cons b i => rfl
  | cell a => simp only [user_cell_type, h5]

theorem rep_visitable_congr (d : Bool) {h h0 : Heap} (hs : h.clear_marks = h0.clear_marks)
    (x : repv) : rep_visitable d h x = rep_visitable d h0 x := by
  unfold rep_visitable
  rw [rep_markable_congr d hs, user_cell_congr hs]

theorem rep_visitable_of_not_pointer (d : Bool) (h : Heap) (x : repv)
    (hx : x = rep_NULL ∨ rep_INTP x = true) : rep_visitable d h x = false := by
  cases x with
  | null => rfl
  | int n => rfl
  | cons b i => rcases hx with hx | hx <;> simp [rep_INTP] at hx
  | cell a => rcases hx with hx | hx <;> simp [rep_INTP] at hx

theorem rep_GC_MARKEDP_set_mark_cell (h : Heap) (a : Nat) :
    rep_GC_MARKEDP (h.set_mark (repv.cell a)) (repv.cell a) = true := by
  show (h.cells.set a _ a).mark = true
  rw [cell_memory.set_eq]

theorem rep_mark_visit_user (M : mark_env) (h : Heap) (a t : Nat) (d : rep_type)
    (hb : (h.cells a).body = cell_body.other t ∨ (h.cells a).body = cell_body.cell16 t)
    (hd : rep_get_data_type M.registry t = Except.ok d) :
    rep_mark_visit M h (repv.cell a) =
      visit_result.node
        (match d.mark with
          | some f => M.call_mark f (repv.cell a) (h.set_mark (repv.cell a))
          | none => h.set_mark (repv.cell a)) [] rep_NULL true := by
  rcases hb with hb | hb
  · simp only [rep_mark_visit, hb, hd]
    cases d.mark <;> rfl
  · simp only [rep_mark_visit, hb, hd]
    cases d.mark <;> rfl

theorem rep_mark_visit_frame (M : mark_env) (h : Heap) (val : repv) (hv : val ≠ rep_NULL)
    (hcb : mark_callbacks_set_marks M)
    (hreg : ∀ t, user_cell_type h val = some t →
      ∃ d, rep_get_data_type M.registry t = Except.ok d) :
    (rep_visitable M.rep_DUMPED h val = false ∧ rep_mark_visit M h val = visit_result.skip) ∨
    (rep_visitable M.rep_DUMPED h val = true ∧ ∃ h1 ch t ci,
      rep_mark_visit M h val = visit_result.node h1 ch t ci ∧
      h1.clear_marks = h.clear_marks ∧
      (∀ x, rep_GC_MARKEDP h x = true → rep_GC_MARKEDP h1 x = true) ∧
      rep_GC_MARKEDP h1 val = true ∧
      ∀ y ∈ ch ++ [t], y = rep_NULL ∨ y ∈ mark_fields M.rep_DUMPED h val) := by
  cases hu : user_cell h val with
  | false =>
    rcases rep_mark_visit_cases M h val hv hu with ⟨hm, e⟩ | ⟨hm, ch, t, ci, e, -, hsup⟩
    · exact Or.inl ⟨by simp [rep_visitable, hm, hu], e⟩
    · exact Or.inr ⟨by simp [rep_visitable, hm], h.set_mark val, ch, t, ci, e,
        clear_marks_set_mark h val, rep_GC_MARKEDP_set_mark h val,
        rep_GC_MARKEDP_set_mark_self _ h val hm, hsup⟩
  | true =>
    refine Or.inr ⟨by simp [rep_visitable, hu], ?_⟩
    cases val with
    | null => simp [user_cell] at hu
    | int n => simp [user_cell] at hu
    | cons b i => simp [user_cell] at hu
    | cell a =>
      have hb : ∃ t, ((h.cells a).body = cell_body.other t ∨
          (h.cells a).body = cell_body.cell16 t) ∧
          user_cell_type h (repv.cell a) = some t := by
        cases hbody : (h.cells a).body with
        | other t => exact ⟨t, Or.inl rfl, by simp [user_cell_type, hbody]⟩
        | cell16 t => exact ⟨t, Or.inr rfl, by simp [user_cell_type, hbody]⟩
        | vector c len array => simp [user_cell, hbody] at hu
        | symbol name value function prop_list next => simp [user_cell, hbody] at hu
        | string len data => simp [user_cell, hbody] at hu
        | funarg env fenv special_env fh_env func => simp [user_cell, hbody] at hu
        | var => simp [user_cell, hbody] at hu
        | subr n => simp [user_cell, hbody] at hu
        | sf => simp [user_cell, hbody] at hu
      obtain ⟨t, hb, ht⟩ := hb
      obtain ⟨d, hd⟩ := hreg t ht
      refine ⟨_, [], rep_NULL, true, rep_mark_visit_user M h a t d hb hd, ?_, ?_, ?_, ?_⟩
      · cases d.mark with
        | none => exact clear_marks_set_mark h _
        | some f => exact (hcb f _ _).1.trans (clear_marks_set_mark h _)
      · intro x hx
        cases d.mark with
        | none => exact rep_GC_MARKEDP_set_mark h _ x hx
        | some f => exact (hcb f _ _).2 x (rep_GC_MARKEDP_set_mark h _ x hx)
      · cases d.mark with
        | none => exact rep_GC_MARKEDP_set_mark_cell h a
        | some f => exact (hcb f _ _).2 _ (rep_GC_MARKEDP_set_mark_cell h a)
      · intro y hy
        left
        simpa using hy

theorem unvisited_count_mono (d : Bool) (h0 : Heap) (U : List repv) (h h1 : Heap)
    (hm : ∀ x, rep_GC_MARKEDP h x = true → rep_GC_MARKEDP h1 x = true) :
    unvisited_count d h0 U h1 ≤ unvisited_count d h0 U h := by
  apply filter_length_le_of_imp
  intro a ha
  simp only [Bool.and_eq_true, Bool.not_eq_true', Bool.not_eq_eq_eq_not, Bool.not_true] at ha ⊢
  refine ⟨ha.1, ?_⟩
  cases hx : rep_GC_MARKEDP h a with
  | false => rfl
  | true =>
    rw [hm a hx] at ha
    exact absurd ha.2 (by decide)

theorem unvisited_count_lt (d : Bool) (h0 : Heap) (U : List repv) (h h1 : Heap)
    (hm : ∀ x, rep_GC_MARKEDP h x = true → rep_GC_MARKEDP h1 x = true) (val : repv)
    (hU : val ∈ U) (hv : rep_visitable d h0 val = true) (hu : rep_GC_MARKEDP h val = false)
    (hv1 : rep_GC_MARKEDP h1 val = true) :
    unvisited_count d h0 U h1 < unvisited_count d h0 U h := by
  apply filter_length_lt_of_imp _ _ U _ val hU
  · simp [hv, hu]
  · simp [hv1]
  · intro a ha
    simp only [Bool.and_eq_true, Bool.not_eq_true', Bool.not_eq_eq_eq_not, Bool.not_true] at ha ⊢
    refine ⟨ha.1, ?_⟩
    cases hx : rep_GC_MARKEDP h a with
    | false => rfl
    | true =>
      rw [hm a hx] at ha
      exact absurd ha.2 (by decide)

theorem unvisited_count_le_length (d : Bool) (h0 : Heap) (U : List repv) (h : Heap) :
    unvisited_count d h0 U h ≤ U.length :=
  List.length_filter_le _ _

theorem rep_MARKVAL_list_frame (M : mark_env) (h0 : Heap) (U : List repv) (fuel : Nat)
    (hP : ∀ h val, h.clear_marks = h0.clear_marks → val ∈ U → val ≠ rep_NULL →
      rep_GC_MARKEDP h val = false → unvisited_count M.rep_DUMPED h0 U h < fuel →
      ∃ h1 n, rep_mark_value M fuel h val = mark_outcome.done h1 n ∧
        h1.clear_marks = h0.clear_marks ∧
        ∀ x, rep_GC_MARKEDP h x = true → rep_GC_MARKEDP h1 x = true) :
    ∀ (xs : List repv) (h : Heap), h.clear_marks = h0.clear_marks →
      (∀ y ∈ xs, y = rep_NULL ∨ y ∈ U) → unvisited_count M.rep_DUMPED h0 U h < fuel →
      ∃ h1 n, rep_MARKVAL_list (rep_mark_value M fuel) h xs = mark_outcome.done h1 n ∧
        h1.clear_marks = h0.clear_marks ∧
        ∀ x, rep_GC_MARKEDP h x = true → rep_GC_MARKEDP h1 x = true := by
  intro xs
  induction xs with
  | nil =>
    intro h hs _ _
    exact ⟨h, 0, rfl, hs, fun _ hx => hx⟩
  | cons x xs ih =>
    intro h hs hxs hlt
    have step : ∃ h1 n, rep_MARKVAL (rep_mark_value M fuel) h x = mark_outcome.done h1 n ∧
        h1.clear_marks = h0.clear_marks ∧
        ∀ y, rep_GC_MARKEDP h y = true → rep_GC_MARKEDP h1 y = true := by
      by_cases hc : x ≠ rep_NULL ∧ rep_INTP x = false ∧ rep_GC_MARKEDP h x = false
      · have hxU : x ∈ U := by
          rcases hxs x (List.mem_cons_self x xs) with e | hx
          · exact absurd e hc.1
          · exact hx
        obtain ⟨h1, n, e, p1, p2⟩ := hP h x hs hxU hc.1 hc.2.2 hlt
        exact ⟨h1, n + 1, by simp only [rep_MARKVAL, if_pos hc, e], p1, p2⟩
      · exact ⟨h, 0, by simp only [rep_MARKVAL, if_neg hc], hs, fun _ hy => hy⟩
    obtain ⟨h1, n, e1, s1, m1⟩ := step
    obtain ⟨h2, m, e2, s2, m2⟩ := ih h1 s1
      (fun y hy => hxs y (List.mem_cons_of_mem x hy))
      (Nat.lt_of_le_of_lt (unvisited_count_mono _ h0 U h h1 m1) hlt)
    exact ⟨h2, n + m, by simp only [rep_MARKVAL_list, e1, e2], s2,
      fun y hy => m2 y (m1 y hy)⟩

theorem rep_mark_value_frame_step (M : mark_env) (h0 : Heap) (U : List repv)
    (hclosed : ∀ x ∈ U, ∀ y ∈ mark_fields M.rep_DUMPED h0 x, y = rep_NULL ∨ y ∈ U)
    (hcb : mark_callbacks_set_marks M)
    (hreg : ∀ x ∈ U, ∀ t, user_cell_type h0 x = some t →
      ∃ d, rep_get_data_type M.registry t = Except.ok d)
    (fuel : Nat)
    (hP : ∀ h val, h.clear_marks = h0.clear_marks → val ∈ U → val ≠ rep_NULL →
      rep_GC_MARKEDP h val = false → unvisited_count M.rep_DUMPED h0 U h < fuel →
      ∃ h1 n, rep_mark_value M fuel h val = mark_outcome.done h1 n ∧
        h1.clear_marks = h0.clear_marks ∧
        ∀ x, rep_GC_MARKEDP h x = true → rep_GC_MARKEDP h1 x = true)
    (h : Heap) (val : repv) (hs : h.clear_marks = h0.clear_marks) (hU : val ∈ U)
    (hv : val ≠ rep_NULL)
    (hlt1 : ∀ h1, (∀ x, rep_GC_MARKEDP h x = true → rep_GC_MARKEDP h1 x = true) →
      rep_GC_MARKEDP h1 val = true → unvisited_count M.rep_DUMPED h0 U h1 < fuel) :
    ∃ h1 n, rep_mark_value M (fuel + 1) h val = mark_outcome.done h1 n ∧
      h1.clear_marks = h0.clear_marks ∧
      (∀ x, rep_GC_MARKEDP h x = true → rep_GC_MARKEDP h1 x = true) ∧
      (rep_visitable M.rep_DUMPED h0 val = true → rep_GC_MARKEDP h1 val = true) := by
  have hreg1 : ∀ t, user_cell_type h val = some t →
      ∃ d, rep_get_data_type M.registry t = Except.ok d := by
    intro t ht
    rw [user_cell_type_congr hs] at ht
    exact hreg val hU t ht
  rcases rep_mark_visit_frame M h val hv hcb hreg1 with
    ⟨hm, e⟩ | ⟨hm, h1, ch, t, ci, e, hs1, hm1, hself, hsup⟩
  · refine ⟨h, 0, by simp only [rep_mark_value, e], hs, fun _ hx => hx, ?_⟩
    intro hvis
    rw [← rep_visitable_congr _ hs, hm] at hvis
    exact absurd hvis (by decide)
  · rw [mark_fields_congr _ hs] at hsup
    have hin : ∀ y ∈ ch ++ [t], y = rep_NULL ∨ y ∈ U := by
      intro y hy
      rcases hsup y hy with e | hf
      · exact Or.inl e
      · exact hclosed val hU y hf
    have hlt : unvisited_count M.rep_DUMPED h0 U h1 < fuel := hlt1 h1 hm1 hself
    obtain ⟨h2, n, e2, s2, m2⟩ := rep_MARKVAL_list_frame M h0 U fuel hP ch h1 (hs1.trans hs)
      (fun y hy => hin y (List.mem_append_left _ hy)) hlt
    have hlt2 : unvisited_count M.rep_DUMPED h0 U h2 < fuel :=
      Nat.lt_of_le_of_lt (unvisited_count_mono _ h0 U _ h2 m2) hlt
    have hrun : rep_mark_value M (fuel + 1) h val =
        if t ≠ rep_NULL ∧ (ci = true → rep_INTP t = false) ∧
            rep_GC_MARKEDP h2 t = false then
          match rep_mark_value M fuel h2 t with
          | mark_outcome.done h3 m => mark_outcome.done h3 (n + m)
          | o => o
        else mark_outcome.done h2 n := by
      simp only [rep_mark_value, e, e2]
    by_cases hc : t ≠ rep_NULL ∧ (ci = true → rep_INTP t = false) ∧
        rep_GC_MARKEDP h2 t = false
    · have htU : t ∈ U := by
        rcases hin t (List.mem_append_right _ (List.mem_singleton.mpr rfl)) with e | ht
        · exact absurd e hc.1
        · exact ht
      obtain ⟨h3, m, e3, s3, m3⟩ := hP h2 t s2 htU hc.1 hc.2.2 hlt2
      exact ⟨h3, n + m, by rw [hrun, if_pos hc, e3], s3,
        fun x hx => m3 x (m2 x (hm1 x hx)), fun _ => m3 val (m2 val hself)⟩
    · exact ⟨h2, n, by rw [hrun, if_neg hc], s2, fun x hx => m2 x (hm1 x hx),
        fun _ => m2 val hself⟩

theorem rep_mark_value_frame (M : mark_env) (h0 : Heap) (U : List repv)
    (hclosed : ∀ x ∈ U, ∀ y ∈ mark_fields M.rep_DUMPED h0 x, y = rep_NULL ∨ y ∈ U)
    (hcb : mark_callbacks_set_marks M)
    (hreg : ∀ x ∈ U, ∀ t, user_cell_type h0 x = some t →
      ∃ d, rep_get_data_type M.registry t = Except.ok d) :
    ∀ (fuel : Nat) (h : Heap) (val : repv), h.clear_marks = h0.clear_marks → val ∈ U →
      val ≠ rep_NULL → rep_GC_MARKEDP h val = false →
      unvisited_count M.rep_DUMPED h0 U h < fuel →
      ∃ h1 n, rep_mark_value M fuel h val = mark_outcome.done h1 n ∧
        h1.clear_marks = h0.clear_marks ∧
        ∀ x, rep_GC_MARKEDP h x = true → rep_GC_MARKEDP h1 x = true := by
  intro fuel
  induction fuel with
  | zero =>
    intro h val _ _ _ _ hlt
    exact absurd hlt (Nat.not_lt_zero _)
  | succ fuel ih =>
    intro h val hs hU hv hum hlt
    by_cases hvis : rep_visitable M.rep_DUMPED h0 val = true
    · obtain ⟨h1, n, e, s1, m1, -⟩ := rep_mark_value_frame_step M h0 U hclosed hcb hreg fuel ih
        h val hs hU hv (fun h1 hm hself => by
          have := unvisited_count_lt M.rep_DUMPED h0 U h h1 hm val hU hvis hum hself
          omega)
      exact ⟨h1, n, e, s1, m1⟩
    · have hreg1 : ∀ t, user_cell_type h val = some t →
          ∃ d, rep_get_data_type M.registry t = Except.ok d := by
        intro t ht
        rw [user_cell_type_congr hs] at ht
        exact hreg val hU t ht
      rcases rep_mark_visit_frame M h val hv hcb hreg1 with ⟨-, e⟩ | ⟨hm, -⟩
      · exact ⟨h, 0, by simp only [rep_mark_value, e], hs, fun _ hx => hx⟩
      · rw [rep_visitable_congr _ hs] at hm
        exact absurd hm hvis

/-- C23: `rep_mark_value` terminates on every finite heap, cyclic or not,
whatever is marked already.  Let `U` be a finite list of values that holds
`v` and every non-null member followed from a cell of `U`; let the types of
the cells of registered types in `U` be registered, and let the `mark`
operations of the types return having set mark bits only.  For `v` not null
and every fuel above the length of `U` plus one, `rep_mark_value` returns: it
has changed mark bits only and cleared none, the number of unmarked cells of
`U` that marking visits has not grown, and it is strictly smaller when `v`
is such a cell and was not marked. -/
theorem rep_mark_value_terminates (M : mark_env) (h : Heap) (v : repv) (U : List repv)
    (hv : v ≠ rep_NULL) (hU : v ∈ U)
    (hclosed : ∀ x ∈ U, ∀ y ∈ mark_fields M.rep_DUMPED h x, y = rep_NULL ∨ y ∈ U)
    (hcb : mark_callbacks_set_marks M)
    (hreg : ∀ x ∈ U, ∀ t, user_cell_type h x = some t →
      ∃ d, rep_get_data_type M.registry t = Except.ok d)
    (fuel : Nat) (hfuel : U.length + 1 < fuel) :
    ∃ h1 n, rep_mark_value M fuel h v = mark_outcome.done h1 n ∧
      h1.clear_marks = h.clear_marks ∧
      (∀ x, rep_GC_MARKEDP h x = true → rep_GC_MARKEDP h1 x = true) ∧
      unvisited_count M.rep_DUMPED h U h1 ≤ unvisited_count M.rep_DUMPED h U h ∧
      (rep_visitable M.rep_DUMPED h v = true → rep_GC_MARKEDP h v = false →
        unvisited_count M.rep_DUMPED h U h1 < unvisited_count M.rep_DUMPED h U h) := by
  obtain ⟨f, rfl⟩ : ∃ f, fuel = f + 1 := ⟨fuel - 1, by omega⟩
  obtain ⟨h1, n, e, s1, m1, r1⟩ := rep_mark_value_frame_step M h U hclosed hcb hreg f
    (rep_mark_value_frame M h U hclosed hcb hreg f) h v rfl hU hv
    (fun h1 _ _ => Nat.lt_of_le_of_lt (unvisited_count_le_length _ h U h1) (by omega))
  refine ⟨h1, n, e, s1, m1, unvisited_count_mono _ h U h h1 m1, ?_⟩
  intro hvis hum
  exact unvisited_count_lt _ h U h h1 m1 v hU hvis hum (r1 hvis)

/-- Witness of C23: the sample heap in which a pair is its own tail, a vector
holds itself and two symbols are each other's values, marked from the
pair. -/
theorem rep_mark_value_terminates_witness :
    repv.cons 100 0 ≠ rep_NULL ∧
      (∀ x ∈ [repv.cons 100 0, repv.cell 1000, repv.cell 24, repv.cell 32, repv.cell 48],
        ∀ y ∈ mark_fields sample_user_mark_env.rep_DUMPED sample_self_heap x, y = rep_NULL ∨
          y ∈ [repv.cons 100 0, repv.cell 1000, repv.cell 24, repv.cell 32, repv.cell 48]) ∧
      mark_callbacks_set_marks sample_user_mark_env ∧
      user_cell_type sample_self_heap (repv.cell 48) = some 33 ∧
      ∃ h1 n, rep_mark_value sample_user_mark_env 7 sample_self_heap (repv.cons 100 0) =
          mark_outcome.done h1 n ∧
        h1.clear_marks = sample_self_heap.clear_marks ∧
        (∀ x, rep_GC_MARKEDP sample_self_heap x = true → rep_GC_MARKEDP h1 x = true) ∧
        unvisited_count sample_user_mark_env.rep_DUMPED sample_self_heap
            [repv.cons 100 0, repv.cell 1000, repv.cell 24, repv.cell 32, repv.cell 48] h1 ≤
          unvisited_count sample_user_mark_env.rep_DUMPED sample_self_heap
            [repv.cons 100 0, repv.cell 1000, repv.cell 24, repv.cell 32, repv.cell 48]
            sample_self_heap ∧
        (rep_visitable sample_user_mark_env.rep_DUMPED sample_self_heap (repv.cons 100 0) =
            true →
          rep_GC_MARKEDP sample_self_heap (repv.cons 100 0) = false →
          unvisited_count sample_user_mark_env.rep_DUMPED sample_self_heap
              [repv.cons 100 0, repv.cell 1000, repv.cell 24, repv.cell 32, repv.cell 48] h1 <
            unvisited_count sample_user_mark_env.rep_DUMPED sample_self_heap
              [repv.cons 100 0, repv.cell 1000, repv.cell 24, repv.cell 32, repv.cell 48]
              sample_self_heap) :=
  have hclosed : ∀ x ∈ [repv.cons 100 0, repv.cell 1000, repv.cell 24, repv.cell 32,
      repv.cell 48],
      ∀ y ∈ mark_fields sample_user_mark_env.rep_DUMPED sample_self_heap x, y = rep_NULL ∨
        y ∈ [repv.cons 100 0, repv.cell 1000, repv.cell 24, repv.cell 32, repv.cell 48] := by
    decide
  have hcb : mark_callbacks_set_marks sample_user_mark_env := fun _ _ h =>
    ⟨clear_marks_set_mark h (repv.cell 24), rep_GC_MARKEDP_set_mark h (repv.cell 24)⟩
  have hreg : ∀ x ∈ [repv.cons 100 0, repv.cell 1000, repv.cell 24, repv.cell 32,
      repv.cell 48], ∀ t, user_cell_type sample_self_heap x = some t →
      ∃ d, rep_get_data_type sample_user_mark_env.registry t = Except.ok d := by
    intro x hx t ht
    have h33 : t = 33 := by
      simp only [List.mem_cons, List.mem_singleton, List.not_mem_nil, or_false] at hx
      rcases hx with rfl | rfl | rfl | rfl | rfl <;>
        simp [user_cell_type, sample_self_heap, Heap.init] at ht
      exact ht.symm
    rw [h33]
    exact ⟨sample_marking_type, rfl⟩
  ⟨by decide, hclosed, hcb, rfl,
    rep_mark_value_terminates sample_user_mark_env sample_self_heap (repv.cons 100 0)
      [repv.cons 100 0, repv.cell 1000, repv.cell 24, repv.cell 32, repv.cell 48]
      (by decide) (by decide) hclosed hcb hreg 7 (by decide)⟩

/-! ### Copies of strings -/

theorem store_bytes_fresh (bs : List Nat) (m : Nat) :
    store_bytes (List.replicate (bs.length + m) 0) 0 bs = some (bs ++ List.replicate m 0) := by
  unfold store_bytes
  rw [if_pos (by simp)]
  simp

theorem store_bytes_over (pre mid bs : List Nat) (hlen : mid.length = bs.length) :
    store_bytes (pre ++ mid) pre.length bs = some (pre ++ bs) := by
  unfold store_bytes
  rw [if_pos (by simp [hlen])]
  have hd : List.drop (pre.length + bs.length) (pre ++ mid) = [] := by
    apply List.drop_eq_nil_of_le
    simp [hlen]
  rw [hd]
  simp

theorem rep_STR_store_string (h : Heap) (a : Nat) (len : Int) (data d : List Nat) (off : Nat)
    (bs : List Nat) (hb : (h.cells a).body = cell_body.string len data)
    (hst : store_bytes data off bs = some d) :
    rep_STR_store h (repv.cell a) off bs = Except.ok
      { h with cells := h.cells.set a { h.cells a with body := cell_body.string len d } } := by
  simp only [rep_STR_store, hb, hst]

theorem rep_make_string_ok (H : Header) (Z : Sizes) (E : Signals) (cb_alloc : Option Nat)
    (a : Nat) (len : Int) (h : Heap) (hle : len ≤ Z.rep_MAX_STRING) :
    rep_make_string H Z E cb_alloc (some a) len h = Except.ok (repv.cell a,
      { h with
        cells := h.cells.set a
          { body := cell_body.string (len - 1) (List.replicate len.toNat 0), mark := false }
        strings := a :: h.strings
        allocated_strings := h.allocated_strings + 1
        allocated_string_bytes := h.allocated_string_bytes + Z.rep_DSTRING_SIZE len
        pairs := { h.pairs with
          rep_data_after_gc := h.pairs.rep_data_after_gc + Z.rep_DSTRING_SIZE len } }) := by
  simp only [rep_make_string, if_neg (not_lt.mpr hle)]

theorem rep_STR_store_body (h : Heap) (a : Nat) (len : Int) (data d : List Nat) (off : Nat)
    (bs : List Nat) (hb : (h.cells a).body = cell_body.string len data)
    (hst : store_bytes data off bs = some d) :
    ∃ h1, rep_STR_store h (repv.cell a) off bs = Except.ok h1 ∧
      (h1.cells a).body = cell_body.string len d :=
  ⟨_, rep_STR_store_string h a len data d off bs hb hst, by
    show (h.cells.set a _ a).body = _
    rw [cell_memory.set_eq]⟩

theorem rep_make_string_body (H : Header) (Z : Sizes) (E : Signals) (cb_alloc : Option Nat)
    (a : Nat) (len : Int) (h : Heap) (hle : len ≤ Z.rep_MAX_STRING) :
    ∃ h1, rep_make_string H Z E cb_alloc (some a) len h = Except.ok (repv.cell a, h1) ∧
      (h1.cells a).body = cell_body.string (len - 1) (List.replicate len.toNat 0) :=
  ⟨_, rep_make_string_ok H Z E cb_alloc a len h hle, by
    show (h.cells.set a _ a).body = _
    rw [cell_memory.set_eq]⟩

theorem rep_string_dupn_ok (H : Header) (Z : Sizes) (E : Signals) (cb_alloc : Option Nat)
    (a : Nat) (src : Nat → Nat) (n : Int) (h : Heap) (hn : 0 ≤ n)
    (hmax : n + 1 ≤ Z.rep_MAX_STRING) :
    ∃ h3, rep_string_dupn H Z E cb_alloc (some a) src n h = Except.ok (repv.cell a, h3) ∧
      (h3.cells a).body = cell_body.string n ((List.range n.toNat).map src ++ [0]) := by
  obtain ⟨h1, e1, b1⟩ := rep_make_string_body H Z E cb_alloc a (n + 1) h hmax
  have hN : (n + 1).toNat = ((List.range n.toNat).map src).length + 1 := by
    rw [List.length_map, List.length_range]
    omega
  rw [hN, show n + 1 - 1 = n by ring] at b1
  obtain ⟨h2, e2, b2⟩ := rep_STR_store_body h1 a n _ _ 0 ((List.range n.toNat).map src) b1
    (store_bytes_fresh _ 1)
  have hst : store_bytes ((List.range n.toNat).map src ++ List.replicate 1 0) n.toNat [0] =
      some ((List.range n.toNat).map src ++ [0]) := by
    have := store_bytes_over ((List.range n.toNat).map src) (List.replicate 1 0) [0] rfl
    rw [List.length_map, List.length_range] at this
    exact this
  obtain ⟨h3, e3, b3⟩ := rep_STR_store_body h2 a n _ _ n.toNat [0] b2 hst
  refine ⟨h3, ?_, b3⟩
  simp only [rep_string_dupn, e1, ne_eq, reduceCtorEq, not_false_eq_true, if_true,
    if_neg (not_lt.mpr hn), e2, e3]

theorem rep_concat2_ok (P : Platform) (H : Header) (Z : Sizes) (E : Signals)
    (cb_alloc : Option Nat) (a : Nat) (s1 s2 : List Nat) (h : Heap) (hb : 0 < P.int_bits)
    (hint : ((strlen s1 + strlen s2 : Nat) : Int) < 2 ^ (P.int_bits - 1))
    (hmax : ((strlen s1 + strlen s2 : Nat) : Int) + 1 ≤ Z.rep_MAX_STRING) :
    ∃ h3, rep_concat2 P H Z E cb_alloc (some a) s1 s2 h = Except.ok (repv.cell a, h3) ∧
      (h3.cells a).body =
        cell_body.string ((strlen s1 + strlen s2 : Nat) : Int)
          (c_string s1 ++ c_string s2 ++ [0]) := by
  have hlen : to_c_int P.int_bits ((strlen s1 + strlen s2 : Nat) : Int) =
      ((strlen s1 + strlen s2 : Nat) : Int) :=
    to_c_int_of_fits hb (by
      have : (0 : Int) < 2 ^ (P.int_bits - 1) := by positivity
      omega) hint
  obtain ⟨h1, e1, b1⟩ := rep_make_string_body H Z E cb_alloc a
    (((strlen s1 + strlen s2 : Nat) : Int) + 1) h hmax
  have hN : (((strlen s1 + strlen s2 : Nat) : Int) + 1).toNat =
      (c_string s1 ++ [0]).length + strlen s2 := by
    rw [List.length_append, List.length_singleton]
    unfold strlen
    omega
  rw [hN, show ((strlen s1 + strlen s2 : Nat) : Int) + 1 - 1 =
    ((strlen s1 + strlen s2 : Nat) : Int) by ring] at b1
  obtain ⟨h2, e2, b2⟩ := rep_STR_store_body h1 a _ _ _ 0 (c_string s1 ++ [0]) b1
    (store_bytes_fresh _ (strlen s2))
  have hst : store_bytes (c_string s1 ++ [0] ++ List.replicate (strlen s2) 0) (0 + strlen s1)
      (c_string s2 ++ [0]) = some (c_string s1 ++ c_string s2 ++ [0]) := by
    have := store_bytes_over (c_string s1) ([0] ++ List.replicate (strlen s2) 0)
      (c_string s2 ++ [0]) (by simp [strlen, Nat.add_comm])
    rw [Nat.zero_add]
    simpa [strlen, List.append_assoc] using this
  obtain ⟨h3, e3, b3⟩ := rep_STR_store_body h2 a _ _ _ (0 + strlen s1) (c_string s2 ++ [0]) b2 hst
  refine ⟨h3, ?_, b3⟩
  simp only [rep_concat2, Nat.cast_add, stpcpy] at e1 e2 e3 hlen ⊢
  simp only [hlen, e1, e2, e3]

/-- C24: for every `src` and every `n` with `0 ≤ n` and
`n + 1 ≤ rep_MAX_STRING`, when the allocation succeeds `rep_make_string (n + 1)`
records the length `n` and reserves `n + 1` bytes, and `rep_string_dupn (src, n)`
returns that string with recorded length `n`, holding the bytes `src[0]` to
`src[n - 1]` followed by a zero byte.  Likewise `rep_concat2 (s1, s2)`, when the
sum of the lengths fits an `int` and is below the limit, returns a string of
recorded length `strlen (s1) + strlen (s2)` holding the bytes of `s1`, those
of `s2` and a zero byte. -/
theorem rep_string_dupn_concat2_spec (P : Platform) (H : Header) (Z : Sizes) (E : Signals)
    (cb_alloc : Option Nat) (a : Nat) (src : Nat → Nat) (n : Int) (s1 s2 : List Nat) (h : Heap)
    (hn : 0 ≤ n) (hmax : n + 1 ≤ Z.rep_MAX_STRING) (hb : 0 < P.int_bits)
    (hint : ((strlen s1 + strlen s2 : Nat) : Int) < 2 ^ (P.int_bits - 1))
    (hcat : ((strlen s1 + strlen s2 : Nat) : Int) + 1 ≤ Z.rep_MAX_STRING) :
    (∃ h1, rep_make_string H Z E cb_alloc (some a) (n + 1) h = Except.ok (repv.cell a, h1) ∧
      rep_STRING_LEN (h1.cells a) = n ∧
      (rep_STR h1 (repv.cell a)).length = n.toNat + 1) ∧
    (∃ h3, rep_string_dupn H Z E cb_alloc (some a) src n h = Except.ok (repv.cell a, h3) ∧
      rep_STRING_LEN (h3.cells a) = n ∧
      rep_STR h3 (repv.cell a) = (List.range n.toNat).map src ++ [0] ∧
      (∀ i, i < n.toNat → (rep_STR h3 (repv.cell a)).getD i 1 = src i) ∧
      (rep_STR h3 (repv.cell a)).getD n.toNat 1 = 0) ∧
    ∃ h3, rep_concat2 P H Z E cb_alloc (some a) s1 s2 h = Except.ok (repv.cell a, h3) ∧
      rep_STRING_LEN (h3.cells a) = ((strlen s1 + strlen s2 : Nat) : Int) ∧
      rep_STR h3 (repv.cell a) = c_string s1 ++ c_string s2 ++ [0] := by
  refine ⟨?_, ?_, ?_⟩
  · obtain ⟨h1, e1, b1⟩ := rep_make_string_body H Z E cb_alloc a (n + 1) h hmax
    refine ⟨h1, e1, ?_, ?_⟩
    · simp only [rep_STRING_LEN, b1]
      ring
    · simp only [rep_STR, b1, List.length_replicate]
      omega
  · obtain ⟨h3, e3, b3⟩ := rep_string_dupn_ok H Z E cb_alloc a src n h hn hmax
    have hstr : rep_STR h3 (repv.cell a) = (List.range n.toNat).map src ++ [0] := by
      simp only [rep_STR, b3]
    refine ⟨h3, e3, by simp only [rep_STRING_LEN, b3], hstr, ?_, ?_⟩
    · intro i hi
      rw [hstr, List.getD_append _ _ _ _ (by simpa using hi)]
      simp [List.getD_eq_getElem?_getD, hi]
    · rw [hstr, List.getD_append_right _ _ _ _ (by simp)]
      simp
  · obtain ⟨h3, e3, b3⟩ := rep_concat2_ok P H Z E cb_alloc a s1 s2 h hb hint hcat
    exact ⟨h3, e3, by simp only [rep_STRING_LEN, b3], by simp only [rep_STR, b3]⟩

/-- Witness of C24: on the heap at program start, a copy of the 5 bytes
"hello" and the concatenation of "ab" and "c", each in the cell at 2000. -/
theorem rep_string_dupn_concat2_spec_witness :
    (0 : Int) ≤ 5 ∧ (5 : Int) + 1 ≤ sample_sizes.rep_MAX_STRING ∧
      ((strlen [97, 98] + strlen [99, 0, 100] : Nat) : Int) + 1 ≤ sample_sizes.rep_MAX_STRING ∧
      (∃ h3, rep_string_dupn sample_header sample_sizes sample_signals none (some 2000)
          (fun i => [104, 101, 108, 108, 111].getD i 0) 5 Heap.init =
          Except.ok (repv.cell 2000, h3) ∧
        rep_STRING_LEN (h3.cells 2000) = 5 ∧
        rep_STR h3 (repv.cell 2000) =
          (List.range (5 : Int).toNat).map (fun i => [104, 101, 108, 108, 111].getD i 0) ++
            [0]) ∧
      ∃ h3, rep_concat2 lp64 sample_header sample_sizes sample_signals none (some 2000)
          [97, 98] [99, 0, 100] Heap.init = Except.ok (repv.cell 2000, h3) ∧
        rep_STRING_LEN (h3.cells 2000) = ((strlen [97, 98] + strlen [99, 0, 100] : Nat) : Int) ∧
        rep_STR h3 (repv.cell 2000) = c_string [97, 98] ++ c_string [99, 0, 100] ++ [0] :=
  have hs := rep_string_dupn_concat2_spec lp64 sample_header sample_sizes sample_signals none
    2000 (fun i => [104, 101, 108, 108, 111].getD i 0) 5 [97, 98] [99, 0, 100] Heap.init
    (by decide) (by decide) (by decide) (by decide) (by decide)
  ⟨by decide, by decide, by decide,
    hs.2.1.imp (fun _ hx => ⟨hx.1, hx.2.1, hx.2.2.1⟩), hs.2.2⟩

end Rep
